import Mathlib

/-!
Shopify tracing: propagation codec, tracer, uploader and receiver translation.

A shallow embedding of `vendor/github.com/Shopify/tracing/propagation.go`, of the
identifier generator and `StartSpanWithOptions` of `vendor/github.com/Shopify/tracing/tracer.go`,
of the queue functions of `vendor/github.com/Shopify/tracing/uploader.go` and of the
translation, the ingestion endpoint and the lifecycle of
`receiver/shopifyreceiver/trace_receiver.go`.

Go strings are byte sequences; a byte is a `Nat` (its numeric value), so `len(h)` is
`List.length`.  `uint64` values are `Nat` with explicit reduction modulo `2^64`.
-/

namespace Tracing

/-- A Go string: its sequence of bytes. -/
abbrev GoString := List Nat

/-- Bytes of an ASCII literal. -/
def str (s : String) : GoString := s.toList.map Char.toNat

/-- The modulus of `uint64` arithmetic. -/
def u64 : Nat := 18446744073709551616

/-! ## Library functions used by the codec (Go standard library) -/

/-- `strings.Index(s, sep)` for a one-byte separator: position of the first
occurrence, or `-1`. -/
def Index (s : GoString) (c : Nat) : Int :=
  if s.indexOf c < s.length then (s.indexOf c : Int) else -1

/-- `strings.HasPrefix`. -/
def HasPrefix (s p : GoString) : Bool := p.isPrefixOf s

/-- Errors of `strconv.ParseUint`. -/
inductive NumError where
  | ErrSyntax
  | ErrRange
  deriving DecidableEq, Repr

/-- The cutoff of `strconv.ParseUint` for base 10: `maxUint64/10 + 1`. -/
def cutoff : Nat := (u64 - 1) / 10 + 1

/-- The largest value of `strconv.ParseUint` for bit size 64. -/
def maxVal : Nat := u64 - 1

/-- The function `lower(c)` of strconv: `c | ('x' - 'X')`. -/
def lower (c : Nat) : Nat := c ||| 32

/-- The digit value `d` that the loop of `strconv.ParseUint` gives a byte, `none`
for the default case (syntax error). -/
def digitOf (c : Nat) : Option Nat :=
  if 48 ≤ c ∧ c ≤ 57 then some (c - 48)
  else if 97 ≤ lower c ∧ lower c ≤ 122 then some (lower c - 97 + 10)
  else none

/-- The loop of `strconv.ParseUint(s, 10, 64)` over the bytes of `s`, `n` the
accumulator. -/
def parseLoop : GoString → Nat → Nat × Option NumError
  | [], n => (n, none)
  | c :: cs, n =>
    match digitOf c with
    | none => (0, some NumError.ErrSyntax)
    | some d =>
      if d ≥ 10 then (0, some NumError.ErrSyntax)
      else if n ≥ cutoff then (maxVal, some NumError.ErrRange)
      else
        let n10 := (n * 10) % u64
        let n1 := (n10 + d) % u64
        if n1 < n10 ∨ n1 > maxVal then (maxVal, some NumError.ErrRange)
        else parseLoop cs n1

/-- `strconv.ParseUint(s, 10, 64)`: the value and the error. -/
def ParseUint (s : GoString) : Nat × Option NumError :=
  if s = [] then (0, some NumError.ErrSyntax) else parseLoop s 0

/-- The digit loop of `fmt` for `%d` on an unsigned value: `for u >= 10 { ... }`,
the first argument bounds the number of iterations. -/
def fmtLoop : Nat → Nat → GoString → GoString
  | 0, u, acc => (48 + u) :: acc
  | fuel + 1, u, acc =>
    if u ≥ 10 then fmtLoop fuel (u / 10) ((48 + (u - (u / 10) * 10)) :: acc)
    else (48 + u) :: acc

/-- `fmt.Sprintf("%d", u)` for an unsigned `u`. -/
def fmtUint (u : Nat) : GoString := fmtLoop u u []

/-! ## propagation.go -/

def googleCloudTraceHeader : GoString := str "x-cloud-trace-context"

def shopifyTraceHeader : GoString := str "x-shopify-trace-context"

/-- `toGoogleTraceHeader`: `fmt.Sprintf("%s/%d;o=%d", traceID, spanID, options)`. -/
def toGoogleTraceHeader (traceID : GoString) (spanID : Nat) (sampled : Bool) : GoString :=
  let options := if sampled then 1 else 0
  traceID ++ str "/" ++ fmtUint spanID ++ str ";o=" ++ fmtUint options

/-- The four named results of `fromGoogleTraceHeader`. -/
structure Decoded where
  traceID : GoString
  spanID : Nat
  sampled : Bool
  ok : Bool
  deriving DecidableEq, Repr

/-- `fromGoogleTraceHeader`, with Go's named results: a bare `return` gives back
what has been assigned so far. -/
def fromGoogleTraceHeader (h : GoString) : Decoded :=
  if h = [] ∨ h.length > 200 then ⟨[], 0, false, false⟩
  else
    let slash := Index h 47
    if slash = -1 then ⟨[], 0, false, false⟩
    else
      let traceID := h.take slash.toNat
      let h := h.drop (slash.toNat + 1)
      let semicolon := Index h 59
      if semicolon = -1 then ⟨traceID, 0, false, false⟩
      else
        let spanstr := h.take semicolon.toNat
        let h := h.drop (semicolon.toNat + 1)
        let r := ParseUint spanstr
        let spanID := r.1
        if r.2 ≠ none then ⟨traceID, spanID, false, false⟩
        else if !HasPrefix h (str "o=") then ⟨traceID, spanID, false, false⟩
        else
          let r := ParseUint (h.drop 2)
          if r.2 ≠ none then ⟨traceID, spanID, false, false⟩
          else ⟨traceID, spanID, r.1 != 0, true⟩

/-- `strings.Replace(s, old, new, -1)` for one-byte `old` and `new`. -/
def Replace (s : GoString) (old new : Nat) : GoString :=
  s.map (fun c => if c = old then new else c)

/-- `strings.ToLower`: a string of ASCII bytes only is lowered byte by byte; any
other string goes through `Map(unicode.ToLower, s)`, the parameter `uni`. -/
def ToLower (uni : GoString → GoString) (s : GoString) : GoString :=
  if s.all (fun c => c < 128) then s.map (fun c => if 65 ≤ c ∧ c ≤ 90 then c + 32 else c)
  else uni s

/-- A Go map with string keys, as the list of its entries (one entry a key). -/
abbrev GoMap (V : Type) := List (GoString × V)

/-- The map lookup `m[k]` with its `ok` flag. -/
def mapGet {V : Type} (m : GoMap V) (k : GoString) : Option V :=
  match m with
  | [] => none
  | (k1, v1) :: rest => if k1 = k then some v1 else mapGet rest k

/-- The map assignment `m[k] = v`. -/
def mapSet {V : Type} (m : GoMap V) (k : GoString) (v : V) : GoMap V :=
  match m with
  | [] => [(k, v)]
  | (k1, v1) :: rest => if k1 = k then (k, v) :: rest else (k1, v1) :: mapSet rest k v

/-- The errors of opentracing that the propagators return. -/
inductive PropError where
  | ErrSpanContextNotFound
  | ErrSpanContextCorrupted
  | ErrInvalidSpanContext
  | ErrInvalidCarrier
  | ErrUnsupportedFormat
  deriving DecidableEq, Repr

deriving instance DecidableEq for Except

/-- `wireContext`, also the `spanContext` that `Inject` reads through `TraceID()`,
`SpanID()` and `Sampled()`. -/
structure wireContext where
  traceID : GoString
  spanID : Nat
  sampled : Bool
  deriving DecidableEq, Repr

/-- The variables that the handler closure of `textMapPropagator.Extract` writes. -/
structure ExtractVars where
  traceID : GoString
  spanID : Nat
  sampled : Bool
  googleCloudTraceHeaderFound : Bool
  shopifyTraceHeaderFound : Bool
  deriving DecidableEq, Repr

/-- The handler closure passed to `ForeachKey` by `textMapPropagator.Extract`. -/
def extractHandler (uni : GoString → GoString) (st : ExtractVars) (k v : GoString) :
    ExtractVars × Option PropError :=
  let lk := ToLower uni k
  if lk = shopifyTraceHeader then ({ st with shopifyTraceHeaderFound := true }, none)
  else if lk = googleCloudTraceHeader then
    let d := fromGoogleTraceHeader v
    let st1 := { st with traceID := d.traceID, spanID := d.spanID, sampled := d.sampled,
                         googleCloudTraceHeaderFound := d.ok }
    if !d.ok then (st1, some PropError.ErrSpanContextCorrupted) else (st1, none)
  else (st, none)

/-- The type of a handler with its closure state made explicit. -/
abbrev Handler := ExtractVars → GoString → GoString → ExtractVars × Option PropError

/-- The method `ForeachKey` of a `TextMapReader`. -/
abbrev ForeachKeyFn := Handler → ExtractVars → ExtractVars × Option PropError

/-- `ForeachKey` of a map carrier (`opentracing.TextMapCarrier`): the handler is
called on each entry, in the order `entries` in which `range` visits the map, until
it returns an error. -/
def TextMapCarrier.ForeachKey (entries : GoMap GoString) : ForeachKeyFn :=
  fun handler st =>
    match entries with
    | [] => (st, none)
    | (k, v) :: rest =>
      match handler st k v with
      | (st1, some err) => (st1, some err)
      | (st1, none) => TextMapCarrier.ForeachKey rest handler st1

/-- `Set` of a map carrier (`opentracing.TextMapCarrier`): `c[key] = val`. -/
def TextMapCarrier.Set (c : GoMap GoString) (key val : GoString) : GoMap GoString :=
  mapSet c key val

/-- `EnvironmentCarrier.Set`. -/
def EnvironmentCarrier.Set (c : GoMap GoString) (key val : GoString) : GoMap GoString :=
  mapSet c (Replace key 45 95) val

/-- `EnvironmentCarrier.ForeachKey`, `entries` the order in which `range` visits
the map. -/
def EnvironmentCarrier.ForeachKey (entries : GoMap GoString) : ForeachKeyFn :=
  fun handler st =>
    match entries with
    | [] => (st, none)
    | (k, v) :: rest =>
      let hk := Replace k 95 45
      let k1 := if hk = googleCloudTraceHeader ∨ hk = shopifyTraceHeader then hk else k
      match handler st k1 v with
      | (st1, some err) => (st1, some err)
      | (st1, none) => EnvironmentCarrier.ForeachKey rest handler st1

/-- `textMapPropagator.Inject` on a carrier that is a `TextMapWriter` with method
`set`. -/
def textMapPropagator.Inject {C : Type} (set : C → GoString → GoString → C)
    (sc : wireContext) (carrier : C) : C × Option PropError :=
  let header := toGoogleTraceHeader sc.traceID sc.spanID sc.sampled
  let carrier := set carrier googleCloudTraceHeader header
  let carrier := set carrier shopifyTraceHeader header
  (carrier, none)

/-- `textMapPropagator.Extract` on a carrier that is a `TextMapReader` with method
`foreachKey`.  The `tracerDog` counters are not modelled. -/
def textMapPropagator.Extract (uni : GoString → GoString) (foreachKey : ForeachKeyFn) :
    Except PropError wireContext :=
  match foreachKey (extractHandler uni) ⟨[], 0, false, false, false⟩ with
  | (_, some err) => Except.error err
  | (st, none) =>
    if !st.shopifyTraceHeaderFound ∨ !st.googleCloudTraceHeaderFound then
      Except.error PropError.ErrSpanContextNotFound
    else Except.ok ⟨st.traceID, st.spanID, st.sampled⟩

/-- `metadata.MD`. -/
abbrev MD := GoMap (List GoString)

/-- `grpcMetadataPropagator.Inject`. -/
def grpcMetadataPropagator.Inject (sc : wireContext) (carrier : MD) : MD × Option PropError :=
  let header := toGoogleTraceHeader sc.traceID sc.spanID sc.sampled
  (mapSet carrier googleCloudTraceHeader [header], none)

/-- `grpcMetadataPropagator.Extract`.  The `tracerDog` counters are not modelled. -/
def grpcMetadataPropagator.Extract (carrier : MD) : Except PropError wireContext :=
  match mapGet carrier googleCloudTraceHeader with
  | none => Except.error PropError.ErrSpanContextNotFound
  | some [] => Except.error PropError.ErrSpanContextNotFound
  | some (h0 :: _) =>
    let d := fromGoogleTraceHeader h0
    if !d.ok then Except.error PropError.ErrSpanContextCorrupted
    else Except.ok ⟨d.traceID, d.spanID, d.sampled⟩

/-! ## tracer.go: the identifier generator -/

/-- The two fields of `tracer` that the identifier generator uses. -/
structure tracer where
  spanIDCounter : Nat
  spanIDIncrement : Nat
  deriving DecidableEq, Repr

/-- `atomic.AddUint64(addr, delta)`: the new value, also stored at `addr`. -/
def AddUint64 (old delta : Nat) : Nat := (old + delta) % u64

/-- The loop `for id == 0 { id = atomic.AddUint64(...) }` of `nextSpanID` followed by
`return id`; the first argument bounds the number of iterations, `none` when it is
used up. -/
def nextSpanIDLoop : Nat → tracer → Nat → Option (Nat × tracer)
  | 0, t, id => if id = 0 then none else some (id, t)
  | fuel + 1, t, id =>
    if id = 0 then
      let c := AddUint64 t.spanIDCounter t.spanIDIncrement
      nextSpanIDLoop fuel { t with spanIDCounter := c } c
    else some (id, t)

/-- `tracer.nextSpanID`: the identifier and the updated tracer. -/
def nextSpanID (fuel : Nat) (t : tracer) : Option (Nat × tracer) :=
  nextSpanIDLoop fuel t 0

/-- The identifiers of `n` sequential calls of `nextSpanID`, in call order. -/
def nextSpanIDs (fuel : Nat) : Nat → tracer → Option (List Nat × tracer)
  | 0, t => some ([], t)
  | n + 1, t =>
    match nextSpanID fuel t with
    | none => none
    | some (id, t1) =>
      match nextSpanIDs fuel n t1 with
      | none => none
      | some (ids, t2) => some (id :: ids, t2)

/-- The digit `"0123456789abcdef"[d]` of `fmt` for the verb `%x`. -/
def hexDigit (d : Nat) : Nat := if d < 10 then 48 + d else 87 + d

/-- The digit loop of `fmt` for `%x`: `for u >= 16 { buf[i] = digits[u&0xF]; u >>= 4 }`
(`u & 0xF` is `u % 16`, `u >> 4` is `u / 16`); the first argument bounds the number of
iterations. -/
def fmtHexLoop : Nat → Nat → GoString → GoString
  | 0, u, acc => hexDigit u :: acc
  | fuel + 1, u, acc =>
    if u ≥ 16 then fmtHexLoop fuel (u / 16) (hexDigit (u % 16) :: acc)
    else hexDigit u :: acc

/-- `fmt.Sprintf("%016x", u)`: the hexadecimal digits, padded with `0` on the left to
the width 16. -/
def fmtHex016 (u : Nat) : GoString :=
  List.replicate (16 - (fmtHexLoop u u []).length) 48 ++ fmtHexLoop u u []

/-- `tracer.nextTraceID`: the identifier and the updated tracer. -/
def nextTraceID (fuel : Nat) (t : tracer) : Option (GoString × tracer) :=
  match nextSpanID fuel t with
  | none => none
  | some (id1, t1) =>
    match nextSpanID fuel t1 with
    | none => none
    | some (id2, t2) => some (fmtHex016 id1 ++ fmtHex016 id2, t2)

/-- `timestamp.Timestamp`. -/
structure Timestamp where
  Seconds : Int
  Nanos : Int
  deriving DecidableEq, Repr

/-- A `time.Time`, by what `Unix()` and `Nanosecond()` return. -/
structure Time where
  unix : Int
  nanosecond : Nat
  deriving DecidableEq, Repr

/-- `Time.IsZero`: the instant January 1, year 1, 00:00:00 UTC. -/
def Time.IsZero (t : Time) : Bool := t.unix == -62135596800 && t.nanosecond == 0

/-- `timeToTimestamp`. -/
def timeToTimestamp (t : Time) : Timestamp := ⟨t.unix, (t.nanosecond : Int)⟩

/-- The oneof field `Reference` of the generated message `Span` (`Span_ChildOf`,
`Span_FollowsFrom`). -/
inductive Span_Reference where
  | ChildOf (v : Nat)
  | FollowsFrom (v : Nat)
  deriving DecidableEq, Repr

/-- The generated message `Link`: trace id and span id bytes, and the enum `Type`
(the field `Typ`). -/
structure Link where
  TraceId : List Nat
  SpanId : List Nat
  Typ : Int
  deriving DecidableEq, Repr

/-- The generated message `Span`.  A nil map `Tags` and a nil `Links` read as the
empty map and the empty list; a nil `Reference`, `Start` or `End` is `none`; a nil
entry of `Links` is `none`. -/
structure Span where
  Id : Nat
  TraceId : GoString
  Operation : GoString
  Start : Option Timestamp
  End : Option Timestamp
  Tags : GoMap GoString
  Reference : Option Span_Reference
  Links : List (Option Link)
  deriving DecidableEq, Repr

/-- `opentracing.SpanReferenceType`, an `int`. -/
abbrev SpanReferenceType := Int

/-- `opentracing.ChildOfRef`. -/
def ChildOfRef : SpanReferenceType := 0

/-- `opentracing.FollowsFromRef`. -/
def FollowsFromRef : SpanReferenceType := 1

/-- `opentracing.SpanReference`; the referenced context is `some` of what its methods
`TraceID()`, `SpanID()` and `Sampled()` return when it is a `spanContext`, and `none`
when it is not one (the type assertion panics); `Typ` is the field `Type`. -/
structure SpanReference where
  Typ : SpanReferenceType
  ReferencedContext : Option wireContext
  deriving DecidableEq, Repr

/-- `opentracing.StartSpanOptions`, the tag values of any type `V`. -/
structure StartSpanOptions (V : Type) where
  References : List SpanReference
  StartTime : Time
  Tags : GoMap V

/-- How the loop over the references of `StartSpanWithOptions` ends. -/
inductive RefLoop where
  | returned (s : Span)
  | panicked
  | fellThrough
  deriving DecidableEq, Repr

/-- The loop `for _, ref := range opts.References` of `StartSpanWithOptions`. -/
def refLoop (s : Span) (newSpanID : Nat) : List SpanReference → RefLoop
  | [] => RefLoop.fellThrough
  | ref :: rest =>
    if ref.Typ = ChildOfRef ∨ ref.Typ = FollowsFromRef then
      match ref.ReferencedContext with
      | none => RefLoop.panicked
      | some refCtx =>
        let s1 : Span :=
          if ref.Typ = ChildOfRef then
            { s with Reference := some (Span_Reference.ChildOf refCtx.spanID) }
          else { s with Reference := some (Span_Reference.FollowsFrom refCtx.spanID) }
        RefLoop.returned { s1 with Id := newSpanID, TraceId := refCtx.traceID }
    else refLoop s newSpanID rest

/-- What a call of `StartSpanWithOptions` gives: the span and the updated tracer, or a
panic. -/
inductive Started where
  | span (s : Span) (t : tracer)
  | panic
  deriving DecidableEq, Repr

/-- `tracer.StartSpanWithOptions`; `now` is `time.Now()`, `sprint` is `fmt.Sprint` on
the tag values, `none` when the iteration bound of `nextSpanID` is used up. -/
def StartSpanWithOptions {V : Type} (fuel : Nat) (now : Time) (sprint : V → GoString)
    (t : tracer) (operationName : GoString) (opts : StartSpanOptions V) : Option Started :=
  let startTime := if opts.StartTime.IsZero then now else opts.StartTime
  let s : Span :=
    { Id := 0, TraceId := [], Operation := operationName,
      Start := some (timeToTimestamp startTime), End := none,
      Tags := opts.Tags.foldl (fun m kv => mapSet m kv.1 (sprint kv.2)) [],
      Reference := none, Links := [] }
  match nextSpanID fuel t with
  | none => none
  | some (newSpanID, t1) =>
    match refLoop s newSpanID opts.References with
    | RefLoop.returned s1 => some (Started.span s1 t1)
    | RefLoop.panicked => some Started.panic
    | RefLoop.fellThrough =>
      match nextTraceID fuel t1 with
      | none => none
      | some (traceID, t2) =>
        some (Started.span { s with Id := newSpanID, TraceId := traceID } t2)

/-! ## uploader.go -/

/-- `proto.SizeVarint`: the number of bytes of the varint encoding of `x`. -/
def SizeVarint (x : Nat) : Nat :=
  if x < 2 ^ 7 then 1
  else if x < 2 ^ 14 then 2
  else if x < 2 ^ 21 then 3
  else if x < 2 ^ 28 then 4
  else if x < 2 ^ 35 then 5
  else if x < 2 ^ 42 then 6
  else if x < 2 ^ 49 then 7
  else if x < 2 ^ 56 then 8
  else if x < 2 ^ 63 then 9
  else 10

/-- One call `tracerDog.Count(name, value, tags, 1)`. -/
structure Stat where
  name : GoString
  value : Int
  tags : List GoString
  deriving DecidableEq, Repr

/-- The errors that `enqueue` and `upload` return. -/
inductive UploadError where
  | ErrEnqueueBufferFull
  | marshalFailed
  | newRequestFailed
  | DeadlineExceeded
  | transportFailed
  deriving DecidableEq, Repr

/-- The state that the uploader works on: the options `byteLimit` and `bufferLimit`,
the buffered channel `spanChannel` as the list of the spans it holds, oldest first
(whether it is closed is an argument of `uploader.enqueue`), and the
package variables `tracerDog` (`none` for nil, else the `Count` calls made so far) and
`statsTags`.  The `Timer` and `Histogram` calls are not modelled. -/
structure uploader where
  byteLimit : Int
  bufferLimit : Nat
  spanChannel : List Span
  tracerDog : Option (List Stat)
  statsTags : List GoString
  deriving DecidableEq, Repr

/-- The statement `if tracerDog != nil { tracerDog.Count(name, value, tags, 1) }`. -/
def uploader.count (u : uploader) (name : GoString) (value : Int) (tags : List GoString) :
    uploader :=
  match u.tracerDog with
  | none => u
  | some calls => { u with tracerDog := some (calls ++ [⟨name, value, tags⟩]) }

/-- The body of `uploader.enqueue` on a channel that is open: the send of the `select`
succeeds when the buffer has room, else the default case runs. -/
def uploader.enqueueOpen (u : uploader) (s : Span) : uploader × Option UploadError :=
  if u.spanChannel.length < u.bufferLimit then
    ({ u with spanChannel := u.spanChannel ++ [s] }, none)
  else
    (u.count (str "proxy_producer.dropped_span") 1 u.statsTags,
      some UploadError.ErrEnqueueBufferFull)

/-- `uploader.enqueue`, as `recordSpan` and `ExportSpan` call it from any goroutine;
`closed` tells whether `periodicUploader` has closed `spanChannel` (its context is
done).  A send on a closed channel panics (`none`), also in a `select` with a default
case and whether the buffer has room or not. -/
def uploader.enqueue (closed : Bool) (u : uploader) (s : Span) :
    Option (uploader × Option UploadError) :=
  if closed then none else some (u.enqueueOpen s)

/-- The loop of `uploader.reenqueueOrFail` over the spans still to handle;
`spansLeft`, already decremented, is the number of spans after the current one.  The
call `u.enqueue(s)` finds the channel open: `reenqueueOrFail` runs inside `upload`, in
the goroutine of `periodicUploader`, which closes the channel only as it returns. -/
def reenqueueLoop (u : uploader) : List Span → uploader
  | [] => u
  | s :: rest =>
    match u.enqueueOpen s with
    | (u1, some _) =>
      if rest.length > 0 then
        u1.count (str "proxy_producer.dropped_span") (rest.length : Int) u1.statsTags
      else u1
    | (u1, none) => reenqueueLoop u1 rest

/-- `uploader.reenqueueOrFail`. -/
def uploader.reenqueueOrFail (u : uploader) (spansToSend : List Span) : uploader :=
  reenqueueLoop u spansToSend

/-- The loop of `uploader.dequeueSpans` over the spans that the channel holds;
`size` is `proto.Size`, `u` gives the limits and the stats client.  The call
`u.enqueue(s)` finds the channel open, as in `reenqueueLoop`. -/
def dequeueLoop (size : Span → Nat) (u : uploader) :
    List Span → Nat → List Span → List Span × uploader
  | [], _, spans => (spans, { u with spanChannel := [] })
  | s :: rest, totalSize, spans =>
    let protoSize := size s
    let protoSize := protoSize + (1 + SizeVarint protoSize)
    let totalSize := totalSize + protoSize
    if (protoSize : Int) > u.byteLimit then dequeueLoop size u rest totalSize spans
    else if (totalSize : Int) > u.byteLimit then
      (spans, (uploader.enqueueOpen { u with spanChannel := rest } s).1)
    else dequeueLoop size u rest totalSize (spans ++ [s])

/-- `uploader.dequeueSpans`: the batch and the uploader afterwards. -/
def uploader.dequeueSpans (size : Span → Nat) (u : uploader) : List Span × uploader :=
  dequeueLoop size u u.spanChannel 0 []

/-- What `ctxhttp.Do` gives: a response with its status code, or an error. -/
inductive PostResult where
  | response (statusCode : Int)
  | deadlineExceeded
  | failed
  deriving DecidableEq, Repr

/-- The map `traces` of `upload`: the number of spans of each trace id. -/
def traceCounts (spans : List Span) : GoMap Int :=
  spans.foldl (fun m s => mapSet m s.TraceId ((mapGet m s.TraceId).getD 0 + 1)) []

/-- The `Count` calls of the happy path of `upload` (the per-trace calls in one of the
orders in which `range` may visit the map). -/
def countSuccess (u : uploader) (spansToSend : List Span) : uploader :=
  let u := u.count (str "proxy_producer.uploaded_traces") ((traceCounts spansToSend).length : Int)
    u.statsTags
  let u := u.count (str "proxy_producer.api_calls.success") 1 u.statsTags
  (traceCounts spansToSend).foldl
    (fun u kv => u.count (str "proxy_producer.spans") kv.2 u.statsTags) u

/-- The reason tag of the sad path of `upload`. -/
def failureReason (statusCode : Int) : GoString :=
  if statusCode = 400 then str "bad_request"
  else if statusCode = 415 then str "unsupported_request"
  else if statusCode = 405 then str "method_not_allowed"
  else if statusCode = 500 then str "server_error"
  else str "unknown"

/-- `uploader.upload`; the outside world answers through `marshaled` (the length of
the bytes of `proto.Marshal`, `none` for an error), `requestOK` (whether
`http.NewRequest` succeeds) and `post` (what `ctxhttp.Do` gives). -/
def uploader.upload (size : Span → Nat) (marshaled : Option Nat) (requestOK : Bool)
    (post : PostResult) (u : uploader) : uploader × Option UploadError :=
  let (spansToSend, u) := u.dequeueSpans size
  if spansToSend.length = 0 then (u, none)
  else
    match marshaled with
    | none =>
      (u.count (str "proxy_producer.dropped_span") (spansToSend.length : Int) u.statsTags,
        some UploadError.marshalFailed)
    | some n =>
      let u := u.count (str "proxy_producer.payload_bytes") (n : Int) u.statsTags
      if !requestOK then
        (u.count (str "proxy_producer.dropped_span") (spansToSend.length : Int) u.statsTags,
          some UploadError.newRequestFailed)
      else
        match post with
        | PostResult.deadlineExceeded =>
          let u := u.reenqueueOrFail spansToSend
          (u.count (str "proxy_producer.api_calls.failure") 1 [str "reason:timeout"],
            some UploadError.DeadlineExceeded)
        | PostResult.failed =>
          let u := u.reenqueueOrFail spansToSend
          (u.count (str "proxy_producer.api_calls.failure") 1 [str "reason:unknown"],
            some UploadError.transportFailed)
        | PostResult.response statusCode =>
          if statusCode = 200 then (countSuccess u spansToSend, none)
          else
            (u.count (str "proxy_producer.api_calls.failure") 1
              [str "reason:" ++ failureReason statusCode], none)

/-! ## trace_receiver.go -/

/-- `fromHexChar` of `encoding/hex`. -/
def fromHexChar (c : Nat) : Option Nat :=
  if 48 ≤ c ∧ c ≤ 57 then some (c - 48)
  else if 97 ≤ c ∧ c ≤ 102 then some (c - 97 + 10)
  else if 65 ≤ c ∧ c ≤ 70 then some (c - 65 + 10)
  else none

/-- `hex.DecodeString`: the decoded bytes, `none` when it returns an error (a byte that
is no hexadecimal digit, or an odd length); `(a << 4) | b` is `a * 16 + b`. -/
def DecodeString : GoString → Option (List Nat)
  | [] => some []
  | [_] => none
  | a :: b :: rest =>
    match fromHexChar a, fromHexChar b with
    | some x, some y =>
      match DecodeString rest with
      | some bytes => some ((x * 16 + y) :: bytes)
      | none => none
    | _, _ => none

/-- The slice expression `traceID[:16]`: `spare` holds the bytes of the backing array
after the length of the slice, so the capacity is what both hold; the expression panics
(`none`) when 16 exceeds the capacity. -/
def sliceTo16 (traceID spare : List Nat) : Option (List Nat) :=
  if 16 ≤ traceID.length + spare.length then some ((traceID ++ spare).take 16) else none

/-- `tracepb.Span_SpanKind`. -/
inductive tracepb.Span_SpanKind where
  | SPAN_KIND_UNSPECIFIED
  | SERVER
  | CLIENT
  deriving DecidableEq, Repr

/-- `tracepb.AttributeValue`, of which the translation builds string values only. -/
inductive tracepb.AttributeValue where
  | StringValue (value : GoString)
  deriving DecidableEq, Repr

/-- `tracepb.Span_Link`; `Typ` is the field `Type`. -/
structure tracepb.Span_Link where
  TraceId : List Nat
  SpanId : List Nat
  Typ : Int
  deriving DecidableEq, Repr

/-- `tracepb.Status`. -/
structure tracepb.Status where
  Code : Int
  Message : GoString
  deriving DecidableEq, Repr

/-- `tracepb.Span`, with the fields that the translation sets; `none` is nil. -/
structure tracepb.Span where
  TraceId : List Nat
  SpanId : Option (List Nat)
  ParentSpanId : Option (List Nat)
  Name : GoString
  Kind : tracepb.Span_SpanKind
  StartTime : Option Timestamp
  EndTime : Option Timestamp
  Attributes : Option (GoMap tracepb.AttributeValue)
  Links : Option (List tracepb.Span_Link)
  Status : Option tracepb.Status
  deriving DecidableEq, Repr

/-- The getter `GetChildOf` generated for the oneof `Reference`: the value of a
`Span_ChildOf`, 0 for any other reference and for none. -/
def Span.GetChildOf (s : Span) : Nat :=
  match s.Reference with
  | some (Span_Reference.ChildOf v) => v
  | _ => 0

/-- The getter `GetFollowsFrom` generated for the oneof `Reference`: the value of a
`Span_FollowsFrom`, 0 for any other reference and for none. -/
def Span.GetFollowsFrom (s : Span) : Nat :=
  match s.Reference with
  | some (Span_Reference.FollowsFrom v) => v
  | _ => 0

/-- The index expression `tags[key]` on a `map[string]string`: the empty string for a
key that is absent. -/
def tagOf (tags : GoMap GoString) (key : GoString) : GoString :=
  (mapGet tags key).getD []

/-- Modelled from the spec: `tracetranslator.UInt64ToByteSpanID`, of a package of this
repository whose source is not at hand: no bytes for the id 0, otherwise the 8 bytes of
the id, big-endian. -/
def UInt64ToByteSpanID (id : Nat) : Option (List Nat) :=
  if id = 0 then none
  else some [id / 2 ^ 56 % 256, id / 2 ^ 48 % 256, id / 2 ^ 40 % 256, id / 2 ^ 32 % 256,
    id / 2 ^ 24 % 256, id / 2 ^ 16 % 256, id / 2 ^ 8 % 256, id % 256]

/-- `extractKind`. -/
def extractKind (span : Span) : tracepb.Span_SpanKind :=
  if tagOf span.Tags (str "span.kind") = str "client" then tracepb.Span_SpanKind.CLIENT
  else if tagOf span.Tags (str "span.kind") = str "server" then tracepb.Span_SpanKind.SERVER
  else tracepb.Span_SpanKind.SPAN_KIND_UNSPECIFIED

/-- `tagsToTraceAttributes`. -/
def tagsToTraceAttributes (tags : GoMap GoString) : Option (GoMap tracepb.AttributeValue) :=
  if tags.length = 0 then none
  else
    let attributes := tags.foldl (fun (m : GoMap tracepb.AttributeValue) kv =>
      if kv.1 = str "span.kind" ∨ kv.1 = str "error" then m
      else mapSet m kv.1 (tracepb.AttributeValue.StringValue kv.2)) []
    if attributes.length = 0 then none else some attributes

/-- `extractLinks`. -/
def extractLinks (span : Span) : Option (List tracepb.Span_Link) :=
  if span.Links.length = 0 then none
  else some (span.Links.filterMap (fun l =>
    match l with
    | none => none
    | some l => some ⟨l.TraceId, l.SpanId, l.Typ⟩))

/-- `extractStatus`. -/
def extractStatus (span : Span) : Option tracepb.Status :=
  if tagOf span.Tags (str "error") ≠ str "true" then none
  else some ⟨2, str "UNKNOWN"⟩

/-- The three results of `toTraceSpans`. -/
structure Translated where
  ocSpans : List tracepb.Span
  invalidSpans : Nat
  err : Option GoString
  deriving DecidableEq, Repr

/-- The loop of `toTraceSpans` over the records (a nil record is `none`); `spare`
gives, for a trace id string, the bytes that the backing array of the slice returned by
`hex.DecodeString` holds after the decoded bytes.  The result is `none` when the loop
panics. -/
def toTraceSpansLoop (spare : GoString → List Nat) :
    List (Option Span) → List tracepb.Span → Nat → Option (List tracepb.Span × Nat)
  | [], ocSpans, invalidSpans => some (ocSpans, invalidSpans)
  | none :: rest, ocSpans, invalidSpans => toTraceSpansLoop spare rest ocSpans (invalidSpans + 1)
  | some span :: rest, ocSpans, invalidSpans =>
    match DecodeString span.TraceId with
    | none => toTraceSpansLoop spare rest ocSpans (invalidSpans + 1)
    | some traceID =>
      let parentSpanID := if span.GetChildOf = 0 then span.GetFollowsFrom else span.GetChildOf
      match sliceTo16 traceID (spare span.TraceId) with
      | none => none
      | some traceID16 =>
        toTraceSpansLoop spare rest
          (ocSpans ++ [{
            TraceId := traceID16,
            SpanId := UInt64ToByteSpanID span.Id,
            ParentSpanId := UInt64ToByteSpanID parentSpanID,
            Name := span.Operation,
            Kind := extractKind span,
            StartTime := span.Start,
            EndTime := span.End,
            Attributes := tagsToTraceAttributes span.Tags,
            Links := extractLinks span,
            Status := extractStatus span }])
          invalidSpans

/-- `toTraceSpans`: `none` when it panics; the named result `err` is never assigned. -/
def toTraceSpans (spare : GoString → List Nat) (spans : List (Option Span)) :
    Option Translated :=
  match toTraceSpansLoop spare spans [] 0 with
  | none => none
  | some (ocSpans, invalidSpans) => some ⟨ocSpans, invalidSpans, none⟩

/-- `Span.parentSpanID` of span.go. -/
def Span.parentSpanID (s : Span) : Nat :=
  if s.GetChildOf ≠ 0 then s.GetChildOf else s.GetFollowsFrom

/-- The constant `requestSizeLimit`. -/
def requestSizeLimit : Nat := 1024 * 1024

/-- What the handler reads of an `http.Request`: the path, the method, the body (`none`
when reading it fails) and the header `X-Shopify-Trace-Application` (empty when
absent). -/
structure Request where
  Path : GoString
  Method : GoString
  Body : Option (List Nat)
  TraceApplication : GoString
  deriving DecidableEq, Repr

/-- One call of `nextConsumer.ConsumeTraceData`: the service name of the node and the
spans. -/
structure TraceData where
  ServiceName : GoString
  Spans : List tracepb.Span
  deriving DecidableEq, Repr

/-- What serving a request comes to: the status code of the response with the calls of
the consumer and the calls of `RecordTraceReceiverMetrics` (accepted and invalid spans),
or a panic of the handler. -/
inductive Served where
  | response (statusCode : Int) (consumed : List TraceData) (recorded : List (Nat × Nat))
  | panic
  deriving DecidableEq, Repr

/-- `ioutil.ReadAll(http.MaxBytesReader(w, r.Body, requestSizeLimit))`: an error
(`none`) when the body cannot be read or is longer than the limit. -/
def readBody (r : Request) : Option (List Nat) :=
  match r.Body with
  | none => none
  | some b => if b.length > requestSizeLimit then none else some b

/-- `ShopifyReceiver.ingest`; `unmarshal` is `proto.Unmarshal` into `tracing.Spans`
(`none` for an error).  A handler that returns without writing a header answers 200.
The tracing of the method itself is not modelled. -/
def ShopifyReceiver.ingest (spare : GoString → List Nat)
    (unmarshal : List Nat → Option (List (Option Span))) (r : Request) : Served :=
  if r.Method ≠ str "POST" then Served.response 405 [] []
  else
    match readBody r with
    | none => Served.response 400 [] []
    | some b =>
      match unmarshal b with
      | none => Served.response 415 [] []
      | some spans =>
        let proxiedApplication :=
          if r.TraceApplication = [] then str "unknown" else r.TraceApplication
        match toTraceSpans spare spans with
        | none => Served.panic
        | some out =>
          if out.err ≠ none then Served.response 400 [] []
          else
            Served.response 200 [⟨proxiedApplication, out.ocSpans⟩]
              [(out.ocSpans.length, out.invalidSpans)]

/-- `ShopifyReceiver.ServeHTTP`; `http.NotFound` answers 404. -/
def ShopifyReceiver.ServeHTTP (spare : GoString → List Nat)
    (unmarshal : List Nat → Option (List (Option Span))) (r : Request) : Served :=
  if r.Path = str "/" then ShopifyReceiver.ingest spare unmarshal r
  else Served.response 404 [] []

/-- The errors of the receiver. -/
inductive ReceiverError where
  | errNilNextConsumer
  | errAlreadyStarted
  | errAlreadyStopped
  | listenFailed
  | closeFailed
  deriving DecidableEq, Repr

/-- The fields of `ShopifyReceiver`: the address, the consumer (a handle), the two
`sync.Once` as their done flags, and `server`, `none` for nil. -/
structure ShopifyReceiver where
  addr : GoString
  nextConsumer : Nat
  startOnce : Bool
  stopOnce : Bool
  server : Option Nat
  deriving DecidableEq, Repr

/-- `New` of the receiver; the consumer is `none` for nil. -/
def ShopifyReceiver.New (address : GoString) (nextConsumer : Option Nat) :
    Except ReceiverError ShopifyReceiver :=
  match nextConsumer with
  | none => Except.error ReceiverError.errNilNextConsumer
  | some c => Except.ok ⟨address, c, false, false, none⟩

/-- `ShopifyReceiver.StartTraceReception`; `listen` is what `net.Listen` gives, `none`
for no error.  The function given to `startOnce.Do` runs on the first call only. -/
def ShopifyReceiver.StartTraceReception (listen : Option ReceiverError) (sr : ShopifyReceiver) :
    ShopifyReceiver × Option ReceiverError :=
  if sr.startOnce then (sr, some ReceiverError.errAlreadyStarted)
  else
    match listen with
    | some lerr => ({ sr with startOnce := true }, some lerr)
    | none => ({ sr with startOnce := true, server := some 0 }, none)

/-- What a call of `StopTraceReception` comes to: it returns, or it panics; the receiver
afterwards in both cases. -/
inductive Stopped where
  | returned (sr : ShopifyReceiver) (err : Option ReceiverError)
  | panic (sr : ShopifyReceiver)
  deriving DecidableEq, Repr

/-- `ShopifyReceiver.StopTraceReception`; `close` is what `sr.server.Close()` returns.
The function given to `stopOnce.Do` runs on the first call only, and the call
`sr.server.Close()` on a nil server dereferences a nil pointer; `sync.Once` is done also
when its function panics. -/
def ShopifyReceiver.StopTraceReception (close : Option ReceiverError) (sr : ShopifyReceiver) :
    Stopped :=
  if sr.stopOnce then Stopped.returned sr (some ReceiverError.errAlreadyStopped)
  else
    match sr.server with
    | none => Stopped.panic { sr with stopOnce := true }
    | some _ => Stopped.returned { sr with stopOnce := true } close

/-! ## Specification-side definitions -/

/-- A decimal digit byte, `'0'` to `'9'`. -/
def isDigit (c : Nat) : Prop := 48 ≤ c ∧ c ≤ 57

instance (c : Nat) : Decidable (isDigit c) := by unfold isDigit; infer_instance

/-- The number that the digit bytes `cs` denote in base ten, after the digits that
gave `n`. -/
def decValFrom (n : Nat) (cs : GoString) : Nat :=
  cs.foldl (fun a c => a * 10 + (c - 48)) n

/-- The number that the digit bytes `cs` denote in base ten. -/
def decVal (cs : GoString) : Nat := decValFrom 0 cs

/-- An unsigned 64-bit decimal number: one digit at least, digits only (no sign),
and a value below `2^64`. -/
def IsUintDecimal (s : GoString) : Prop :=
  s ≠ [] ∧ (∀ c ∈ s, isDigit c) ∧ decVal s < u64

/-- The header grammar `T/sp;o=o`: `h` is not empty and at most 200 bytes long, `T`
is the text before its first `/`, `sp` the text from there to the first `;` after it,
the rest is `o=` followed by `o`, and `sp` and `o` are unsigned 64-bit decimal
numbers. -/
def HeaderGrammar (h T sp o : GoString) : Prop :=
  h ≠ [] ∧ h.length ≤ 200 ∧ h = T ++ str "/" ++ sp ++ str ";" ++ str "o=" ++ o ∧
    47 ∉ T ∧ 59 ∉ sp ∧ IsUintDecimal sp ∧ IsUintDecimal o

/-- The span context held by the variables of `textMapPropagator.Extract`. -/
def ExtractVars.context (st : ExtractVars) : wireContext :=
  ⟨st.traceID, st.spanID, st.sampled⟩

/-- The span context that a decoded header gives. -/
def Decoded.context (d : Decoded) : wireContext :=
  ⟨d.traceID, d.spanID, d.sampled⟩

/-- Stands for `Map(unicode.ToLower, s)` on concrete inputs whose keys are ASCII, where
`ToLower` never calls it. -/
def asciiOnly : GoString → GoString := fun s => s

/-- The counter after `k` additions of the increment to the counter `c`: the arithmetic
progression that `nextSpanID` walks. -/
def progression (c inc k : Nat) : Nat := (fun x => AddUint64 x inc)^[k] c

/-- A lowercase hexadecimal digit byte, `0` to `9` or `a` to `f`. -/
def isHexLower (c : Nat) : Prop := (48 ≤ c ∧ c ≤ 57) ∨ (97 ≤ c ∧ c ≤ 102)

instance (c : Nat) : Decidable (isHexLower c) := by unfold isHexLower; infer_instance

/-- The value of a lowercase hexadecimal digit byte. -/
def hexDigitVal (c : Nat) : Nat := if c ≤ 57 then c - 48 else c - 87

/-- The number that the hexadecimal digit bytes `cs` denote, after the digits that
gave `n`. -/
def hexValFrom (n : Nat) (cs : GoString) : Nat :=
  cs.foldl (fun a c => a * 16 + hexDigitVal c) n

/-- The number that the hexadecimal digit bytes `cs` denote. -/
def hexVal (cs : GoString) : Nat := hexValFrom 0 cs

/-- A reference that `StartSpanWithOptions` acts on: child-of or follows-from. -/
def isParentRef (r : SpanReference) : Prop := r.Typ = ChildOfRef ∨ r.Typ = FollowsFromRef

instance (r : SpanReference) : Decidable (isParentRef r) := by
  unfold isParentRef; infer_instance

/-- The footprint of a span in a request: its encoded size, one tag byte and the
varint of the size. -/
def footprint (size : Span → Nat) (s : Span) : Nat := size s + (1 + SizeVarint (size s))

/-- The total footprint of a batch. -/
def totalFootprint (size : Span → Nat) (spans : List Span) : Nat :=
  (spans.map (footprint size)).sum

/-- The queue that independent attempts give: `enqueue` called, on the open channel,
on every span of the batch in turn, whatever the earlier calls returned. -/
def enqueueAll (u : uploader) (spans : List Span) : uploader :=
  spans.foldl (fun u s => (u.enqueueOpen s).1) u

/-- The total that the `Count` calls have added to the counter `name`; nothing when
there is no stats client. -/
def counterTotal (u : uploader) (name : GoString) : Int :=
  match u.tracerDog with
  | none => 0
  | some calls => ((calls.filter (fun c => c.name = name)).map (fun c => c.value)).sum

/-- Stands for `proto.Size` on concrete inputs: the encoded size of a span is taken to
be the number of bytes of its operation name. -/
def sizeOfOperation (s : Span) : Nat := s.Operation.length

/-- A span with the operation name `n` times `x`, for concrete inputs. -/
def spanOfSize (id n : Nat) : Span :=
  { Id := id, TraceId := [], Operation := List.replicate n 120, Start := none, End := none,
    Tags := [], Reference := none, Links := [] }

/-- Stands for the spare capacity on concrete inputs: none, the slice that
`hex.DecodeString` returns having just the capacity of its length (as it has for the
empty string). -/
def exactCapacity : GoString → List Nat := fun _ => []

/-- A record with the trace id `traceId` and the id `id`, for concrete inputs. -/
def recordOf (id : Nat) (traceId : GoString) : Span :=
  { Id := id, TraceId := traceId, Operation := str "op", Start := some ⟨0, 0⟩,
    End := some ⟨0, 0⟩, Tags := [], Reference := none, Links := [] }

/-- A valid record: not null, and its trace id is hex-decodable. -/
def validRecord (r : Option Span) : Option Span :=
  match r with
  | none => none
  | some s => if (DecodeString s.TraceId).isSome then some s else none

/-- The valid records of a batch, in input order. -/
def validRecords (recs : List (Option Span)) : List Span := recs.filterMap validRecord

/-- The number of records of a batch that are null or whose trace id is not
hex-decodable. -/
def invalidCount (recs : List (Option Span)) : Nat :=
  recs.countP (fun r => (validRecord r).isNone)

/-- The decoded trace id of a record has, with the spare bytes of its slice, the
capacity 16 that `traceID[:16]` needs. -/
def hasCapacity (spare : GoString → List Nat) (s : Span) : Prop :=
  16 ≤ ((DecodeString s.TraceId).getD []).length + (spare s.TraceId).length

instance (spare : GoString → List Nat) (s : Span) : Decidable (hasCapacity spare s) := by
  unfold hasCapacity; infer_instance

/-- The parent that the translation resolves: the child-of value when it is not zero,
otherwise the follows-from value. -/
def resolvedParent (s : Span) : Nat :=
  if s.GetChildOf ≠ 0 then s.GetChildOf else s.GetFollowsFrom

/-- The 8 bytes of a 64-bit value, big-endian. -/
def bigEndian8 (id : Nat) : List Nat :=
  [id / 2 ^ 56 % 256, id / 2 ^ 48 % 256, id / 2 ^ 40 % 256, id / 2 ^ 32 % 256,
    id / 2 ^ 24 % 256, id / 2 ^ 16 % 256, id / 2 ^ 8 % 256, id % 256]

/-- The span that the translation emits for a valid record. -/
def emitted (spare : GoString → List Nat) (s : Span) : tracepb.Span :=
  { TraceId := (((DecodeString s.TraceId).getD []) ++ spare s.TraceId).take 16,
    SpanId := UInt64ToByteSpanID s.Id,
    ParentSpanId := UInt64ToByteSpanID (resolvedParent s),
    Name := s.Operation,
    Kind := extractKind s,
    StartTime := s.Start,
    EndTime := s.End,
    Attributes := tagsToTraceAttributes s.Tags,
    Links := extractLinks s,
    Status := extractStatus s }

/-- A tag key that the translation reads itself and leaves out of the attributes. -/
def isReservedTag (k : GoString) : Prop := k = str "span.kind" ∨ k = str "error"

instance (k : GoString) : Decidable (isReservedTag k) := by
  unfold isReservedTag; infer_instance

/-- Whether a tag goes to the attributes: its key is not reserved. -/
def keepsTag (kv : GoString × GoString) : Bool := decide (¬ isReservedTag kv.1)

/-- The attribute entry of a tag: the same key, the value as a string attribute. -/
def attributeOf (kv : GoString × GoString) : GoString × tracepb.AttributeValue :=
  (kv.1, tracepb.AttributeValue.StringValue kv.2)

/-- Stands for `proto.Unmarshal` on concrete inputs: every body decodes to the batch
of one record with an unset trace id. -/
def unmarshalUnsetTraceId : List Nat → Option (List (Option Span)) :=
  fun _ => some [some (recordOf 1 [])]

/-- The number of decimal digits of a number (one for 0). -/
def decimalDigits (n : Nat) : Nat := Nat.log 10 n + 1

/-- Whether the own footprint of a span is within the ceiling of the uploader. -/
def fitsCeiling (size : Span → Nat) (u : uploader) (s : Span) : Bool :=
  decide ((footprint size s : Int) ≤ u.byteLimit)

/-- The number that a list of bytes denotes, big-endian. -/
def bigEndianValue (bytes : List Nat) : Nat := bytes.foldl (fun a b => a * 256 + b) 0

/-- The batch of `TestConvertSpansToTraceSpans`: a null record, a record whose trace id
is not hexadecimal, a record with a follows-from reference, one with a child-of
reference and one with no reference. -/
def testBatch : List (Option Span) :=
  [none,
   some { Id := 0, TraceId := str "not hex", Operation := [], Start := none, End := none,
          Tags := [], Reference := none, Links := [] },
   some { Id := 1, TraceId := str "0123456789abcdef0123456789abcdef", Operation := str "op",
          Start := some ⟨0, 0⟩, End := some ⟨0, 0⟩, Tags := [],
          Reference := some (Span_Reference.FollowsFrom 2), Links := [] },
   some { Id := 2, TraceId := str "0123456789abcdef0123456789abcdef", Operation := str "op",
          Start := some ⟨0, 0⟩, End := some ⟨0, 0⟩,
          Tags := [(str "span.kind", str "client"), (str "error", str "true")],
          Reference := some (Span_Reference.ChildOf 3), Links := [] },
   some { Id := 3, TraceId := str "0123456789abcdef0123456789abcdef", Operation := str "op",
          Start := some ⟨0, 0⟩, End := some ⟨0, 0⟩,
          Tags := [(str "span.kind", str "client"), (str "error", str "true"),
                   (str "key", str "value")],
          Reference := none,
          Links := [none,
            some ⟨[1, 35, 69, 103, 137, 171, 205, 239, 1, 35, 69, 103, 137, 171, 205, 239],
              [0, 0, 0, 0, 0, 0, 0, 1], 1⟩,
            some ⟨[1, 35, 69, 103, 137, 171, 205, 239, 1, 35, 69, 103, 137, 171, 205, 239],
              [0, 0, 0, 0, 0, 0, 0, 2], 2⟩,
            some ⟨[1, 35, 69, 103, 137, 171, 205, 239, 1, 35, 69, 103, 137, 171, 205, 239],
              [0, 0, 0, 0, 0, 0, 0, 3], 0⟩] }]

/-! ## Evaluation on concrete inputs -/

example : uploader.enqueue true ⟨10, 1, [], none, []⟩ (spanOfSize 1 5) = none := by decide
example : uploader.enqueue false ⟨10, 1, [], none, []⟩ (spanOfSize 1 5) =
    some (⟨10, 1, [spanOfSize 1 5], none, []⟩, none) := by decide
example : (textMapPropagator.Inject EnvironmentCarrier.Set ⟨str "abc", 42, true⟩ []).1 =
    [(str "x_cloud_trace_context", str "abc/42;o=1"),
     (str "x_shopify_trace_context", str "abc/42;o=1")] := by decide

example : fromGoogleTraceHeader (str "T/1;o=2") = ⟨str "T", 1, true, true⟩ := by decide
example : toGoogleTraceHeader (str "abc") 1234 true = str "abc/1234;o=1" := by decide
example : fromGoogleTraceHeader (str "abc/18446744073709551615;o=0") =
    ⟨str "abc", 18446744073709551615, false, true⟩ := by decide
example : (fromGoogleTraceHeader (str "abc/18446744073709551616;o=0")).ok = false := by decide
example :
    textMapPropagator.Extract id (TextMapCarrier.ForeachKey
      [(str "X-Cloud-Trace-Context", str "t/7;o=1"), (str "x-shopify-trace-context", [])]) =
    Except.ok ⟨str "t", 7, true⟩ := by decide
example : nextSpanIDs 2 3 ⟨u64 - 2, 1⟩ = some ([u64 - 1, 1, 2], ⟨2, 1⟩) := by decide
example : fmtHex016 255 = str "00000000000000ff" := by decide
example : counterTotal (uploader.reenqueueOrFail ⟨10, 2, [spanOfSize 1 5], some [], []⟩
      [spanOfSize 2 5, spanOfSize 3 5, spanOfSize 4 5]) (str "proxy_producer.dropped_span") = 2 := by
  decide
example : toTraceSpans exactCapacity
      [none, some (recordOf 0 (str "not hex")),
       some { recordOf 1 (str "0123456789abcdef0123456789abcdef") with
              Reference := some (Span_Reference.FollowsFrom 2) }] =
    some ⟨[⟨[1, 35, 69, 103, 137, 171, 205, 239, 1, 35, 69, 103, 137, 171, 205, 239],
            some [0, 0, 0, 0, 0, 0, 0, 1], some [0, 0, 0, 0, 0, 0, 0, 2], str "op",
            tracepb.Span_SpanKind.SPAN_KIND_UNSPECIFIED, some ⟨0, 0⟩, some ⟨0, 0⟩,
            none, none, none⟩], 2, none⟩ := by decide
example : (uploader.dequeueSpans sizeOfOperation
      ⟨10, 5, [spanOfSize 1 5, spanOfSize 2 1, spanOfSize 3 5], none, []⟩) =
    ([spanOfSize 1 5, spanOfSize 2 1], ⟨10, 5, [spanOfSize 3 5], none, []⟩) := by decide
example : toTraceSpans exactCapacity testBatch =
    some ⟨[⟨[1, 35, 69, 103, 137, 171, 205, 239, 1, 35, 69, 103, 137, 171, 205, 239],
            some [0, 0, 0, 0, 0, 0, 0, 1], some [0, 0, 0, 0, 0, 0, 0, 2], str "op",
            tracepb.Span_SpanKind.SPAN_KIND_UNSPECIFIED, some ⟨0, 0⟩, some ⟨0, 0⟩,
            none, none, none⟩,
           ⟨[1, 35, 69, 103, 137, 171, 205, 239, 1, 35, 69, 103, 137, 171, 205, 239],
            some [0, 0, 0, 0, 0, 0, 0, 2], some [0, 0, 0, 0, 0, 0, 0, 3], str "op",
            tracepb.Span_SpanKind.CLIENT, some ⟨0, 0⟩, some ⟨0, 0⟩,
            none, none, some ⟨2, str "UNKNOWN"⟩⟩,
           ⟨[1, 35, 69, 103, 137, 171, 205, 239, 1, 35, 69, 103, 137, 171, 205, 239],
            some [0, 0, 0, 0, 0, 0, 0, 3], none, str "op",
            tracepb.Span_SpanKind.CLIENT, some ⟨0, 0⟩, some ⟨0, 0⟩,
            some [(str "key", tracepb.AttributeValue.StringValue (str "value"))],
            some [⟨[1, 35, 69, 103, 137, 171, 205, 239, 1, 35, 69, 103, 137, 171, 205, 239],
                   [0, 0, 0, 0, 0, 0, 0, 1], 1⟩,
                  ⟨[1, 35, 69, 103, 137, 171, 205, 239, 1, 35, 69, 103, 137, 171, 205, 239],
                   [0, 0, 0, 0, 0, 0, 0, 2], 2⟩,
                  ⟨[1, 35, 69, 103, 137, 171, 205, 239, 1, 35, 69, 103, 137, 171, 205, 239],
                   [0, 0, 0, 0, 0, 0, 0, 3], 0⟩],
            some ⟨2, str "UNKNOWN"⟩⟩], 2, none⟩ := by decide
example : nextTraceID 2 ⟨u64 - 2, 1⟩ =
    some (str "ffffffffffffffff0000000000000001", ⟨1, 1⟩) := by decide

/-! ## Lemmas on the library functions -/

theorem Index_eq_neg_one {s : GoString} {c : Nat} : Index s c = -1 ↔ c ∉ s := by
  unfold Index
  by_cases h : s.indexOf c < s.length
  · have hm := List.indexOf_lt_length.mp h
    simp only [h, if_true]
    constructor
    · intro h1; omega
    · intro h1; exact absurd hm h1
  · have hm : c ∉ s := fun hc => h (List.indexOf_lt_length.mpr hc)
    simp [h, hm]

theorem Index_append {a b : GoString} {c : Nat} (h : c ∉ a) :
    Index (a ++ c :: b) c = (a.length : Int) := by
  unfold Index
  rw [List.indexOf_append_of_not_mem h]
  simp

theorem Index_split {s : GoString} {c : Nat} (h : Index s c ≠ -1) :
    ∃ a b, s = a ++ c :: b ∧ c ∉ a ∧ s.take (Index s c).toNat = a ∧
      s.drop ((Index s c).toNat + 1) = b := by
  have hm : c ∈ s := by
    by_contra hc
    exact h (Index_eq_neg_one.mpr hc)
  obtain ⟨a, b, hs, ha⟩ := List.eq_append_cons_of_mem hm
  refine ⟨a, b, hs, ha, ?_, ?_⟩
  · rw [hs, Index_append ha]; simp
  · rw [hs, Index_append ha]; simp

theorem digitOf_digit {c : Nat} (h : isDigit c) : digitOf c = some (c - 48) := by
  unfold isDigit at h
  simp [digitOf, h]

theorem digitOf_nondigit {c : Nat} (h : ¬ isDigit c) :
    digitOf c = none ∨ ∃ d, digitOf c = some d ∧ d ≥ 10 := by
  unfold isDigit at h
  unfold digitOf
  rw [if_neg h]
  by_cases h2 : 97 ≤ lower c ∧ lower c ≤ 122
  · right; exact ⟨lower c - 97 + 10, by rw [if_pos h2], by omega⟩
  · left; rw [if_neg h2]

theorem decValFrom_ge (cs : GoString) (n : Nat) : n ≤ decValFrom n cs := by
  induction cs generalizing n with
  | nil => simp [decValFrom]
  | cons c cs ih =>
    have := ih (n * 10 + (c - 48))
    simp only [decValFrom, List.foldl_cons] at this ⊢
    omega

theorem decValFrom_cons (c : Nat) (cs : GoString) (n : Nat) :
    decValFrom n (c :: cs) = decValFrom (n * 10 + (c - 48)) cs := rfl

theorem parseLoop_spec (cs : GoString) (n : Nat) (hn : n < u64) :
    ((parseLoop cs n).2 = none ↔ (∀ c ∈ cs, isDigit c) ∧ decValFrom n cs < u64) ∧
    ((parseLoop cs n).2 = none → (parseLoop cs n).1 = decValFrom n cs) := by
  induction cs generalizing n with
  | nil => simp [parseLoop, decValFrom, hn]
  | cons c cs ih =>
    by_cases hc : isDigit c
    · have hd : c - 48 < 10 := by unfold isDigit at hc; omega
      have hge := decValFrom_ge cs (n * 10 + (c - 48))
      rw [decValFrom_cons]
      simp only [parseLoop, digitOf_digit hc]
      rw [if_neg (by omega)]
      by_cases hcut : n ≥ cutoff
      · rw [if_pos hcut]
        have : n * 10 + (c - 48) ≥ u64 := by
          unfold cutoff u64 at hcut; unfold u64; omega
        constructor
        · constructor
          · intro h; simp at h
          · intro h; omega
        · intro h; simp at h
      · rw [if_neg hcut]
        have h10 : n * 10 % u64 = n * 10 := by
          apply Nat.mod_eq_of_lt
          unfold cutoff u64 at hcut; unfold u64; omega
        simp only [h10]
        by_cases hov : n * 10 + (c - 48) < u64
        · have h1 : (n * 10 + (c - 48)) % u64 = n * 10 + (c - 48) := Nat.mod_eq_of_lt hov
          simp only [h1]
          rw [if_neg (by unfold maxVal; omega)]
          have := ih (n * 10 + (c - 48)) hov
          constructor
          · rw [this.1]
            simp [hc]
          · exact this.2
        · have h1 : (n * 10 + (c - 48)) % u64 < n * 10 := by
            have hcu : cutoff = 1844674407370955162 := by decide
            have hu : u64 = 18446744073709551616 := rfl
            rw [hu] at hov ⊢
            rw [hcu] at hcut
            omega
          rw [if_pos (Or.inl h1)]
          constructor
          · constructor
            · intro h; simp at h
            · intro h; omega
          · intro h; simp at h
    · constructor
      · constructor
        · intro h
          exfalso
          rcases digitOf_nondigit hc with h0 | ⟨d, h0, hd⟩
          · simp [parseLoop, h0] at h
          · simp [parseLoop, h0, hd] at h
        · intro h
          exact absurd (h.1 c (List.mem_cons_self _ _)) hc
      · intro h
        exfalso
        rcases digitOf_nondigit hc with h0 | ⟨d, h0, hd⟩
        · simp [parseLoop, h0] at h
        · simp [parseLoop, h0, hd] at h

theorem ParseUint_ok_iff (s : GoString) : (ParseUint s).2 = none ↔ IsUintDecimal s := by
  unfold ParseUint IsUintDecimal decVal
  by_cases hs : s = []
  · simp [hs]
  · rw [if_neg hs]
    rw [(parseLoop_spec s 0 (by unfold u64; omega)).1]
    simp [hs]

theorem ParseUint_val {s : GoString} (h : (ParseUint s).2 = none) :
    (ParseUint s).1 = decVal s := by
  unfold ParseUint decVal at *
  by_cases hs : s = []
  · simp [hs] at h
  · rw [if_neg hs] at h ⊢
    exact (parseLoop_spec s 0 (by unfold u64; omega)).2 h

theorem fmtLoop_val (fuel : Nat) : ∀ (u : Nat) (acc : GoString), u ≤ fuel →
    decValFrom 0 (fmtLoop fuel u acc) = decValFrom u acc := by
  induction fuel with
  | zero =>
    intro u acc hu
    have : u = 0 := by omega
    subst this
    simp [fmtLoop, decValFrom]
  | succ fuel ih =>
    intro u acc hu
    by_cases h10 : u ≥ 10
    · simp only [fmtLoop, if_pos h10]
      rw [ih (u / 10) _ (by omega), decValFrom_cons]
      congr 1
      omega
    · simp only [fmtLoop, if_neg h10, decValFrom_cons]
      congr 1
      omega

theorem fmtLoop_isDigit (fuel : Nat) : ∀ (u : Nat) (acc : GoString), u ≤ fuel →
    ∀ c ∈ fmtLoop fuel u acc, isDigit c ∨ c ∈ acc := by
  induction fuel with
  | zero =>
    intro u acc hu c hc
    have : u = 0 := by omega
    subst this
    simp only [fmtLoop, List.mem_cons] at hc
    rcases hc with hc | hc
    · left; unfold isDigit; omega
    · right; exact hc
  | succ fuel ih =>
    intro u acc hu c hc
    by_cases h10 : u ≥ 10
    · simp only [fmtLoop, if_pos h10] at hc
      rcases ih (u / 10) _ (by omega) c hc with h | h
      · left; exact h
      · simp only [List.mem_cons] at h
        rcases h with h | h
        · left; unfold isDigit; omega
        · right; exact h
    · simp only [fmtLoop, if_neg h10, List.mem_cons] at hc
      rcases hc with hc | hc
      · left; unfold isDigit; omega
      · right; exact hc

theorem fmtLoop_ne_nil (fuel u : Nat) (acc : GoString) : fmtLoop fuel u acc ≠ [] := by
  induction fuel generalizing u acc with
  | zero => simp [fmtLoop]
  | succ fuel ih =>
    by_cases h10 : u ≥ 10
    · simp only [fmtLoop, if_pos h10]; exact ih _ _
    · simp [fmtLoop, if_neg h10]

theorem fmtLoop_length (fuel : Nat) : ∀ (u : Nat) (acc : GoString) (k : Nat), u ≤ fuel →
    u < 10 ^ (k + 1) → (fmtLoop fuel u acc).length ≤ k + 1 + acc.length := by
  induction fuel with
  | zero =>
    intro u acc k _ _
    simp only [fmtLoop, List.length_cons]
    omega
  | succ fuel ih =>
    intro u acc k hu hk
    by_cases h10 : u ≥ 10
    · simp only [fmtLoop, if_pos h10]
      cases k with
      | zero => simp at hk; omega
      | succ k =>
        have hdiv : u / 10 < 10 ^ (k + 1) := by
          apply Nat.div_lt_of_lt_mul
          rw [pow_succ] at hk
          omega
        have := ih (u / 10) ((48 + (u - u / 10 * 10)) :: acc) k (by omega) hdiv
        simp only [List.length_cons] at this
        omega
    · simp only [fmtLoop, if_neg h10, List.length_cons]
      omega

theorem fmtUint_isDigit (u : Nat) : ∀ c ∈ fmtUint u, isDigit c := by
  intro c hc
  rcases fmtLoop_isDigit u u [] (le_refl u) c hc with h | h
  · exact h
  · simp at h

theorem fmtUint_val (u : Nat) : decVal (fmtUint u) = u := by
  unfold decVal fmtUint
  rw [fmtLoop_val u u [] (le_refl u)]
  rfl

theorem fmtUint_length {u : Nat} (h : u < u64) : (fmtUint u).length ≤ 20 := by
  have := fmtLoop_length u u [] 19 (le_refl u) (by unfold u64 at h; omega)
  simpa [fmtUint] using this

theorem fmtUint_decimal {u : Nat} (h : u < u64) : IsUintDecimal (fmtUint u) :=
  ⟨fmtLoop_ne_nil u u [], fmtUint_isDigit u, by rw [fmtUint_val]; exact h⟩

theorem ParseUint_fmtUint {u : Nat} (h : u < u64) : ParseUint (fmtUint u) = (u, none) := by
  have hok := (ParseUint_ok_iff _).mpr (fmtUint_decimal h)
  have hv := ParseUint_val hok
  rw [fmtUint_val] at hv
  exact Prod.ext hv hok

theorem not_mem_of_isDigit {s : GoString} (h : ∀ c ∈ s, isDigit c) {x : Nat}
    (hx : ¬ isDigit x) : x ∉ s := fun hm => hx (h x hm)

/-! ## Lemmas on the header codec -/

/-- The decoder on a header that is split at its first `/` and, after it, at the
first `;`. -/
theorem fromGoogleTraceHeader_split {T sp rest : GoString} (hT : 47 ∉ T) (hsp : 59 ∉ sp)
    (hlen : (T ++ 47 :: (sp ++ 59 :: rest)).length ≤ 200) :
    fromGoogleTraceHeader (T ++ 47 :: (sp ++ 59 :: rest)) =
      if (ParseUint sp).2 ≠ none then ⟨T, (ParseUint sp).1, false, false⟩
      else if !HasPrefix rest (str "o=") then ⟨T, (ParseUint sp).1, false, false⟩
      else if (ParseUint (rest.drop 2)).2 ≠ none then ⟨T, (ParseUint sp).1, false, false⟩
      else ⟨T, (ParseUint sp).1, (ParseUint (rest.drop 2)).1 != 0, true⟩ := by
  have h1 : ¬ (T ++ 47 :: (sp ++ 59 :: rest) = [] ∨ (T ++ 47 :: (sp ++ 59 :: rest)).length > 200) := by
    intro h
    rcases h with h | h
    · simp at h
    · omega
  have hi1 : Index (T ++ 47 :: (sp ++ 59 :: rest)) 47 = (T.length : Int) := Index_append hT
  have hi2 : Index (sp ++ 59 :: rest) 59 = (sp.length : Int) := Index_append hsp
  have hd : List.drop (T.length + 1) (T ++ 47 :: (sp ++ 59 :: rest)) = sp ++ 59 :: rest := by
    rw [List.drop_append_eq_append_drop]
    simp
  have ht : List.take T.length (T ++ 47 :: (sp ++ 59 :: rest)) = T := by simp
  have hd2 : List.drop (sp.length + 1) (sp ++ 59 :: rest) = rest := by
    rw [List.drop_append_eq_append_drop]
    simp
  have ht2 : List.take sp.length (sp ++ 59 :: rest) = sp := by simp
  have hne1 : ¬ ((T.length : Int) = -1) := by omega
  have hne2 : ¬ ((sp.length : Int) = -1) := by omega
  unfold fromGoogleTraceHeader
  rw [if_neg h1]
  simp only [hi1, Int.toNat_ofNat, hd, ht, hi2, hd2, ht2, if_neg hne1, if_neg hne2]

/-- A header that the decoder accepts is split at its first `/` and, after it, at the
first `;`. -/
theorem fromGoogleTraceHeader_ok_split {h : GoString} (hok : (fromGoogleTraceHeader h).ok = true) :
    h.length ≤ 200 ∧ ∃ T sp rest, h = T ++ 47 :: (sp ++ 59 :: rest) ∧ 47 ∉ T ∧ 59 ∉ sp := by
  unfold fromGoogleTraceHeader at hok
  by_cases h1 : h = [] ∨ h.length > 200
  · rw [if_pos h1] at hok; simp at hok
  · rw [if_neg h1] at hok
    by_cases h2 : Index h 47 = -1
    · simp [h2] at hok
    · obtain ⟨T, r, hs, hT, _, hdrop⟩ := Index_split h2
      simp only [h2, if_false, hdrop] at hok
      by_cases h3 : Index r 59 = -1
      · simp [h3] at hok
      · obtain ⟨sp, rest, hs2, hsp, _, _⟩ := Index_split h3
        refine ⟨by omega, T, sp, rest, ?_, hT, hsp⟩
        rw [hs, hs2]

theorem str_slash : str "/" = [47] := by decide

theorem str_semicolon : str ";" = [59] := by decide

theorem str_o_eq : str "o=" = [111, 61] := by decide

theorem str_semicolon_o_eq : str ";o=" = [59, 111, 61] := by decide

theorem HasPrefix_o_eq {rest : GoString} (h : HasPrefix rest (str "o=") = true) :
    rest = 111 :: 61 :: rest.drop 2 := by
  rw [str_o_eq] at h
  unfold HasPrefix at h
  rw [List.isPrefixOf_iff_prefix] at h
  obtain ⟨t, ht⟩ := h
  rw [← ht]
  simp

theorem grammar_shape (T sp o : GoString) :
    T ++ str "/" ++ sp ++ str ";" ++ str "o=" ++ o = T ++ 47 :: (sp ++ 59 :: (111 :: 61 :: o)) := by
  rw [str_slash, str_semicolon, str_o_eq]
  simp

/-- The decoder on a header of the grammar. -/
theorem fromGoogleTraceHeader_of_grammar {h T sp o : GoString} (hg : HeaderGrammar h T sp o) :
    fromGoogleTraceHeader h = ⟨T, decVal sp, decVal o != 0, true⟩ := by
  obtain ⟨_, hlen, hh, hT, hsp, hdsp, hdo⟩ := hg
  rw [grammar_shape] at hh
  subst hh
  have h1 := (ParseUint_ok_iff sp).mpr hdsp
  have h2 := (ParseUint_ok_iff o).mpr hdo
  rw [fromGoogleTraceHeader_split hT hsp hlen]
  have hp : HasPrefix (111 :: 61 :: o) (str "o=") = true := by
    rw [str_o_eq]; simp [HasPrefix]
  have hdrop : List.drop 2 (111 :: 61 :: o) = o := rfl
  simp only [h1, hp, hdrop, h2, ne_eq, not_true_eq_false, if_false, Bool.not_true,
    Bool.false_eq_true, ParseUint_val h1, ParseUint_val h2]

/-- A header that the decoder accepts is of the grammar. -/
theorem grammar_of_ok {h : GoString} (hok : (fromGoogleTraceHeader h).ok = true) :
    ∃ T sp o, HeaderGrammar h T sp o := by
  obtain ⟨hlen, T, sp, rest, hh, hT, hsp⟩ := fromGoogleTraceHeader_ok_split hok
  subst hh
  rw [fromGoogleTraceHeader_split hT hsp hlen] at hok
  by_cases h1 : (ParseUint sp).2 ≠ none
  · rw [if_pos h1] at hok; simp at hok
  · rw [if_neg h1] at hok
    by_cases h2 : (!HasPrefix rest (str "o=")) = true
    · rw [if_pos h2] at hok; simp at hok
    · rw [if_neg h2] at hok
      by_cases h3 : (ParseUint (rest.drop 2)).2 ≠ none
      · rw [if_pos h3] at hok; simp at hok
      · have hp : HasPrefix rest (str "o=") = true := by simpa using h2
        have hrest := HasPrefix_o_eq hp
        refine ⟨T, sp, rest.drop 2, by simp, hlen, ?_, hT, hsp, ?_, ?_⟩
        · rw [grammar_shape, ← hrest]
        · exact (ParseUint_ok_iff sp).mp (by simpa using h1)
        · exact (ParseUint_ok_iff _).mp (by simpa using h3)

theorem toGoogleTraceHeader_shape (T : GoString) (S : Nat) (b : Bool) :
    toGoogleTraceHeader T S b =
      T ++ str "/" ++ fmtUint S ++ str ";" ++ str "o=" ++ fmtUint (if b then 1 else 0) := by
  unfold toGoogleTraceHeader
  rw [str_semicolon_o_eq, str_semicolon, str_o_eq]
  simp

theorem toGoogleTraceHeader_length (T : GoString) (S : Nat) (b : Bool) :
    (toGoogleTraceHeader T S b).length = T.length + (fmtUint S).length + 5 := by
  rw [toGoogleTraceHeader_shape, str_slash, str_semicolon, str_o_eq]
  cases b <;> simp [fmtUint, fmtLoop] <;> omega

/-- The encoded header is of the grammar when it is short enough and the trace id
has no `/`. -/
theorem toGoogleTraceHeader_grammar {T : GoString} {S : Nat} {b : Bool} (hT : 47 ∉ T)
    (hS : S < u64) (hlen : (toGoogleTraceHeader T S b).length ≤ 200) :
    HeaderGrammar (toGoogleTraceHeader T S b) T (fmtUint S) (fmtUint (if b then 1 else 0)) := by
  refine ⟨?_, hlen, toGoogleTraceHeader_shape T S b, hT, ?_, fmtUint_decimal hS, ?_⟩
  · rw [toGoogleTraceHeader_shape, str_slash]; simp
  · exact not_mem_of_isDigit (fmtUint_isDigit S) (by unfold isDigit; omega)
  · apply fmtUint_decimal
    cases b <;> simp [u64]

/-- Decoding an encoded header that is short enough gives back what was encoded. -/
theorem roundtrip_of_length {T : GoString} {S : Nat} {b : Bool} (hT : 47 ∉ T)
    (hS : S < u64) (hlen : (toGoogleTraceHeader T S b).length ≤ 200) :
    fromGoogleTraceHeader (toGoogleTraceHeader T S b) = ⟨T, S, b, true⟩ := by
  rw [fromGoogleTraceHeader_of_grammar (toGoogleTraceHeader_grammar hT hS hlen)]
  rw [fmtUint_val, fmtUint_val]
  cases b <;> simp

/-! ## Lemmas on the text carrier -/

theorem google_ne_shopify : googleCloudTraceHeader ≠ shopifyTraceHeader := by decide

theorem extractHandler_err {uni : GoString → GoString} {st : ExtractVars} {k v : GoString}
    {e : PropError} (h : (extractHandler uni st k v).2 = some e) :
    e = PropError.ErrSpanContextCorrupted ∧ ToLower uni k = googleCloudTraceHeader ∧
      (fromGoogleTraceHeader v).ok = false := by
  unfold extractHandler at h
  by_cases h1 : ToLower uni k = shopifyTraceHeader
  · simp [h1] at h
  · by_cases h2 : ToLower uni k = googleCloudTraceHeader
    · cases hok : (fromGoogleTraceHeader v).ok with
      | true => simp [h2, google_ne_shopify, hok] at h
      | false =>
        simp [h2, google_ne_shopify, hok] at h
        exact ⟨h.symm, h2, rfl⟩
    · simp [h1, h2] at h

theorem extractHandler_bad {uni : GoString → GoString} (st : ExtractVars) {k v : GoString}
    (hk : ToLower uni k = googleCloudTraceHeader) (hv : (fromGoogleTraceHeader v).ok = false) :
    (extractHandler uni st k v).2 = some PropError.ErrSpanContextCorrupted := by
  unfold extractHandler
  have h1 : ¬ ToLower uni k = shopifyTraceHeader := by
    rw [hk]; exact google_ne_shopify
  simp [hk, google_ne_shopify, hv]

theorem extractHandler_shopify {uni : GoString → GoString} (st : ExtractVars) {k : GoString}
    (v : GoString) (hk : ToLower uni k = shopifyTraceHeader) :
    extractHandler uni st k v = ({ st with shopifyTraceHeaderFound := true }, none) := by
  unfold extractHandler
  simp [hk]

theorem extractHandler_good {uni : GoString → GoString} (st : ExtractVars) {k v : GoString}
    (hk : ToLower uni k = googleCloudTraceHeader) (hv : (fromGoogleTraceHeader v).ok = true) :
    extractHandler uni st k v =
      ({ st with traceID := (fromGoogleTraceHeader v).traceID,
                 spanID := (fromGoogleTraceHeader v).spanID,
                 sampled := (fromGoogleTraceHeader v).sampled,
                 googleCloudTraceHeaderFound := true }, none) := by
  unfold extractHandler
  have h1 : ¬ ToLower uni k = shopifyTraceHeader := by
    rw [hk]; exact google_ne_shopify
  simp [hk, google_ne_shopify, hv]

theorem extractHandler_other {uni : GoString → GoString} (st : ExtractVars) {k : GoString}
    (v : GoString) (h1 : ¬ ToLower uni k = shopifyTraceHeader)
    (h2 : ¬ ToLower uni k = googleCloudTraceHeader) :
    extractHandler uni st k v = (st, none) := by
  unfold extractHandler
  simp [h1, h2]

theorem ForeachKey_cons_none {handler : Handler} {st st1 : ExtractVars} {k v : GoString}
    (rest : GoMap GoString) (h : handler st k v = (st1, none)) :
    TextMapCarrier.ForeachKey ((k, v) :: rest) handler st =
      TextMapCarrier.ForeachKey rest handler st1 := by
  rw [TextMapCarrier.ForeachKey]
  simp only [h]

theorem ForeachKey_cons_some {handler : Handler} {st st1 : ExtractVars} {k v : GoString}
    {e : PropError} (rest : GoMap GoString) (h : handler st k v = (st1, some e)) :
    TextMapCarrier.ForeachKey ((k, v) :: rest) handler st = (st1, some e) := by
  rw [TextMapCarrier.ForeachKey]
  simp only [h]

/-- A canonical entry with a rejected value makes the iteration end with the error
"corrupted", wherever the entry stands. -/
theorem ForeachKey_corrupted (uni : GoString → GoString) (entries : GoMap GoString) :
    ∀ st : ExtractVars,
    (∃ e ∈ entries, ToLower uni e.1 = googleCloudTraceHeader ∧
      (fromGoogleTraceHeader e.2).ok = false) →
    (TextMapCarrier.ForeachKey entries (extractHandler uni) st).2 =
      some PropError.ErrSpanContextCorrupted := by
  induction entries with
  | nil => intro st h; obtain ⟨e, he, _⟩ := h; simp at he
  | cons kv rest ih =>
    intro st h
    obtain ⟨k, v⟩ := kv
    cases hh : extractHandler uni st k v with
    | mk st1 oe =>
      cases oe with
      | some err =>
        rw [ForeachKey_cons_some rest hh]
        have := extractHandler_err (by rw [hh] : (extractHandler uni st k v).2 = some err)
        simp [this.1]
      | none =>
        rw [ForeachKey_cons_none rest hh]
        apply ih
        obtain ⟨e, he, hk, hv⟩ := h
        rcases List.mem_cons.mp he with heq | hin
        · subst heq
          have := extractHandler_bad st hk hv
          rw [hh] at this
          simp at this
        · exact ⟨e, hin, hk, hv⟩

/-- Without a canonical entry of rejected value the iteration ends without error; the
marker flag is set exactly when it was set or a marker entry occurs; with a canonical
entry the canonical flag is set and the context is the decoded value of a canonical
entry, without one the canonical flag and the context are unchanged. -/
theorem ForeachKey_clean (uni : GoString → GoString) (entries : GoMap GoString) :
    ∀ st : ExtractVars,
    (∀ e ∈ entries, ToLower uni e.1 = googleCloudTraceHeader →
      (fromGoogleTraceHeader e.2).ok = true) →
    (TextMapCarrier.ForeachKey entries (extractHandler uni) st).2 = none ∧
    ((TextMapCarrier.ForeachKey entries (extractHandler uni) st).1.shopifyTraceHeaderFound = true ↔
      st.shopifyTraceHeaderFound = true ∨ ∃ e ∈ entries, ToLower uni e.1 = shopifyTraceHeader) ∧
    ((∃ e ∈ entries, ToLower uni e.1 = googleCloudTraceHeader) →
      (TextMapCarrier.ForeachKey entries (extractHandler uni) st).1.googleCloudTraceHeaderFound = true ∧
      ∃ e ∈ entries, ToLower uni e.1 = googleCloudTraceHeader ∧
        (TextMapCarrier.ForeachKey entries (extractHandler uni) st).1.context =
          (fromGoogleTraceHeader e.2).context) ∧
    ((¬ ∃ e ∈ entries, ToLower uni e.1 = googleCloudTraceHeader) →
      (TextMapCarrier.ForeachKey entries (extractHandler uni) st).1.googleCloudTraceHeaderFound =
        st.googleCloudTraceHeaderFound ∧
      (TextMapCarrier.ForeachKey entries (extractHandler uni) st).1.context = st.context) := by
  induction entries with
  | nil =>
    intro st _
    simp [TextMapCarrier.ForeachKey]
  | cons kv rest ih =>
    intro st hclean
    obtain ⟨k, v⟩ := kv
    have hrest : ∀ e ∈ rest, ToLower uni e.1 = googleCloudTraceHeader →
        (fromGoogleTraceHeader e.2).ok = true :=
      fun e he => hclean e (List.mem_cons_of_mem _ he)
    by_cases h1 : ToLower uni k = shopifyTraceHeader
    · have h2 : ¬ ToLower uni k = googleCloudTraceHeader := by
        rw [h1]; exact fun h => google_ne_shopify h.symm
      rw [ForeachKey_cons_none rest (extractHandler_shopify st v h1)]
      obtain ⟨i1, i2, i3, i4⟩ := ih { st with shopifyTraceHeaderFound := true } hrest
      refine ⟨i1, ?_, ?_, ?_⟩
      · rw [i2]
        simp [h1]
      · rintro ⟨e, he, hk⟩
        have hin : e ∈ rest := by
          rcases List.mem_cons.mp he with heq | hin
          · subst heq; exact absurd hk h2
          · exact hin
        obtain ⟨j1, e1, he1, hk1, hc1⟩ := i3 ⟨e, hin, hk⟩
        exact ⟨j1, e1, List.mem_cons_of_mem _ he1, hk1, hc1⟩
      · intro hno
        have : ¬ ∃ e ∈ rest, ToLower uni e.1 = googleCloudTraceHeader := by
          rintro ⟨e, he, hk⟩
          exact hno ⟨e, List.mem_cons_of_mem _ he, hk⟩
        exact i4 this
    · by_cases h2 : ToLower uni k = googleCloudTraceHeader
      · have hv : (fromGoogleTraceHeader v).ok = true :=
          hclean (k, v) (List.mem_cons_self _ _) h2
        rw [ForeachKey_cons_none rest (extractHandler_good st h2 hv)]
        obtain ⟨i1, i2, i3, i4⟩ := ih
          { st with traceID := (fromGoogleTraceHeader v).traceID,
                    spanID := (fromGoogleTraceHeader v).spanID,
                    sampled := (fromGoogleTraceHeader v).sampled,
                    googleCloudTraceHeaderFound := true } hrest
        refine ⟨i1, ?_, ?_, ?_⟩
        · rw [i2]
          simp [h1]
        · intro _
          by_cases hex : ∃ e ∈ rest, ToLower uni e.1 = googleCloudTraceHeader
          · obtain ⟨j1, e1, he1, hk1, hc1⟩ := i3 hex
            exact ⟨j1, e1, List.mem_cons_of_mem _ he1, hk1, hc1⟩
          · obtain ⟨j1, j2⟩ := i4 hex
            exact ⟨j1, (k, v), List.mem_cons_self _ _, h2, j2⟩
        · intro hno
          exact absurd ⟨(k, v), List.mem_cons_self _ _, h2⟩ hno
      · rw [ForeachKey_cons_none rest (extractHandler_other st v h1 h2)]
        obtain ⟨i1, i2, i3, i4⟩ := ih st hrest
        refine ⟨i1, ?_, ?_, ?_⟩
        · rw [i2]
          simp [h1]
        · rintro ⟨e, he, hk⟩
          have hin : e ∈ rest := by
            rcases List.mem_cons.mp he with heq | hin
            · subst heq; exact absurd hk h2
            · exact hin
          obtain ⟨j1, e1, he1, hk1, hc1⟩ := i3 ⟨e, hin, hk⟩
          exact ⟨j1, e1, List.mem_cons_of_mem _ he1, hk1, hc1⟩
        · intro hno
          have : ¬ ∃ e ∈ rest, ToLower uni e.1 = googleCloudTraceHeader := by
            rintro ⟨e, he, hk⟩
            exact hno ⟨e, List.mem_cons_of_mem _ he, hk⟩
          exact i4 this

theorem Extract_corrupted (uni : GoString → GoString) (entries : GoMap GoString)
    (h : ∃ e ∈ entries, ToLower uni e.1 = googleCloudTraceHeader ∧
      (fromGoogleTraceHeader e.2).ok = false) :
    textMapPropagator.Extract uni (TextMapCarrier.ForeachKey entries) =
      Except.error PropError.ErrSpanContextCorrupted := by
  have := ForeachKey_corrupted uni entries ⟨[], 0, false, false, false⟩ h
  unfold textMapPropagator.Extract
  cases hh : TextMapCarrier.ForeachKey entries (extractHandler uni) ⟨[], 0, false, false, false⟩ with
  | mk st oe =>
    rw [hh] at this
    simp only at this
    subst this
    rfl

theorem Extract_not_found (uni : GoString → GoString) (entries : GoMap GoString)
    (hclean : ∀ e ∈ entries, ToLower uni e.1 = googleCloudTraceHeader →
      (fromGoogleTraceHeader e.2).ok = true)
    (hmiss : (¬ ∃ e ∈ entries, ToLower uni e.1 = googleCloudTraceHeader) ∨
      (¬ ∃ e ∈ entries, ToLower uni e.1 = shopifyTraceHeader)) :
    textMapPropagator.Extract uni (TextMapCarrier.ForeachKey entries) =
      Except.error PropError.ErrSpanContextNotFound := by
  obtain ⟨i1, i2, _, i4⟩ := ForeachKey_clean uni entries ⟨[], 0, false, false, false⟩ hclean
  unfold textMapPropagator.Extract
  cases hh : TextMapCarrier.ForeachKey entries (extractHandler uni) ⟨[], 0, false, false, false⟩ with
  | mk st oe =>
    rw [hh] at i1 i2 i4
    simp only at i1 i2 i4
    subst i1
    simp only
    have : (!st.shopifyTraceHeaderFound) = true ∨ (!st.googleCloudTraceHeaderFound) = true := by
      rcases hmiss with hg | hs
      · right
        rw [(i4 hg).1]
        rfl
      · left
        cases hb : st.shopifyTraceHeaderFound with
        | false => rfl
        | true =>
          rcases i2.mp hb with h | h
          · simp at h
          · exact absurd h hs
    rw [if_pos this]

theorem Extract_found (uni : GoString → GoString) (entries : GoMap GoString)
    (hclean : ∀ e ∈ entries, ToLower uni e.1 = googleCloudTraceHeader →
      (fromGoogleTraceHeader e.2).ok = true)
    (hg : ∃ e ∈ entries, ToLower uni e.1 = googleCloudTraceHeader)
    (hs : ∃ e ∈ entries, ToLower uni e.1 = shopifyTraceHeader) :
    ∃ e ∈ entries, ToLower uni e.1 = googleCloudTraceHeader ∧
      textMapPropagator.Extract uni (TextMapCarrier.ForeachKey entries) =
        Except.ok (fromGoogleTraceHeader e.2).context := by
  obtain ⟨i1, i2, i3, _⟩ := ForeachKey_clean uni entries ⟨[], 0, false, false, false⟩ hclean
  obtain ⟨j1, e, he, hk, hc⟩ := i3 hg
  refine ⟨e, he, hk, ?_⟩
  unfold textMapPropagator.Extract
  cases hh : TextMapCarrier.ForeachKey entries (extractHandler uni) ⟨[], 0, false, false, false⟩ with
  | mk st oe =>
    rw [hh] at i1 i2 j1 hc
    simp only at i1 i2 j1 hc
    subst i1
    have hsf : st.shopifyTraceHeaderFound = true := i2.mpr (Or.inr hs)
    simp only [hsf, j1, Bool.not_true, Bool.false_eq_true, or_self, if_false]
    rw [← hc]
    rfl

theorem ToLower_google (uni : GoString → GoString) :
    ToLower uni googleCloudTraceHeader = googleCloudTraceHeader := by
  unfold ToLower
  rw [if_pos (by decide)]
  decide

theorem ToLower_shopify (uni : GoString → GoString) :
    ToLower uni shopifyTraceHeader = shopifyTraceHeader := by
  unfold ToLower
  rw [if_pos (by decide)]
  decide

/-- The key that `EnvironmentCarrier.ForeachKey` hands to the handler for the map key
`k`. -/
theorem EnvironmentCarrier_ForeachKey_eq (entries : GoMap GoString) (handler : Handler) :
    ∀ st : ExtractVars,
    EnvironmentCarrier.ForeachKey entries handler st =
      TextMapCarrier.ForeachKey
        (entries.map (fun e =>
          (if Replace e.1 95 45 = googleCloudTraceHeader ∨ Replace e.1 95 45 = shopifyTraceHeader
            then Replace e.1 95 45 else e.1, e.2))) handler st := by
  induction entries with
  | nil => intro st; rfl
  | cons kv rest ih =>
    intro st
    obtain ⟨k, v⟩ := kv
    rw [EnvironmentCarrier.ForeachKey, List.map_cons, TextMapCarrier.ForeachKey]
    simp only
    cases hh : handler st
        (if Replace k 95 45 = googleCloudTraceHeader ∨ Replace k 95 45 = shopifyTraceHeader
          then Replace k 95 45 else k) v with
    | mk st1 oe =>
      cases oe with
      | some err => rfl
      | none => exact ih st1

theorem Replace_length (s : GoString) (a b : Nat) : (Replace s a b).length = s.length := by
  simp [Replace]

theorem ToLower_length_of_ascii (uni : GoString → GoString) {s : GoString}
    (h : ∀ c ∈ s, c < 128) : (ToLower uni s).length = s.length := by
  unfold ToLower
  have : s.all (fun c => decide (c < 128)) = true := by
    rw [List.all_eq_true]
    intro c hc
    simpa using h c hc
  rw [if_pos this]
  simp

theorem ascii_of_Replace_shopify {k : GoString} (h : Replace k 95 45 = shopifyTraceHeader) :
    ∀ c ∈ k, c < 128 := by
  intro c hc
  have hm : (if c = 95 then 45 else c) ∈ Replace k 95 45 := by
    unfold Replace
    exact List.mem_map.mpr ⟨c, hc, rfl⟩
  rw [h] at hm
  have hall : ∀ x ∈ shopifyTraceHeader, x < 128 := by decide
  have := hall _ hm
  by_cases h95 : c = 95
  · omega
  · rwa [if_neg h95] at this

/-- The key handed to the handler by the environment carrier lowers to the canonical
header whenever the map key does. -/
theorem env_key_google (uni : GoString → GoString) {k : GoString}
    (hk : ToLower uni k = googleCloudTraceHeader) :
    ToLower uni (if Replace k 95 45 = googleCloudTraceHeader ∨
      Replace k 95 45 = shopifyTraceHeader then Replace k 95 45 else k) =
      googleCloudTraceHeader := by
  by_cases h1 : Replace k 95 45 = googleCloudTraceHeader
  · rw [if_pos (Or.inl h1), h1]
    exact ToLower_google uni
  · by_cases h2 : Replace k 95 45 = shopifyTraceHeader
    · exfalso
      have hl := ToLower_length_of_ascii uni (ascii_of_Replace_shopify h2)
      have hl2 := Replace_length k 95 45
      rw [h2] at hl2
      rw [hk] at hl
      have e1 : googleCloudTraceHeader.length = 21 := by decide
      have e2 : shopifyTraceHeader.length = 23 := by decide
      omega
    · rw [if_neg (by simp [h1, h2])]
      exact hk

/-! ## Lemmas on maps and on the round trip -/

theorem mapGet_mapSet_self {V : Type} (m : GoMap V) (k : GoString) (v : V) :
    mapGet (mapSet m k v) k = some v := by
  induction m with
  | nil => simp [mapSet, mapGet]
  | cons kv rest ih =>
    obtain ⟨k1, v1⟩ := kv
    by_cases h : k1 = k
    · simp [mapSet, mapGet, h]
    · simp [mapSet, mapGet, h, ih]

theorem mapGet_mapSet_ne {V : Type} (m : GoMap V) {k k2 : GoString} (v : V) (h : k2 ≠ k) :
    mapGet (mapSet m k v) k2 = mapGet m k2 := by
  induction m with
  | nil =>
    have : ¬ k = k2 := fun e => h e.symm
    simp [mapSet, mapGet, this]
  | cons kv rest ih =>
    obtain ⟨k1, v1⟩ := kv
    by_cases h1 : k1 = k
    · have : ¬ k = k2 := fun e => h e.symm
      subst h1
      simp [mapSet, mapGet, this]
    · by_cases h2 : k1 = k2
      · subst h2
        simp [mapSet, mapGet, h1]
      · simp [mapSet, mapGet, h1, h2, ih]

/-- A list is split in one way only at an element after which the element does not
occur. -/
theorem append_cons_unique {c : Nat} : ∀ {a a2 b b2 : GoString}, c ∉ b → c ∉ b2 →
    a ++ c :: b = a2 ++ c :: b2 → a = a2 ∧ b = b2 := by
  intro a
  induction a with
  | nil =>
    intro a2 b b2 hb _ h
    cases a2 with
    | nil => simpa using h
    | cons x a2 =>
      simp only [List.nil_append, List.cons_append, List.cons.injEq] at h
      exfalso
      apply hb
      rw [h.2]
      simp
  | cons y a ih =>
    intro a2 b b2 hb hb2 h
    cases a2 with
    | nil =>
      simp only [List.nil_append, List.cons_append, List.cons.injEq] at h
      exfalso
      apply hb2
      rw [← h.2]
      simp
    | cons x a2 =>
      simp only [List.cons_append, List.cons.injEq] at h
      obtain ⟨h1, h2⟩ := ih hb hb2 h.2
      exact ⟨by rw [h.1, h1], h2⟩

/-- An encoded header that the decoder accepts decodes to what was encoded. -/
theorem roundtrip_of_ok {T : GoString} {S : Nat} {b : Bool} (hS : S < u64)
    (hok : (fromGoogleTraceHeader (toGoogleTraceHeader T S b)).ok = true) :
    fromGoogleTraceHeader (toGoogleTraceHeader T S b) = ⟨T, S, b, true⟩ := by
  obtain ⟨T2, sp, o, _, hlen, hh, hT2, _, hdsp, hdo⟩ := grammar_of_ok hok
  rw [toGoogleTraceHeader_shape, grammar_shape, grammar_shape] at hh
  have hslash : ¬ isDigit 47 := by unfold isDigit; omega
  have hb1 : (47 : Nat) ∉ fmtUint S ++ 59 :: 111 :: 61 :: fmtUint (if b then 1 else 0) := by
    intro hm
    rcases List.mem_append.mp hm with h | h
    · exact hslash (fmtUint_isDigit S 47 h)
    · simp only [List.mem_cons] at h
      rcases h with h | h | h | h
      · omega
      · omega
      · omega
      · exact hslash (fmtUint_isDigit _ 47 h)
  have hb2 : (47 : Nat) ∉ sp ++ 59 :: 111 :: 61 :: o := by
    intro hm
    rcases List.mem_append.mp hm with h | h
    · exact hslash (hdsp.2.1 47 h)
    · simp only [List.mem_cons] at h
      rcases h with h | h | h | h
      · omega
      · omega
      · omega
      · exact hslash (hdo.2.1 47 h)
  obtain ⟨hTT, _⟩ := append_cons_unique hb1 hb2 hh
  rw [← hTT] at hT2
  exact roundtrip_of_length hT2 hS hlen

/-! ## Lemmas on the identifier generator -/

theorem nextSpanIDLoop_ne_zero (fuel : Nat) (t : tracer) {id : Nat} (h : id ≠ 0) :
    nextSpanIDLoop fuel t id = some (id, t) := by
  cases fuel with
  | zero => simp [nextSpanIDLoop, h]
  | succ f => simp [nextSpanIDLoop, h]

/-- One call of `nextSpanID`: one addition, and a second one when the first gives zero. -/
theorem nextSpanID_eq {fuel : Nat} (t : tracer) (hfuel : 2 ≤ fuel)
    (hinc : t.spanIDIncrement % u64 ≠ 0) :
    nextSpanID fuel t =
      if AddUint64 t.spanIDCounter t.spanIDIncrement ≠ 0 then
        some (AddUint64 t.spanIDCounter t.spanIDIncrement,
          ⟨AddUint64 t.spanIDCounter t.spanIDIncrement, t.spanIDIncrement⟩)
      else
        some (AddUint64 (AddUint64 t.spanIDCounter t.spanIDIncrement) t.spanIDIncrement,
          ⟨AddUint64 (AddUint64 t.spanIDCounter t.spanIDIncrement) t.spanIDIncrement,
            t.spanIDIncrement⟩) := by
  obtain ⟨f, rfl⟩ : ∃ f, fuel = f + 2 := ⟨fuel - 2, by omega⟩
  unfold nextSpanID
  rw [nextSpanIDLoop]
  simp only [if_true]
  by_cases h1 : AddUint64 t.spanIDCounter t.spanIDIncrement = 0
  · rw [nextSpanIDLoop]
    simp only [h1, if_true, ne_eq, not_true_eq_false, if_false]
    have h2 : AddUint64 0 t.spanIDIncrement ≠ 0 := by
      unfold AddUint64
      simpa using hinc
    rw [nextSpanIDLoop_ne_zero _ _ h2]
  · rw [nextSpanIDLoop_ne_zero _ _ h1]
    simp [h1]

theorem nextSpanID_second_ne_zero {c inc : Nat} (hinc : inc % u64 ≠ 0)
    (h1 : AddUint64 c inc = 0) : AddUint64 (AddUint64 c inc) inc ≠ 0 := by
  rw [h1]
  unfold AddUint64
  simpa using hinc

theorem progression_succ (c inc k : Nat) :
    progression c inc (k + 1) = AddUint64 (progression c inc k) inc :=
  Function.iterate_succ_apply' _ _ _

theorem progression_eq (c inc : Nat) : ∀ k, 1 ≤ k →
    progression c inc k = (c + k * inc) % u64 := by
  intro k hk
  induction k with
  | zero => omega
  | succ k ih =>
    rw [progression_succ]
    by_cases h0 : k = 0
    · subst h0
      simp [progression, AddUint64]
    · rw [ih (by omega)]
      unfold AddUint64
      rw [Nat.succ_mul, Nat.mod_add_mod, Nat.add_assoc]

theorem coprime_u64 {inc : Nat} (hodd : inc % 2 = 1) : Nat.Coprime u64 inc := by
  have h : u64 = 2 ^ 64 := by norm_num [u64]
  rw [h]
  exact Nat.Coprime.pow_left 64 (Nat.coprime_two_left.mpr (Nat.odd_iff.mpr hodd))

theorem odd_mod_u64 {inc : Nat} (hodd : inc % 2 = 1) : inc % u64 ≠ 0 := by
  unfold u64
  omega

/-- Two terms of the progression of an odd increment less than `2^64` steps apart
differ. -/
theorem progression_ne {c inc k k2 : Nat} (hodd : inc % 2 = 1) (h1 : 1 ≤ k) (hlt : k < k2)
    (hw : k2 - k < u64) : progression c inc k ≠ progression c inc k2 := by
  rw [progression_eq c inc k h1, progression_eq c inc k2 (by omega)]
  intro h
  have hle : c + k * inc ≤ c + k2 * inc := by
    have : k * inc ≤ k2 * inc := Nat.mul_le_mul_right _ (by omega)
    omega
  have hdvd : u64 ∣ (c + k2 * inc) - (c + k * inc) := (Nat.modEq_iff_dvd' hle).mp h
  have hsub : (c + k2 * inc) - (c + k * inc) = (k2 - k) * inc := by
    rw [Nat.sub_mul]
    omega
  rw [hsub] at hdvd
  have hd := (coprime_u64 hodd).dvd_of_dvd_mul_right hdvd
  have := Nat.le_of_dvd (by omega) hd
  omega

theorem progression_lt (c inc : Nat) {k : Nat} (hk : 1 ≤ k) : progression c inc k < u64 := by
  rw [progression_eq c inc k hk]
  exact Nat.mod_lt _ (by unfold u64; omega)

/-- Every 64-bit value is a term of index `1` to `2^64` of the progression of an odd
increment. -/
theorem progression_surj (c : Nat) {inc : Nat} (hodd : inc % 2 = 1) {v : Nat} (hv : v < u64) :
    ∃ k, 1 ≤ k ∧ k ≤ u64 ∧ progression c inc k = v := by
  let g : Fin u64 → Fin u64 := fun j => ⟨progression c inc (j.val + 1), progression_lt c inc (by omega)⟩
  have hinj : Function.Injective g := by
    intro a b hab
    have hval : progression c inc (a.val + 1) = progression c inc (b.val + 1) :=
      congrArg Fin.val hab
    apply Fin.ext
    by_contra hne
    rcases Nat.lt_or_gt_of_ne hne with h | h
    · exact progression_ne hodd (by omega) (by omega : a.val + 1 < b.val + 1)
        (by have := b.isLt; omega) hval
    · exact progression_ne hodd (by omega) (by omega : b.val + 1 < a.val + 1)
        (by have := a.isLt; omega) hval.symm
  obtain ⟨j, hj⟩ := (Finite.injective_iff_surjective.mp hinj) ⟨v, hv⟩
  refine ⟨j.val + 1, by omega, by have := j.isLt; omega, ?_⟩
  exact congrArg Fin.val hj

/-- The identifiers of `n` sequential calls from the term `k0` of the progression are
terms of increasing index; at most one index is skipped. -/
theorem nextSpanIDs_run {fuel inc : Nat} (c : Nat) (hfuel : 2 ≤ fuel) (hodd : inc % 2 = 1) :
    ∀ n k0, n < u64 →
    ∃ (ks : List Nat) (t1 : tracer), nextSpanIDs fuel n ⟨progression c inc k0, inc⟩ =
        some (ks.map (progression c inc), t1) ∧
      ks.length = n ∧ ks.Pairwise (fun a b => a < b) ∧ (∀ k ∈ ks, k0 < k) ∧
      ((∀ k ∈ ks, k ≤ k0 + n) ∨
        ((∃ j, k0 < j ∧ j ≤ k0 + n ∧ progression c inc j = 0) ∧ ∀ k ∈ ks, k ≤ k0 + n + 1)) := by
  have hinc : inc % u64 ≠ 0 := odd_mod_u64 hodd
  intro n
  induction n with
  | zero =>
    intro k0 _
    exact ⟨[], _, rfl, rfl, List.Pairwise.nil, by simp, Or.inl (by simp)⟩
  | succ n ih =>
    intro k0 hn
    rw [nextSpanIDs, nextSpanID_eq _ hfuel hinc]
    simp only
    rw [← progression_succ, ← progression_succ]
    by_cases h1 : progression c inc (k0 + 1) = 0
    · rw [if_neg (not_not.mpr h1)]
      obtain ⟨ks, t1, hrun, hl, hp, hgt, hcase⟩ := ih (k0 + 1 + 1) (by omega)
      refine ⟨(k0 + 1 + 1) :: ks, t1, ?_, by simp [hl], ?_, ?_, ?_⟩
      · simp only [hrun, List.map_cons]
      · exact List.Pairwise.cons (fun k hk => hgt k hk) hp
      · intro k hk
        rcases List.mem_cons.mp hk with h | h
        · omega
        · have := hgt k h; omega
      · rcases hcase with ha | ⟨⟨j, hj1, hj2, hj3⟩, _⟩
        · right
          refine ⟨⟨k0 + 1, by omega, by omega, h1⟩, ?_⟩
          intro k hk
          rcases List.mem_cons.mp hk with h | h
          · omega
          · have := ha k h; omega
        · exfalso
          have hne : progression c inc (k0 + 1) ≠ progression c inc j :=
            progression_ne hodd (by omega) (by omega) (by omega)
          exact hne (by rw [h1, hj3])
    · rw [if_pos h1]
      obtain ⟨ks, t1, hrun, hl, hp, hgt, hcase⟩ := ih (k0 + 1) (by omega)
      refine ⟨(k0 + 1) :: ks, t1, ?_, by simp [hl], ?_, ?_, ?_⟩
      · simp only [hrun, List.map_cons]
      · exact List.Pairwise.cons (fun k hk => hgt k hk) hp
      · intro k hk
        rcases List.mem_cons.mp hk with h | h
        · omega
        · have := hgt k h; omega
      · rcases hcase with ha | ⟨⟨j, hj1, hj2, hj3⟩, hb⟩
        · left
          intro k hk
          rcases List.mem_cons.mp hk with h | h
          · omega
          · have := ha k h; omega
        · right
          refine ⟨⟨j, by omega, by omega, hj3⟩, ?_⟩
          intro k hk
          rcases List.mem_cons.mp hk with h | h
          · omega
          · have := hb k h; omega

/-! ## Lemmas on the trace identifier -/

theorem hexDigit_isHexLower {d : Nat} (h : d < 16) : isHexLower (hexDigit d) := by
  unfold isHexLower hexDigit
  by_cases h10 : d < 10
  · rw [if_pos h10]; omega
  · rw [if_neg h10]; omega

theorem hexDigitVal_hexDigit {d : Nat} (h : d < 16) : hexDigitVal (hexDigit d) = d := by
  unfold hexDigitVal hexDigit
  by_cases h10 : d < 10
  · rw [if_pos h10, if_pos (by omega)]; omega
  · rw [if_neg h10, if_neg (by omega)]; omega

theorem hexValFrom_cons (c : Nat) (cs : GoString) (n : Nat) :
    hexValFrom n (c :: cs) = hexValFrom (n * 16 + hexDigitVal c) cs := rfl

theorem fmtHexLoop_val (fuel : Nat) : ∀ (u : Nat) (acc : GoString), u ≤ fuel →
    hexValFrom 0 (fmtHexLoop fuel u acc) = hexValFrom u acc := by
  induction fuel with
  | zero =>
    intro u acc hu
    have : u = 0 := by omega
    subst this
    simp [fmtHexLoop, hexValFrom_cons, hexDigitVal_hexDigit]
  | succ fuel ih =>
    intro u acc hu
    by_cases h16 : u ≥ 16
    · simp only [fmtHexLoop, if_pos h16]
      rw [ih (u / 16) _ (by omega), hexValFrom_cons,
        hexDigitVal_hexDigit (Nat.mod_lt _ (by omega))]
      congr 1
      omega
    · simp only [fmtHexLoop, if_neg h16, hexValFrom_cons]
      rw [hexDigitVal_hexDigit (by omega)]
      congr 1
      omega

theorem fmtHexLoop_isHex (fuel : Nat) : ∀ (u : Nat) (acc : GoString), u ≤ fuel →
    ∀ c ∈ fmtHexLoop fuel u acc, isHexLower c ∨ c ∈ acc := by
  induction fuel with
  | zero =>
    intro u acc hu c hc
    have : u = 0 := by omega
    subst this
    simp only [fmtHexLoop, List.mem_cons] at hc
    rcases hc with hc | hc
    · left; rw [hc]; exact hexDigit_isHexLower (by omega)
    · right; exact hc
  | succ fuel ih =>
    intro u acc hu c hc
    by_cases h16 : u ≥ 16
    · simp only [fmtHexLoop, if_pos h16] at hc
      rcases ih (u / 16) _ (by omega) c hc with h | h
      · left; exact h
      · simp only [List.mem_cons] at h
        rcases h with h | h
        · left; rw [h]; exact hexDigit_isHexLower (Nat.mod_lt _ (by omega))
        · right; exact h
    · simp only [fmtHexLoop, if_neg h16, List.mem_cons] at hc
      rcases hc with hc | hc
      · left; rw [hc]; exact hexDigit_isHexLower (by omega)
      · right; exact hc

theorem fmtHexLoop_length (fuel : Nat) : ∀ (u : Nat) (acc : GoString) (k : Nat), u ≤ fuel →
    u < 16 ^ (k + 1) → (fmtHexLoop fuel u acc).length ≤ k + 1 + acc.length := by
  induction fuel with
  | zero =>
    intro u acc k _ _
    simp only [fmtHexLoop, List.length_cons]
    omega
  | succ fuel ih =>
    intro u acc k hu hk
    by_cases h16 : u ≥ 16
    · simp only [fmtHexLoop, if_pos h16]
      cases k with
      | zero => simp at hk; omega
      | succ k =>
        have hdiv : u / 16 < 16 ^ (k + 1) := by
          apply Nat.div_lt_of_lt_mul
          rw [pow_succ] at hk
          omega
        have := ih (u / 16) (hexDigit (u % 16) :: acc) k (by omega) hdiv
        simp only [List.length_cons] at this
        omega
    · simp only [fmtHexLoop, if_neg h16, List.length_cons]
      omega

theorem hexValFrom_zeros (n : Nat) (s : GoString) :
    hexValFrom 0 (List.replicate n 48 ++ s) = hexValFrom 0 s := by
  induction n with
  | zero => simp
  | succ n ih =>
    rw [List.replicate_succ, List.cons_append, hexValFrom_cons]
    simpa [hexDigitVal] using ih

/-- The verb `%016x` on a 64-bit value gives 16 lowercase hexadecimal digits that
denote the value. -/
theorem fmtHex016_spec {u : Nat} (h : u < u64) :
    (fmtHex016 u).length = 16 ∧ (∀ c ∈ fmtHex016 u, isHexLower c) ∧ hexVal (fmtHex016 u) = u := by
  have hlen := fmtHexLoop_length u u [] 15 (le_refl u) (by unfold u64 at h; omega)
  simp only [List.length_nil] at hlen
  refine ⟨?_, ?_, ?_⟩
  · unfold fmtHex016
    rw [List.length_append, List.length_replicate]
    omega
  · intro c hc
    unfold fmtHex016 at hc
    rcases List.mem_append.mp hc with h1 | h1
    · rw [(List.mem_replicate.mp h1).2]
      unfold isHexLower; omega
    · rcases fmtHexLoop_isHex u u [] (le_refl u) c h1 with h2 | h2
      · exact h2
      · simp at h2
  · unfold hexVal fmtHex016
    rw [hexValFrom_zeros, fmtHexLoop_val u u [] (le_refl u)]
    rfl

/-- One call of `nextSpanID` with an increment that is not zero modulo `2^64`. -/
theorem nextSpanID_spec {fuel : Nat} (t : tracer) (hfuel : 2 ≤ fuel)
    (hinc : t.spanIDIncrement % u64 ≠ 0) :
    ∃ id, nextSpanID fuel t = some (id, ⟨id, t.spanIDIncrement⟩) ∧ id ≠ 0 ∧ id < u64 := by
  rw [nextSpanID_eq t hfuel hinc]
  have hm : ∀ x, AddUint64 x t.spanIDIncrement < u64 := fun x =>
    Nat.mod_lt _ (by unfold u64; omega)
  by_cases h1 : AddUint64 t.spanIDCounter t.spanIDIncrement = 0
  · exact ⟨_, by rw [if_neg (not_not.mpr h1)], nextSpanID_second_ne_zero hinc h1, hm _⟩
  · exact ⟨_, by rw [if_pos h1], h1, hm _⟩

/-! ## Lemmas on starting a span -/

theorem refLoop_first (s : Span) (newSpanID : Nat) (pre post : List SpanReference)
    (r : SpanReference) (ctx : wireContext) (hpre : ∀ x ∈ pre, ¬ isParentRef x)
    (hr : isParentRef r) (hctx : r.ReferencedContext = some ctx) :
    refLoop s newSpanID (pre ++ r :: post) =
      RefLoop.returned
        { s with
          Reference := some (if r.Typ = ChildOfRef then Span_Reference.ChildOf ctx.spanID
            else Span_Reference.FollowsFrom ctx.spanID),
          Id := newSpanID, TraceId := ctx.traceID } := by
  induction pre with
  | nil =>
    unfold isParentRef at hr
    simp only [List.nil_append, refLoop, if_pos hr, hctx]
    by_cases hc : r.Typ = ChildOfRef
    · simp [hc]
    · simp [hc]
  | cons x pre ih =>
    have hx : ¬ (x.Typ = ChildOfRef ∨ x.Typ = FollowsFromRef) :=
      hpre x (List.mem_cons_self _ _)
    simp only [List.cons_append, refLoop, if_neg hx]
    exact ih (fun y hy => hpre y (List.mem_cons_of_mem _ hy))

theorem refLoop_none (s : Span) (newSpanID : Nat) (refs : List SpanReference)
    (h : ∀ x ∈ refs, ¬ isParentRef x) : refLoop s newSpanID refs = RefLoop.fellThrough := by
  induction refs with
  | nil => rfl
  | cons x refs ih =>
    have hx : ¬ (x.Typ = ChildOfRef ∨ x.Typ = FollowsFromRef) :=
      h x (List.mem_cons_self _ _)
    simp only [refLoop, if_neg hx]
    exact ih (fun y hy => h y (List.mem_cons_of_mem _ hy))

/-! ## Lemmas on the uploader -/

theorem totalFootprint_append (size : Span → Nat) (a b : List Span) :
    totalFootprint size (a ++ b) = totalFootprint size a + totalFootprint size b := by
  simp [totalFootprint]

theorem totalFootprint_singleton (size : Span → Nat) (s : Span) :
    totalFootprint size [s] = footprint size s := by
  simp [totalFootprint]

/-- The loop of `dequeueSpans`: it handles a prefix of the queue, keeps of it the spans
whose own footprint is within the ceiling, and either empties the queue or stops at a
span that it pushes back. -/
theorem dequeueLoop_spec (size : Span → Nat) (u : uploader) :
    ∀ (q : List Span) (total : Nat) (spans : List Span), totalFootprint size spans ≤ total →
    ∃ processed rest, q = processed ++ rest ∧
      (dequeueLoop size u q total spans).1 =
        spans ++ processed.filter (fun s => decide ((footprint size s : Int) ≤ u.byteLimit)) ∧
      ((rest = [] ∧ (dequeueLoop size u q total spans).2 = { u with spanChannel := [] }) ∨
        (∃ s rest1, rest = s :: rest1 ∧ (footprint size s : Int) ≤ u.byteLimit ∧
          (dequeueLoop size u q total spans).2 =
            (uploader.enqueueOpen { u with spanChannel := rest1 } s).1)) ∧
      ((dequeueLoop size u q total spans).1 = spans ∨
        (totalFootprint size (dequeueLoop size u q total spans).1 : Int) ≤ u.byteLimit) := by
  intro q
  induction q with
  | nil =>
    intro total spans _
    exact ⟨[], [], rfl, by simp [dequeueLoop], Or.inl ⟨rfl, rfl⟩, Or.inl rfl⟩
  | cons s q ih =>
    intro total spans hA
    by_cases h1 : ((size s + (1 + SizeVarint (size s)) : Nat) : Int) > u.byteLimit
    · obtain ⟨processed, rest, hq, hb, hr, ht⟩ :=
        ih (total + (size s + (1 + SizeVarint (size s)))) spans (by omega)
      have hstep : dequeueLoop size u (s :: q) total spans =
          dequeueLoop size u q (total + (size s + (1 + SizeVarint (size s)))) spans := by
        rw [dequeueLoop]
        simp only [if_pos h1]
      rw [hstep]
      refine ⟨s :: processed, rest, by rw [hq]; rfl, ?_, hr, ht⟩
      rw [hb]
      have : ¬ ((footprint size s : Int) ≤ u.byteLimit) := by
        unfold footprint; omega
      simp [List.filter_cons, this]
    · by_cases h2 : ((total + (size s + (1 + SizeVarint (size s))) : Nat) : Int) > u.byteLimit
      · have hstep : dequeueLoop size u (s :: q) total spans =
            (spans, (uploader.enqueueOpen { u with spanChannel := q } s).1) := by
          rw [dequeueLoop]
          simp only [if_neg h1, if_pos h2]
        rw [hstep]
        refine ⟨[], s :: q, rfl, by simp, Or.inr ⟨s, q, rfl, ?_, rfl⟩, Or.inl rfl⟩
        unfold footprint; omega
      · have hA2 : totalFootprint size (spans ++ [s]) ≤
            total + (size s + (1 + SizeVarint (size s))) := by
          rw [totalFootprint_append, totalFootprint_singleton]
          unfold footprint; omega
        obtain ⟨processed, rest, hq, hb, hr, ht⟩ :=
          ih (total + (size s + (1 + SizeVarint (size s)))) (spans ++ [s]) hA2
        have hstep : dequeueLoop size u (s :: q) total spans =
            dequeueLoop size u q (total + (size s + (1 + SizeVarint (size s))))
              (spans ++ [s]) := by
          rw [dequeueLoop]
          simp only [if_neg h1, if_neg h2]
        rw [hstep]
        refine ⟨s :: processed, rest, by rw [hq]; rfl, ?_, hr, ?_⟩
        · rw [hb]
          have : (footprint size s : Int) ≤ u.byteLimit := by
            unfold footprint; omega
          simp [List.filter_cons, this]
        · right
          rcases ht with ht | ht
          · rw [ht]
            have : (totalFootprint size (spans ++ [s]) : Int) ≤
                ((total + (size s + (1 + SizeVarint (size s))) : Nat) : Int) := by
              exact_mod_cast hA2
            omega
          · exact ht

theorem enqueue_room {u : uploader} (s : Span) (h : u.spanChannel.length < u.bufferLimit) :
    u.enqueueOpen s = ({ u with spanChannel := u.spanChannel ++ [s] }, none) := by
  unfold uploader.enqueueOpen
  rw [if_pos h]

theorem enqueue_full {u : uploader} (s : Span) (h : ¬ u.spanChannel.length < u.bufferLimit) :
    u.enqueueOpen s = (u.count (str "proxy_producer.dropped_span") 1 u.statsTags,
      some UploadError.ErrEnqueueBufferFull) := by
  unfold uploader.enqueueOpen
  rw [if_neg h]

theorem count_spanChannel (u : uploader) (name : GoString) (value : Int)
    (tags : List GoString) : (u.count name value tags).spanChannel = u.spanChannel := by
  unfold uploader.count
  cases u.tracerDog <;> rfl

theorem count_tracerDog (u : uploader) (name : GoString) (value : Int)
    (tags : List GoString) :
    (u.count name value tags).tracerDog =
      u.tracerDog.map (fun calls => calls ++ [⟨name, value, tags⟩]) := by
  unfold uploader.count
  cases hd : u.tracerDog <;> simp [hd]

theorem count_bufferLimit (u : uploader) (name : GoString) (value : Int)
    (tags : List GoString) : (u.count name value tags).bufferLimit = u.bufferLimit := by
  unfold uploader.count
  cases u.tracerDog <;> rfl

theorem enqueue_bufferLimit (u : uploader) (s : Span) :
    (u.enqueueOpen s).1.bufferLimit = u.bufferLimit := by
  by_cases h : u.spanChannel.length < u.bufferLimit
  · rw [enqueue_room s h]
  · rw [enqueue_full s h, count_bufferLimit]

/-- The queue that `reenqueueOrFail` leaves: the spans of the batch that fit are at the
tail. -/
theorem reenqueueLoop_spanChannel (batch : List Span) : ∀ u : uploader,
    (reenqueueLoop u batch).spanChannel =
      u.spanChannel ++ batch.take (u.bufferLimit - u.spanChannel.length) := by
  induction batch with
  | nil => intro u; simp [reenqueueLoop]
  | cons s rest ih =>
    intro u
    by_cases h : u.spanChannel.length < u.bufferLimit
    · rw [reenqueueLoop, enqueue_room s h]
      simp only
      rw [ih]
      simp only [List.length_append, List.length_singleton, List.append_assoc,
        List.singleton_append]
      obtain ⟨k, hk⟩ : ∃ k, u.bufferLimit - u.spanChannel.length = k + 1 :=
        ⟨u.bufferLimit - u.spanChannel.length - 1, by omega⟩
      rw [hk, List.take_succ_cons]
      have : u.bufferLimit - (u.spanChannel.length + 1) = k := by omega
      rw [this]
    · rw [reenqueueLoop, enqueue_full s h]
      simp only
      have h0 : u.bufferLimit - u.spanChannel.length = 0 := by omega
      rw [h0, List.take_zero, List.append_nil]
      by_cases hr : rest.length > 0
      · rw [if_pos hr, count_spanChannel, count_spanChannel]
      · rw [if_neg hr, count_spanChannel]

/-- The queue that independent attempts leave. -/
theorem enqueueAll_spanChannel (batch : List Span) : ∀ u : uploader,
    (enqueueAll u batch).spanChannel =
      u.spanChannel ++ batch.take (u.bufferLimit - u.spanChannel.length) := by
  induction batch with
  | nil => intro u; simp [enqueueAll]
  | cons s rest ih =>
    intro u
    have hstep : enqueueAll u (s :: rest) = enqueueAll (u.enqueueOpen s).1 rest := rfl
    rw [hstep, ih, enqueue_bufferLimit]
    by_cases h : u.spanChannel.length < u.bufferLimit
    · rw [enqueue_room s h]
      simp only [List.length_append, List.length_singleton, List.append_assoc,
        List.singleton_append]
      obtain ⟨k, hk⟩ : ∃ k, u.bufferLimit - u.spanChannel.length = k + 1 :=
        ⟨u.bufferLimit - u.spanChannel.length - 1, by omega⟩
      rw [hk, List.take_succ_cons]
      have : u.bufferLimit - (u.spanChannel.length + 1) = k := by omega
      rw [this]
    · rw [enqueue_full s h, count_spanChannel]
      have h0 : u.bufferLimit - u.spanChannel.length = 0 := by omega
      rw [h0, List.take_zero, List.take_zero]

theorem countSuccess_spanChannel (u : uploader) (spans : List Span) :
    (countSuccess u spans).spanChannel = u.spanChannel := by
  unfold countSuccess
  simp only
  have hfold : ∀ (l : GoMap Int) (v : uploader),
      (l.foldl (fun u kv => u.count (str "proxy_producer.spans") kv.2 u.statsTags) v).spanChannel =
        v.spanChannel := by
    intro l
    induction l with
    | nil => intro v; rfl
    | cons kv l ih =>
      intro v
      rw [List.foldl_cons, ih, count_spanChannel]
  rw [hfold, count_spanChannel, count_spanChannel]

/-- The function `upload` after a transport failure, on a batch that is not empty. -/
theorem upload_transport_failure (size : Span → Nat) (n : Nat) (u : uploader)
    (post : PostResult) (hpost : post = PostResult.failed ∨ post = PostResult.deadlineExceeded) :
    (u.upload size (some n) true post).1.spanChannel =
      (((u.dequeueSpans size).2).reenqueueOrFail (u.dequeueSpans size).1).spanChannel := by
  unfold uploader.upload
  cases hd : u.dequeueSpans size with
  | mk batch u1 =>
    simp only
    by_cases he : batch.length = 0
    · rw [if_pos he]
      have : batch = [] := List.length_eq_zero.mp he
      subst this
      rfl
    · rw [if_neg he]
      rcases hpost with hp | hp
      · subst hp
        simp only [Bool.not_true, Bool.false_eq_true, if_false]
        unfold uploader.reenqueueOrFail
        rw [count_spanChannel, reenqueueLoop_spanChannel, reenqueueLoop_spanChannel,
          count_spanChannel, count_bufferLimit]
      · subst hp
        simp only [Bool.not_true, Bool.false_eq_true, if_false]
        unfold uploader.reenqueueOrFail
        rw [count_spanChannel, reenqueueLoop_spanChannel, reenqueueLoop_spanChannel,
          count_spanChannel, count_bufferLimit]

/-! ## Lemmas on the translation -/

/-- The loop of `toTraceSpans` on a batch of one record whose trace id decodes. -/
theorem toTraceSpans_single (spare : GoString → List Nat) (span : Span) (traceID : List Nat)
    (hdec : DecodeString span.TraceId = some traceID) :
    toTraceSpans spare [some span] = none ∨
    ∃ oc, toTraceSpans spare [some span] = some ⟨[oc], 0, none⟩ ∧
      oc.TraceId = (traceID ++ spare span.TraceId).take 16 := by
  unfold toTraceSpans
  simp only [toTraceSpansLoop, hdec]
  cases hs : sliceTo16 traceID (spare span.TraceId) with
  | none => left; rfl
  | some t16 =>
    right
    simp only [List.nil_append]
    refine ⟨_, rfl, ?_⟩
    unfold sliceTo16 at hs
    by_cases hc : 16 ≤ traceID.length + (spare span.TraceId).length
    · rw [if_pos hc] at hs
      simp only [Option.some.injEq] at hs
      exact hs.symm
    · rw [if_neg hc] at hs
      exact absurd hs (by simp)

theorem nextSpanIDLoop_result (fuel : Nat) : ∀ (t : tracer) (id r : Nat) (t1 : tracer),
    nextSpanIDLoop fuel t id = some (r, t1) → (id ≠ 0 ∧ r = id) ∨ (r < u64 ∧ r ≠ 0) := by
  induction fuel with
  | zero =>
    intro t id r t1 h
    by_cases h0 : id = 0
    · simp [nextSpanIDLoop, h0] at h
    · simp only [nextSpanIDLoop, if_neg h0, Option.some.injEq, Prod.mk.injEq] at h
      exact Or.inl ⟨h0, h.1.symm⟩
  | succ fuel ih =>
    intro t id r t1 h
    by_cases h0 : id = 0
    · simp only [nextSpanIDLoop, if_pos h0] at h
      right
      rcases ih _ _ _ _ h with ⟨h1, h2⟩ | h1
      · rw [h2]
        exact ⟨Nat.mod_lt _ (by unfold u64; omega), h1⟩
      · exact h1
    · simp only [nextSpanIDLoop, if_neg h0, Option.some.injEq, Prod.mk.injEq] at h
      exact Or.inl ⟨h0, h.1.symm⟩

/-- Every identifier that `nextSpanID` returns is a non-zero 64-bit value. -/
theorem nextSpanID_result {fuel : Nat} {t t1 : tracer} {r : Nat}
    (h : nextSpanID fuel t = some (r, t1)) : r < u64 ∧ r ≠ 0 := by
  rcases nextSpanIDLoop_result fuel t 0 r t1 h with ⟨h1, _⟩ | h1
  · exact absurd rfl h1
  · exact h1

theorem validRecords_none (rest : List (Option Span)) :
    validRecords (none :: rest) = validRecords rest := rfl

theorem validRecords_invalid {s : Span} (rest : List (Option Span))
    (h : DecodeString s.TraceId = none) :
    validRecords (some s :: rest) = validRecords rest := by
  simp [validRecords, validRecord, h, List.filterMap_cons]

theorem validRecords_valid {s : Span} {traceID : List Nat} (rest : List (Option Span))
    (h : DecodeString s.TraceId = some traceID) :
    validRecords (some s :: rest) = s :: validRecords rest := by
  simp [validRecords, validRecord, h, List.filterMap_cons]

theorem invalidCount_none (rest : List (Option Span)) :
    invalidCount (none :: rest) = invalidCount rest + 1 := by
  simp [invalidCount, validRecord, List.countP_cons]

theorem invalidCount_invalid {s : Span} (rest : List (Option Span))
    (h : DecodeString s.TraceId = none) :
    invalidCount (some s :: rest) = invalidCount rest + 1 := by
  simp [invalidCount, validRecord, h, List.countP_cons]

theorem invalidCount_valid {s : Span} {traceID : List Nat} (rest : List (Option Span))
    (h : DecodeString s.TraceId = some traceID) :
    invalidCount (some s :: rest) = invalidCount rest := by
  simp [invalidCount, validRecord, h, List.countP_cons]

theorem resolvedParent_eq (s : Span) :
    (if s.GetChildOf = 0 then s.GetFollowsFrom else s.GetChildOf) = resolvedParent s := by
  unfold resolvedParent
  by_cases h : s.GetChildOf = 0
  · simp [h]
  · simp [h]

/-- The loop of `toTraceSpans` when every valid record has the capacity that
`traceID[:16]` needs: one emitted span a valid record, in input order, and the other
records counted. -/
theorem toTraceSpansLoop_ok (spare : GoString → List Nat) (recs : List (Option Span)) :
    ∀ (oc : List tracepb.Span) (inv : Nat),
    (∀ s ∈ validRecords recs, hasCapacity spare s) →
    toTraceSpansLoop spare recs oc inv =
      some (oc ++ (validRecords recs).map (emitted spare), inv + invalidCount recs) := by
  induction recs with
  | nil => intro oc inv _; simp [toTraceSpansLoop, validRecords, invalidCount]
  | cons r rest ih =>
    intro oc inv hcap
    cases r with
    | none =>
      rw [toTraceSpansLoop, ih _ _ (by rw [validRecords_none] at hcap; exact hcap),
        validRecords_none, invalidCount_none]
      simp only [Nat.add_assoc, Nat.add_comm 1]
    | some s =>
      cases hd : DecodeString s.TraceId with
      | none =>
        rw [validRecords_invalid rest hd] at hcap
        rw [toTraceSpansLoop]
        simp only [hd]
        rw [ih _ _ hcap, validRecords_invalid rest hd, invalidCount_invalid rest hd]
        simp only [Nat.add_assoc, Nat.add_comm 1]
      | some traceID =>
        rw [validRecords_valid rest hd] at hcap
        have hs : hasCapacity spare s := hcap s (List.mem_cons_self _ _)
        unfold hasCapacity at hs
        rw [hd] at hs
        simp only [Option.getD_some] at hs
        rw [toTraceSpansLoop]
        simp only [hd, sliceTo16, if_pos hs]
        rw [ih _ _ (fun x hx => hcap x (List.mem_cons_of_mem _ hx)),
          validRecords_valid rest hd, invalidCount_valid rest hd]
        simp only [List.map_cons, List.append_assoc, List.singleton_append, emitted, hd,
          Option.getD_some, resolvedParent_eq]

/-- The loop of `toTraceSpans` panics when a valid record lacks the capacity that
`traceID[:16]` needs. -/
theorem toTraceSpansLoop_panic (spare : GoString → List Nat) (recs : List (Option Span)) :
    ∀ (oc : List tracepb.Span) (inv : Nat),
    (∃ s ∈ validRecords recs, ¬ hasCapacity spare s) →
    toTraceSpansLoop spare recs oc inv = none := by
  induction recs with
  | nil => intro oc inv h; obtain ⟨s, hs, _⟩ := h; simp [validRecords] at hs
  | cons r rest ih =>
    intro oc inv hbad
    cases r with
    | none =>
      rw [toTraceSpansLoop]
      exact ih _ _ (by rw [validRecords_none] at hbad; exact hbad)
    | some s =>
      cases hd : DecodeString s.TraceId with
      | none =>
        rw [validRecords_invalid rest hd] at hbad
        rw [toTraceSpansLoop]
        simp only [hd]
        exact ih _ _ hbad
      | some traceID =>
        rw [validRecords_valid rest hd] at hbad
        rw [toTraceSpansLoop]
        simp only [hd, sliceTo16]
        by_cases hs : 16 ≤ traceID.length + (spare s.TraceId).length
        · rw [if_pos hs]
          simp only
          apply ih
          obtain ⟨x, hx, hxc⟩ := hbad
          rcases List.mem_cons.mp hx with h | h
          · subst h
            exfalso
            apply hxc
            unfold hasCapacity
            rw [hd]
            exact hs
          · exact ⟨x, h, hxc⟩
        · rw [if_neg hs]

/-- The function `toTraceSpans` returns exactly when every valid record has the
capacity that `traceID[:16]` needs, and then gives one emitted span a valid record, in
input order, the count of the other records, and a nil error. -/
theorem toTraceSpans_spec (spare : GoString → List Nat) (recs : List (Option Span)) :
    ((∀ s ∈ validRecords recs, hasCapacity spare s) →
      toTraceSpans spare recs =
        some ⟨(validRecords recs).map (emitted spare), invalidCount recs, none⟩) ∧
    ((∃ s ∈ validRecords recs, ¬ hasCapacity spare s) → toTraceSpans spare recs = none) := by
  constructor
  · intro h
    unfold toTraceSpans
    rw [toTraceSpansLoop_ok spare recs [] 0 h]
    simp
  · intro h
    unfold toTraceSpans
    rw [toTraceSpansLoop_panic spare recs [] 0 h]

/-- What `toTraceSpans` gives when it returns. -/
theorem toTraceSpans_returned {spare : GoString → List Nat} {recs : List (Option Span)}
    {out : Translated} (h : toTraceSpans spare recs = some out) :
    out = ⟨(validRecords recs).map (emitted spare), invalidCount recs, none⟩ := by
  by_cases hall : ∀ s ∈ validRecords recs, hasCapacity spare s
  · rw [(toTraceSpans_spec spare recs).1 hall] at h
    exact (Option.some.inj h).symm
  · have hex : ∃ s ∈ validRecords recs, ¬ hasCapacity spare s := by
      by_contra hne
      apply hall
      intro s hs
      by_contra hc
      exact hne ⟨s, hs, hc⟩
    rw [(toTraceSpans_spec spare recs).2 hex] at h
    exact absurd h (by simp)

/-- A decoded trace id of 16 bytes or more has the capacity, whatever the spare. -/
theorem hasCapacity_of_length (spare : GoString → List Nat) {s : Span}
    (h : 16 ≤ ((DecodeString s.TraceId).getD []).length) : hasCapacity spare s := by
  unfold hasCapacity
  omega

theorem forall₂_map_self {α β : Type} (f : α → β) (l : List α) :
    List.Forall₂ (fun a b => b = f a) l (l.map f) := by
  induction l with
  | nil => exact List.Forall₂.nil
  | cons a l ih => exact List.Forall₂.cons rfl ih

/-- The spans that `toTraceSpans` returns stand, in input order, one for each valid
record, each the emitted span of its record. -/
theorem toTraceSpans_forall₂ {spare : GoString → List Nat} {recs : List (Option Span)}
    {out : Translated} (h : toTraceSpans spare recs = some out) :
    List.Forall₂ (fun s oc => oc = emitted spare s) (validRecords recs) out.ocSpans := by
  rw [toTraceSpans_returned h]
  exact forall₂_map_self _ _

theorem UInt64ToByteSpanID_eq (id : Nat) :
    UInt64ToByteSpanID id = if id = 0 then none else some (bigEndian8 id) := rfl

theorem mapSet_of_not_mem {V : Type} (m : GoMap V) (k : GoString) (v : V)
    (h : k ∉ m.map Prod.fst) : mapSet m k v = m ++ [(k, v)] := by
  induction m with
  | nil => rfl
  | cons kv rest ih =>
    obtain ⟨k1, v1⟩ := kv
    have h1 : ¬ k1 = k := by
      intro e
      apply h
      simp [e]
    have h2 : k ∉ rest.map Prod.fst := by
      intro hm
      apply h
      simp only [List.map_cons, List.mem_cons]
      exact Or.inr hm
    simp only [mapSet, if_neg h1, ih h2, List.cons_append]

/-- The loop of `tagsToTraceAttributes` over a map: the tags that are not reserved, each
as a string attribute. -/
theorem attributes_foldl (l : GoMap GoString) :
    ∀ m : GoMap tracepb.AttributeValue, (l.map Prod.fst).Nodup →
    (∀ kv ∈ l, kv.1 ∉ m.map Prod.fst) →
    l.foldl (fun (m : GoMap tracepb.AttributeValue) kv =>
      if kv.1 = str "span.kind" ∨ kv.1 = str "error" then m
      else mapSet m kv.1 (tracepb.AttributeValue.StringValue kv.2)) m =
    m ++ (l.filter keepsTag).map attributeOf := by
  induction l with
  | nil => intro m _ _; simp
  | cons kv l ih =>
    intro m hnd hdis
    have hnd2 : (l.map Prod.fst).Nodup := (List.nodup_cons.mp hnd).2
    have hnot : kv.1 ∉ l.map Prod.fst := (List.nodup_cons.mp hnd).1
    rw [List.foldl_cons]
    by_cases hr : kv.1 = str "span.kind" ∨ kv.1 = str "error"
    · rw [if_pos hr, ih m hnd2 (fun x hx => hdis x (List.mem_cons_of_mem _ hx))]
      have : ¬ (keepsTag kv = true) := by
        simp [keepsTag, isReservedTag, hr]
      rw [List.filter_cons_of_neg this]
    · rw [if_neg hr, mapSet_of_not_mem m kv.1 _ (hdis kv (List.mem_cons_self _ _))]
      rw [ih]
      · have : keepsTag kv = true := by
          simp [keepsTag, isReservedTag, hr]
        rw [List.filter_cons_of_pos this]
        simp [attributeOf]
      · exact hnd2
      · intro x hx hm
        simp only [List.map_append, List.map_cons, List.map_nil, List.mem_append,
          List.mem_singleton] at hm
        rcases hm with hm | hm
        · exact hdis x (List.mem_cons_of_mem _ hx) hm
        · apply hnot
          rw [← hm]
          exact List.mem_map_of_mem _ hx

/-- The function `tagsToTraceAttributes` on a map. -/
theorem tagsToTraceAttributes_eq (tags : GoMap GoString) (hmap : (tags.map Prod.fst).Nodup) :
    tagsToTraceAttributes tags =
      if tags.filter keepsTag = [] then none
      else some ((tags.filter keepsTag).map attributeOf) := by
  unfold tagsToTraceAttributes
  by_cases h0 : tags.length = 0
  · have : tags = [] := List.length_eq_zero.mp h0
    subst this
    simp
  · rw [if_neg h0]
    simp only
    rw [attributes_foldl tags [] hmap (by simp)]
    simp only [List.nil_append, List.length_map]
    by_cases hf : tags.filter keepsTag = []
    · rw [hf]; simp
    · rw [if_neg hf, if_neg (by
        intro hl
        exact hf (List.length_eq_zero.mp hl))]

theorem tagOf_eq_iff (tags : GoMap GoString) (k : GoString) {v : GoString} (hv : v ≠ []) :
    tagOf tags k = v ↔ mapGet tags k = some v := by
  unfold tagOf
  cases h : mapGet tags k with
  | none =>
    simp only [Option.getD_none, reduceCtorEq, iff_false]
    exact fun e => hv e.symm
  | some w => simp

theorem validRecords_length (recs : List (Option Span)) :
    (validRecords recs).length + invalidCount recs = recs.length := by
  induction recs with
  | nil => rfl
  | cons r rest ih =>
    cases r with
    | none =>
      rw [validRecords_none, invalidCount_none, List.length_cons]
      omega
    | some s =>
      cases hd : DecodeString s.TraceId with
      | none =>
        rw [validRecords_invalid rest hd, invalidCount_invalid rest hd, List.length_cons]
        omega
      | some traceID =>
        rw [validRecords_valid rest hd, invalidCount_valid rest hd, List.length_cons,
          List.length_cons]
        omega

/-! ## Lemmas for the exact domain of the round trip and for conservation -/

theorem fmtLoop_length_eq (fuel : Nat) : ∀ (u : Nat) (acc : GoString), u ≤ fuel →
    (fmtLoop fuel u acc).length = Nat.log 10 u + 1 + acc.length := by
  induction fuel with
  | zero =>
    intro u acc hu
    have : u = 0 := by omega
    subst this
    simp [fmtLoop]
    omega
  | succ fuel ih =>
    intro u acc hu
    by_cases h10 : u ≥ 10
    · simp only [fmtLoop, if_pos h10]
      rw [ih (u / 10) _ (by omega), Nat.log_of_one_lt_of_le (by omega) h10]
      simp only [List.length_cons]
      omega
    · simp only [fmtLoop, if_neg h10, List.length_cons]
      rw [Nat.log_of_lt (by omega)]
      omega

theorem fmtUint_length_eq (u : Nat) : (fmtUint u).length = decimalDigits u := by
  unfold fmtUint decimalDigits
  rw [fmtLoop_length_eq u u [] (le_refl u)]
  simp

/-- The decoder rejects every header of more than 200 bytes. -/
theorem fromGoogleTraceHeader_long {h : GoString} (hlen : h.length > 200) :
    (fromGoogleTraceHeader h).ok = false := by
  unfold fromGoogleTraceHeader
  rw [if_pos (Or.inr hlen)]

/-- The batch and the queue that `dequeueSpans` leaves, on a queue within capacity. -/
theorem dequeueSpans_exact (size : Span → Nat) (u : uploader)
    (hcap : u.spanChannel.length ≤ u.bufferLimit) :
    ∃ processed rest, u.spanChannel = processed ++ rest ∧
      (u.dequeueSpans size).1 = processed.filter (fitsCeiling size u) ∧
      ((rest = [] ∧ (u.dequeueSpans size).2.spanChannel = []) ∨
        (∃ s rest1, rest = s :: rest1 ∧ fitsCeiling size u s = true ∧
          (u.dequeueSpans size).2.spanChannel = rest1 ++ [s])) := by
  unfold uploader.dequeueSpans
  obtain ⟨processed, rest, hq, hb, hr, _⟩ :=
    dequeueLoop_spec size u u.spanChannel 0 [] (by simp [totalFootprint])
  simp only [List.nil_append] at hb
  refine ⟨processed, rest, hq, hb, ?_⟩
  rcases hr with ⟨h1, h2⟩ | ⟨s, rest1, h1, h2, h3⟩
  · left
    exact ⟨h1, by rw [h2]⟩
  · right
    refine ⟨s, rest1, h1, by simpa [fitsCeiling] using h2, ?_⟩
    rw [h3]
    have hroom : rest1.length < u.bufferLimit := by
      have := congrArg List.length hq
      rw [h1] at this
      simp only [List.length_append, List.length_cons] at this
      omega
    rw [enqueue_room s (by simpa using hroom)]

/-! ## Lemmas on the ingestion endpoint and on the lifecycle of the receiver -/

/-- The outcome of a request to the root path, the handler not panicking. -/
theorem ServeHTTP_root (spare : GoString → List Nat)
    (unmarshal : List Nat → Option (List (Option Span))) (r : Request)
    (hpath : r.Path = str "/") :
    (r.Method ≠ str "POST" →
      ShopifyReceiver.ServeHTTP spare unmarshal r = Served.response 405 [] []) ∧
    (r.Method = str "POST" → readBody r = none →
      ShopifyReceiver.ServeHTTP spare unmarshal r = Served.response 400 [] []) ∧
    (∀ body, r.Method = str "POST" → readBody r = some body → unmarshal body = none →
      ShopifyReceiver.ServeHTTP spare unmarshal r = Served.response 415 [] []) ∧
    (∀ body spans out, r.Method = str "POST" → readBody r = some body →
      unmarshal body = some spans → toTraceSpans spare spans = some out →
      ShopifyReceiver.ServeHTTP spare unmarshal r =
        Served.response 200
          [⟨if r.TraceApplication = [] then str "unknown" else r.TraceApplication,
            out.ocSpans⟩]
          [(out.ocSpans.length, out.invalidSpans)]) := by
  unfold ShopifyReceiver.ServeHTTP ShopifyReceiver.ingest
  rw [if_pos hpath]
  refine ⟨?_, ?_, ?_, ?_⟩
  · intro hm
    rw [if_pos hm]
  · intro hm hb
    simp [hm, hb]
  · intro body hm hb hu
    simp [hm, hb, hu]
  · intro body spans out hm hb hu ht
    have herr : out.err = none := by rw [toTraceSpans_returned ht]
    simp [hm, hb, hu, ht, herr]

/-- Every call of `StartTraceReception` leaves `startOnce` done, and a call on a
receiver whose `startOnce` is done returns `errAlreadyStarted`. -/
theorem StartTraceReception_once (listen : Option ReceiverError) (sr : ShopifyReceiver) :
    (ShopifyReceiver.StartTraceReception listen sr).1.startOnce = true ∧
    (sr.startOnce = true →
      ShopifyReceiver.StartTraceReception listen sr =
        (sr, some ReceiverError.errAlreadyStarted)) := by
  unfold ShopifyReceiver.StartTraceReception
  constructor
  · by_cases h : sr.startOnce = true
    · rw [if_pos h]; exact h
    · rw [if_neg h]
      cases listen <;> rfl
  · intro h
    rw [if_pos h]

/-- A call of `StopTraceReception` on a receiver whose `stopOnce` is done returns
`errAlreadyStopped`, and every call leaves `stopOnce` done. -/
theorem StopTraceReception_once (close : Option ReceiverError) (sr : ShopifyReceiver) :
    (sr.stopOnce = true →
      ShopifyReceiver.StopTraceReception close sr =
        Stopped.returned sr (some ReceiverError.errAlreadyStopped)) ∧
    (∀ sr1 err, ShopifyReceiver.StopTraceReception close sr = Stopped.returned sr1 err →
      sr1.stopOnce = true) ∧
    (∀ sr1, ShopifyReceiver.StopTraceReception close sr = Stopped.panic sr1 →
      sr1.stopOnce = true ∧ sr.server = none) := by
  unfold ShopifyReceiver.StopTraceReception
  refine ⟨?_, ?_, ?_⟩
  · intro h
    rw [if_pos h]
  · intro sr1 err h
    by_cases hs : sr.stopOnce = true
    · rw [if_pos hs] at h
      simp only [Stopped.returned.injEq] at h
      rw [← h.1]; exact hs
    · rw [if_neg hs] at h
      cases hsv : sr.server with
      | none => simp [hsv] at h
      | some v =>
        simp only [hsv, Stopped.returned.injEq] at h
        rw [← h.1]
  · intro sr1 h
    by_cases hs : sr.stopOnce = true
    · rw [if_pos hs] at h
      simp at h
    · rw [if_neg hs] at h
      cases hsv : sr.server with
      | none =>
        simp only [hsv, Stopped.panic.injEq] at h
        rw [← h]
        exact ⟨rfl, rfl⟩
      | some v => simp [hsv] at h

/-! ## Lemmas on the drop accounting -/

theorem counterTotal_count_same (u : uploader) (name : GoString) (value : Int)
    (tags : List GoString) (hdog : u.tracerDog ≠ none) :
    counterTotal (u.count name value tags) name = counterTotal u name + value := by
  unfold uploader.count counterTotal
  cases hd : u.tracerDog with
  | none => exact absurd hd hdog
  | some calls => simp [List.filter_append]

theorem count_tracerDog_ne_none (u : uploader) (name : GoString) (value : Int)
    (tags : List GoString) (hdog : u.tracerDog ≠ none) :
    (u.count name value tags).tracerDog ≠ none := by
  rw [count_tracerDog]
  cases hd : u.tracerDog with
  | none => exact absurd hd hdog
  | some calls => simp

/-- The total that `reenqueueOrFail` and its `enqueue` calls add to the drop counter:
the number of spans of the batch that are not put back. -/
theorem reenqueueLoop_dropped (batch : List Span) : ∀ u : uploader, u.tracerDog ≠ none →
    counterTotal (reenqueueLoop u batch) (str "proxy_producer.dropped_span") =
      counterTotal u (str "proxy_producer.dropped_span") +
        ((batch.length : Int) -
          ((batch.take (u.bufferLimit - u.spanChannel.length)).length : Int)) := by
  induction batch with
  | nil => intro u _; simp [reenqueueLoop]
  | cons s rest ih =>
    intro u hdog
    by_cases h : u.spanChannel.length < u.bufferLimit
    · rw [reenqueueLoop, enqueue_room s h]
      simp only
      rw [ih { u with spanChannel := u.spanChannel ++ [s] } hdog]
      obtain ⟨k, hk⟩ : ∃ k, u.bufferLimit - u.spanChannel.length = k + 1 :=
        ⟨u.bufferLimit - u.spanChannel.length - 1, by omega⟩
      have hk2 : u.bufferLimit - (u.spanChannel ++ [s]).length = k := by
        simp only [List.length_append, List.length_singleton]
        omega
      simp only
      rw [hk, hk2, List.take_succ_cons]
      have hct : counterTotal { u with spanChannel := u.spanChannel ++ [s] }
          (str "proxy_producer.dropped_span") =
          counterTotal u (str "proxy_producer.dropped_span") := rfl
      rw [hct]
      simp only [List.length_cons]
      push_cast
      omega
    · rw [reenqueueLoop, enqueue_full s h]
      simp only
      have h0 : u.bufferLimit - u.spanChannel.length = 0 := by omega
      rw [h0, List.take_zero]
      have h1 := counterTotal_count_same u (str "proxy_producer.dropped_span") 1 u.statsTags hdog
      by_cases hr : rest.length > 0
      · rw [if_pos hr, counterTotal_count_same _ _ _ _
          (count_tracerDog_ne_none u _ _ _ hdog), h1]
        simp only [List.length_cons, List.length_nil]
        push_cast
        omega
      · rw [if_neg hr, h1]
        simp only [List.length_cons, List.length_nil]
        push_cast
        omega

/-! ## Lemmas on the parent resolution -/

theorem bigEndian8_value (id : Nat) (h : id < u64) : bigEndianValue (bigEndian8 id) = id := by
  have hu : u64 = 18446744073709551616 := rfl
  rw [hu] at h
  unfold bigEndianValue bigEndian8
  simp only [List.foldl_cons, List.foldl_nil]
  norm_num
  omega

theorem bigEndian8_unique (id : Nat) (bytes : List Nat) (hlen : bytes.length = 8)
    (hb : ∀ b ∈ bytes, b < 256) (hv : bigEndianValue bytes = id) : bytes = bigEndian8 id := by
  match bytes, hlen with
  | [b0, b1, b2, b3, b4, b5, b6, b7], _ =>
    have h0 := hb b0 (by simp)
    have h1 := hb b1 (by simp)
    have h2 := hb b2 (by simp)
    have h3 := hb b3 (by simp)
    have h4 := hb b4 (by simp)
    have h5 := hb b5 (by simp)
    have h6 := hb b6 (by simp)
    have h7 := hb b7 (by simp)
    unfold bigEndianValue at hv
    simp only [List.foldl_cons, List.foldl_nil] at hv
    unfold bigEndian8
    norm_num
    refine ⟨?_, ?_, ?_, ?_, ?_, ?_, ?_, ?_⟩ <;> omega

theorem bigEndian8_spec (id : Nat) :
    (bigEndian8 id).length = 8 ∧ ∀ b ∈ bigEndian8 id, b < 256 := by
  refine ⟨rfl, ?_⟩
  intro b hb
  unfold bigEndian8 at hb
  simp only [List.mem_cons, List.mem_singleton, List.not_mem_nil, or_false] at hb
  rcases hb with h | h | h | h | h | h | h | h <;> (rw [h]; exact Nat.mod_lt _ (by decide))

theorem getters_of_reference (s : Span) :
    (s.Reference = none → s.GetChildOf = 0 ∧ s.GetFollowsFrom = 0) ∧
    (∀ v, s.Reference = some (Span_Reference.ChildOf v) →
      s.GetChildOf = v ∧ s.GetFollowsFrom = 0) ∧
    (∀ v, s.Reference = some (Span_Reference.FollowsFrom v) →
      s.GetChildOf = 0 ∧ s.GetFollowsFrom = v) := by
  refine ⟨fun h => ?_, fun v h => ?_, fun v h => ?_⟩ <;>
    simp [Span.GetChildOf, Span.GetFollowsFrom, h]

theorem parentSpanID_of_getters (s : Span) :
    (s.GetChildOf ≠ 0 → s.parentSpanID = s.GetChildOf) ∧
    (s.GetChildOf = 0 → s.parentSpanID = s.GetFollowsFrom) := by
  unfold Span.parentSpanID
  constructor
  · intro h; rw [if_pos h]
  · intro h; rw [if_neg (by simpa using h)]

theorem emitted_parent (spare : GoString → List Nat) (s : Span) :
    (emitted spare s).ParentSpanId =
      if s.parentSpanID = 0 then none else some (bigEndian8 s.parentSpanID) := by
  show UInt64ToByteSpanID (resolvedParent s) = _
  rw [UInt64ToByteSpanID_eq]
  rfl

theorem emitted_parent_bytes (spare : GoString → List Nat) (s : Span) (bytes : List Nat)
    (h64 : s.parentSpanID < u64) :
    (emitted spare s).ParentSpanId = some bytes ↔
      s.parentSpanID ≠ 0 ∧ bytes.length = 8 ∧ (∀ b ∈ bytes, b < 256) ∧
        bigEndianValue bytes = s.parentSpanID := by
  rw [emitted_parent]
  by_cases h0 : s.parentSpanID = 0
  · rw [if_pos h0]
    constructor
    · intro h; exact absurd h (by simp)
    · intro h; exact absurd h0 h.1
  · rw [if_neg h0]
    constructor
    · intro h
      have hb : bigEndian8 s.parentSpanID = bytes := Option.some.inj h
      rw [← hb]
      exact ⟨h0, (bigEndian8_spec _).1, (bigEndian8_spec _).2, bigEndian8_value _ h64⟩
    · intro h
      rw [bigEndian8_unique s.parentSpanID bytes h.2.1 h.2.2.1 h.2.2.2]

/-! ## The claims -/

set_option maxRecDepth 100000 in
/-- C1 (as stated, refuted): a trace id of 197 bytes without `/`, the span id 1 and
the flag unsampled encode to a header of 203 bytes, which the decoder rejects. -/
theorem C1_counterexample :
    (List.replicate 197 97).length ≤ 197 ∧ 47 ∉ List.replicate 197 97 ∧ 1 < u64 ∧
    (toGoogleTraceHeader (List.replicate 197 97) 1 false).length = 203 ∧
    (fromGoogleTraceHeader (toGoogleTraceHeader (List.replicate 197 97) 1 false)).ok = false := by
  decide

/-- C1 (amended): for every trace id `T` without `/`, every 64-bit span id `S` and
every flag `b`, decoding the encoded header gives back `(T, S, b)` whenever that header
is at most 200 bytes long; it is so whenever `T` is at most 175 bytes long, and a longer
header is rejected. -/
theorem C1_roundtrip (T : GoString) (S : Nat) (b : Bool) (hT : 47 ∉ T) (hS : S < u64) :
    (T.length ≤ 175 → (toGoogleTraceHeader T S b).length ≤ 200) ∧
    ((toGoogleTraceHeader T S b).length ≤ 200 →
      fromGoogleTraceHeader (toGoogleTraceHeader T S b) = ⟨T, S, b, true⟩) ∧
    ((toGoogleTraceHeader T S b).length > 200 →
      (fromGoogleTraceHeader (toGoogleTraceHeader T S b)).ok = false) := by
  refine ⟨?_, ?_, ?_⟩
  · intro h
    have := fmtUint_length hS
    rw [toGoogleTraceHeader_length]
    omega
  · exact roundtrip_of_length hT hS
  · intro h
    unfold fromGoogleTraceHeader
    rw [if_pos (Or.inr h)]

/-- C1 (amended), at the trace id `abc`, the largest span id and the flag sampled. -/
theorem C1_roundtrip_witness :
    fromGoogleTraceHeader (toGoogleTraceHeader (str "abc") 18446744073709551615 true) =
      ⟨str "abc", 18446744073709551615, true, true⟩ :=
  (C1_roundtrip (str "abc") 18446744073709551615 true (by decide) (by decide)).2.1 (by decide)

/-- C2: the decoder accepts exactly the headers of the grammar (not empty, at most
200 bytes, `T/sp;o=o` split at the first `/` and the first `;` after it, with `sp` and
`o` unsigned 64-bit decimal numbers); on such a header the trace id is `T` and the span
id is the number `sp`; every other header gives `ok = false`. -/
theorem C2_decoder_grammar (h : GoString) :
    ((fromGoogleTraceHeader h).ok = true ↔ ∃ T sp o, HeaderGrammar h T sp o) ∧
    (∀ T sp o, HeaderGrammar h T sp o →
      (fromGoogleTraceHeader h).ok = true ∧ (fromGoogleTraceHeader h).traceID = T ∧
      (fromGoogleTraceHeader h).spanID = decVal sp) ∧
    ((¬ ∃ T sp o, HeaderGrammar h T sp o) → (fromGoogleTraceHeader h).ok = false) := by
  refine ⟨⟨grammar_of_ok, ?_⟩, ?_, ?_⟩
  · rintro ⟨T, sp, o, hg⟩
    rw [fromGoogleTraceHeader_of_grammar hg]
  · intro T sp o hg
    rw [fromGoogleTraceHeader_of_grammar hg]
    exact ⟨rfl, rfl, rfl⟩
  · intro hn
    cases hok : (fromGoogleTraceHeader h).ok with
    | false => rfl
    | true => exact absurd (grammar_of_ok hok) hn

set_option maxRecDepth 100000 in
/-- C2, at a header of exactly 200 bytes: 193 times `a`, then `/12;o=1`. -/
theorem C2_decoder_grammar_witness :
    (List.replicate 193 97 ++ str "/12;o=1").length = 200 ∧
    (fromGoogleTraceHeader (List.replicate 193 97 ++ str "/12;o=1")).ok = true ∧
    (fromGoogleTraceHeader (List.replicate 193 97 ++ str "/12;o=1")).traceID =
      List.replicate 193 97 ∧
    (fromGoogleTraceHeader (List.replicate 193 97 ++ str "/12;o=1")).spanID =
      decVal (str "12") :=
  ⟨by decide, (C2_decoder_grammar (List.replicate 193 97 ++ str "/12;o=1")).2.1
    (List.replicate 193 97) (str "12") (str "1")
    (by unfold HeaderGrammar IsUintDecimal; decide)⟩

/-- C3 (as stated, refuted): the header `T/1;o=2` decodes successfully, the least
significant bit of its options integer 2 is 0, and the decoded flag is sampled. -/
theorem C3_counterexample :
    (fromGoogleTraceHeader (str "T/1;o=2")).ok = true ∧
    HeaderGrammar (str "T/1;o=2") (str "T") (str "1") (str "2") ∧
    decVal (str "2") = 2 ∧ 2 &&& 1 ≠ 1 ∧
    (fromGoogleTraceHeader (str "T/1;o=2")).sampled = true := by
  unfold HeaderGrammar IsUintDecimal
  decide

/-- C3 (amended): for every header that decodes successfully, the decoded sampled flag
is true exactly when the options integer is not zero. -/
theorem C3_sampled_nonzero (h T sp o : GoString) (hg : HeaderGrammar h T sp o) :
    (fromGoogleTraceHeader h).ok = true ∧
    ((fromGoogleTraceHeader h).sampled = true ↔ decVal o ≠ 0) := by
  rw [fromGoogleTraceHeader_of_grammar hg]
  simp

/-- C3 (amended), at the header `T/1;o=2`. -/
theorem C3_sampled_nonzero_witness :
    (fromGoogleTraceHeader (str "T/1;o=2")).ok = true ∧
    ((fromGoogleTraceHeader (str "T/1;o=2")).sampled = true ↔ decVal (str "2") ≠ 0) :=
  C3_sampled_nonzero (str "T/1;o=2") (str "T") (str "1") (str "2")
    (by unfold HeaderGrammar IsUintDecimal; decide)

/-- C4 (as stated, refuted): in the carrier whose one entry is the canonical key with the
value `garbage`, exactly one of the two keys occurs, and `Extract` fails with
`ErrSpanContextCorrupted`, not with `ErrSpanContextNotFound`. -/
theorem C4_counterexample :
    (∃ e ∈ [(googleCloudTraceHeader, str "garbage")],
      ToLower asciiOnly e.1 = googleCloudTraceHeader) ∧
    (¬ ∃ e ∈ [(googleCloudTraceHeader, str "garbage")],
      ToLower asciiOnly e.1 = shopifyTraceHeader) ∧
    textMapPropagator.Extract asciiOnly
      (TextMapCarrier.ForeachKey [(googleCloudTraceHeader, str "garbage")]) =
      Except.error PropError.ErrSpanContextCorrupted ∧
    textMapPropagator.Extract asciiOnly
      (TextMapCarrier.ForeachKey [(googleCloudTraceHeader, str "garbage")]) ≠
      Except.error PropError.ErrSpanContextNotFound := by
  decide

/-- C4 (amended): for every text carrier `c` in which exactly one of the two header keys
occurs, visited in any order, `Extract` fails: with `ErrSpanContextCorrupted` when an
entry of the canonical key has a value that the decoder rejects, and with
`ErrSpanContextNotFound` in every other case, whatever the values. -/
theorem C4_one_key_only (uni : GoString → GoString) (c order : GoMap GoString)
    (hperm : order.Perm c)
    (hone : ((∃ e ∈ c, ToLower uni e.1 = googleCloudTraceHeader) ∧
        ¬ ∃ e ∈ c, ToLower uni e.1 = shopifyTraceHeader) ∨
      ((¬ ∃ e ∈ c, ToLower uni e.1 = googleCloudTraceHeader) ∧
        ∃ e ∈ c, ToLower uni e.1 = shopifyTraceHeader)) :
    ((∃ e ∈ c, ToLower uni e.1 = googleCloudTraceHeader ∧
        (fromGoogleTraceHeader e.2).ok = false) →
      textMapPropagator.Extract uni (TextMapCarrier.ForeachKey order) =
        Except.error PropError.ErrSpanContextCorrupted) ∧
    ((¬ ∃ e ∈ c, ToLower uni e.1 = googleCloudTraceHeader ∧
        (fromGoogleTraceHeader e.2).ok = false) →
      textMapPropagator.Extract uni (TextMapCarrier.ForeachKey order) =
        Except.error PropError.ErrSpanContextNotFound) := by
  constructor
  · rintro ⟨e, he, hk, hv⟩
    exact Extract_corrupted uni order ⟨e, hperm.mem_iff.mpr he, hk, hv⟩
  · intro hno
    apply Extract_not_found
    · intro e he hk
      cases hv : (fromGoogleTraceHeader e.2).ok with
      | true => rfl
      | false => exact absurd ⟨e, hperm.mem_iff.mp he, hk, hv⟩ hno
    · rcases hone with ⟨_, hs⟩ | ⟨hg, _⟩
      · right
        rintro ⟨e, he, hk⟩
        exact hs ⟨e, hperm.mem_iff.mp he, hk⟩
      · left
        rintro ⟨e, he, hk⟩
        exact hg ⟨e, hperm.mem_iff.mp he, hk⟩

/-- C4 (amended), at the carrier whose one entry is the marker key with the value
`t/7;o=1`. -/
theorem C4_one_key_only_witness :
    textMapPropagator.Extract asciiOnly
      (TextMapCarrier.ForeachKey [(shopifyTraceHeader, str "t/7;o=1")]) =
      Except.error PropError.ErrSpanContextNotFound :=
  (C4_one_key_only asciiOnly [(shopifyTraceHeader, str "t/7;o=1")]
    [(shopifyTraceHeader, str "t/7;o=1")] (List.Perm.refl _)
    (Or.inr (by decide))).2 (by decide)

/-- C5: for every text carrier `c` that holds an entry whose key lowers to
`x-cloud-trace-context` and whose value the decoder rejects, `Extract` returns
`ErrSpanContextCorrupted`, in whatever order the entries are visited and whether or not the
marker key occurs; it is so on a map carrier and on an `EnvironmentCarrier`. -/
theorem C5_corrupted (uni : GoString → GoString) (c order : GoMap GoString)
    (hperm : order.Perm c)
    (hbad : ∃ e ∈ c, ToLower uni e.1 = googleCloudTraceHeader ∧
      (fromGoogleTraceHeader e.2).ok = false) :
    textMapPropagator.Extract uni (TextMapCarrier.ForeachKey order) =
      Except.error PropError.ErrSpanContextCorrupted ∧
    textMapPropagator.Extract uni (EnvironmentCarrier.ForeachKey order) =
      Except.error PropError.ErrSpanContextCorrupted := by
  obtain ⟨e, he, hk, hv⟩ := hbad
  have he1 : e ∈ order := hperm.mem_iff.mpr he
  constructor
  · exact Extract_corrupted uni order ⟨e, he1, hk, hv⟩
  · have hfun : EnvironmentCarrier.ForeachKey order =
        TextMapCarrier.ForeachKey (order.map (fun e =>
          (if Replace e.1 95 45 = googleCloudTraceHeader ∨ Replace e.1 95 45 = shopifyTraceHeader
            then Replace e.1 95 45 else e.1, e.2))) := by
      funext handler st
      exact EnvironmentCarrier_ForeachKey_eq order handler st
    rw [hfun]
    apply Extract_corrupted
    exact ⟨_, List.mem_map.mpr ⟨e, he1, rfl⟩, env_key_google uni hk, hv⟩

/-- C5, at a carrier with the marker key and the key `X-Cloud-Trace-Context` of value
`garbage`, visited marker first. -/
theorem C5_corrupted_witness :
    textMapPropagator.Extract asciiOnly (TextMapCarrier.ForeachKey
      [(shopifyTraceHeader, str "t/7;o=1"), (str "X-Cloud-Trace-Context", str "garbage")]) =
      Except.error PropError.ErrSpanContextCorrupted ∧
    textMapPropagator.Extract asciiOnly (EnvironmentCarrier.ForeachKey
      [(shopifyTraceHeader, str "t/7;o=1"), (str "X-Cloud-Trace-Context", str "garbage")]) =
      Except.error PropError.ErrSpanContextCorrupted :=
  C5_corrupted asciiOnly
    [(str "X-Cloud-Trace-Context", str "garbage"), (shopifyTraceHeader, str "t/7;o=1")]
    [(shopifyTraceHeader, str "t/7;o=1"), (str "X-Cloud-Trace-Context", str "garbage")]
    (List.Perm.swap _ _ _) (by decide)

/-- C6 (as stated, refuted): on an `EnvironmentCarrier` that holds `old` under
`x_cloud_trace_context`, `Inject` of the context `(abc, 42, true)` stores nothing under
`x-cloud-trace-context` nor under `x-shopify-trace-context`, and the key
`x_cloud_trace_context`, which is neither of the two, does not keep its value. -/
theorem C6_counterexample :
    mapGet (textMapPropagator.Inject EnvironmentCarrier.Set ⟨str "abc", 42, true⟩
      [(str "x_cloud_trace_context", str "old")]).1 googleCloudTraceHeader = none ∧
    mapGet (textMapPropagator.Inject EnvironmentCarrier.Set ⟨str "abc", 42, true⟩
      [(str "x_cloud_trace_context", str "old")]).1 shopifyTraceHeader = none ∧
    str "x_cloud_trace_context" ≠ googleCloudTraceHeader ∧
    str "x_cloud_trace_context" ≠ shopifyTraceHeader ∧
    mapGet [(str "x_cloud_trace_context", str "old")] (str "x_cloud_trace_context") =
      some (str "old") ∧
    mapGet (textMapPropagator.Inject EnvironmentCarrier.Set ⟨str "abc", 42, true⟩
      [(str "x_cloud_trace_context", str "old")]).1 (str "x_cloud_trace_context") =
      some (str "abc/42;o=1") := by
  decide

/-- C6 (amended): for every span context `(T, S, b)` and every text carrier, `Inject`
returns no error and calls `Set` of the carrier with the value
`toGoogleTraceHeader(T, S, b)`, for `x-cloud-trace-context` and then for
`x-shopify-trace-context`.  On a map carrier, whose `Set` stores under the key it is
given, both keys then hold that value and every other key is as before; on an
`EnvironmentCarrier`, whose `Set` replaces the hyphens of the key by underscores, the
value is held under `x_cloud_trace_context` and `x_shopify_trace_context` and every other
key is as before. -/
theorem C6_inject (sc : wireContext) :
    (∀ (C : Type) (set : C → GoString → GoString → C) (c : C),
      textMapPropagator.Inject set sc c =
        (set (set c googleCloudTraceHeader
            (toGoogleTraceHeader sc.traceID sc.spanID sc.sampled))
          shopifyTraceHeader (toGoogleTraceHeader sc.traceID sc.spanID sc.sampled), none)) ∧
    (∀ c : GoMap GoString,
      (textMapPropagator.Inject TextMapCarrier.Set sc c).2 = none ∧
      mapGet (textMapPropagator.Inject TextMapCarrier.Set sc c).1 googleCloudTraceHeader =
        some (toGoogleTraceHeader sc.traceID sc.spanID sc.sampled) ∧
      mapGet (textMapPropagator.Inject TextMapCarrier.Set sc c).1 shopifyTraceHeader =
        some (toGoogleTraceHeader sc.traceID sc.spanID sc.sampled) ∧
      ∀ k, k ≠ googleCloudTraceHeader → k ≠ shopifyTraceHeader →
        mapGet (textMapPropagator.Inject TextMapCarrier.Set sc c).1 k = mapGet c k) ∧
    (∀ c : GoMap GoString,
      (textMapPropagator.Inject EnvironmentCarrier.Set sc c).2 = none ∧
      mapGet (textMapPropagator.Inject EnvironmentCarrier.Set sc c).1
          (str "x_cloud_trace_context") =
        some (toGoogleTraceHeader sc.traceID sc.spanID sc.sampled) ∧
      mapGet (textMapPropagator.Inject EnvironmentCarrier.Set sc c).1
          (str "x_shopify_trace_context") =
        some (toGoogleTraceHeader sc.traceID sc.spanID sc.sampled) ∧
      ∀ k, k ≠ str "x_cloud_trace_context" → k ≠ str "x_shopify_trace_context" →
        mapGet (textMapPropagator.Inject EnvironmentCarrier.Set sc c).1 k = mapGet c k) := by
  refine ⟨fun _ _ _ => rfl, fun c => ?_, fun c => ?_⟩
  · unfold textMapPropagator.Inject TextMapCarrier.Set
    refine ⟨rfl, ?_, ?_, ?_⟩
    · simp only
      rw [mapGet_mapSet_ne _ _ google_ne_shopify, mapGet_mapSet_self]
    · simp only
      rw [mapGet_mapSet_self]
    · intro k hg hs
      simp only
      rw [mapGet_mapSet_ne _ _ hs, mapGet_mapSet_ne _ _ hg]
  · have e1 : Replace googleCloudTraceHeader 45 95 = str "x_cloud_trace_context" := by decide
    have e2 : Replace shopifyTraceHeader 45 95 = str "x_shopify_trace_context" := by decide
    have hne : str "x_cloud_trace_context" ≠ str "x_shopify_trace_context" := by decide
    unfold textMapPropagator.Inject EnvironmentCarrier.Set
    rw [e1, e2]
    refine ⟨rfl, ?_, ?_, ?_⟩
    · simp only
      rw [mapGet_mapSet_ne _ _ hne, mapGet_mapSet_self]
    · simp only
      rw [mapGet_mapSet_self]
    · intro k hg hs
      simp only
      rw [mapGet_mapSet_ne _ _ hs, mapGet_mapSet_ne _ _ hg]

/-- C7: for every span context `(T, S, b)` whose encoded header the decoder accepts,
`Inject` into an empty `EnvironmentCarrier` stores the header under
`x_cloud_trace_context` and `x_shopify_trace_context`, no key holds a hyphen, and
`Extract` from that carrier, visited in any order, returns `(T, S, b)`. -/
theorem C7_environment_roundtrip (uni : GoString → GoString) (T : GoString) (S : Nat)
    (b : Bool) (hS : S < u64)
    (hok : (fromGoogleTraceHeader (toGoogleTraceHeader T S b)).ok = true)
    (order : GoMap GoString)
    (hperm : order.Perm (textMapPropagator.Inject EnvironmentCarrier.Set ⟨T, S, b⟩ []).1) :
    textMapPropagator.Inject EnvironmentCarrier.Set ⟨T, S, b⟩ [] =
      ([(str "x_cloud_trace_context", toGoogleTraceHeader T S b),
        (str "x_shopify_trace_context", toGoogleTraceHeader T S b)], none) ∧
    (∀ e ∈ (textMapPropagator.Inject EnvironmentCarrier.Set ⟨T, S, b⟩ []).1, 45 ∉ e.1) ∧
    textMapPropagator.Extract uni (EnvironmentCarrier.ForeachKey order) =
      Except.ok ⟨T, S, b⟩ := by
  have hinj : textMapPropagator.Inject EnvironmentCarrier.Set ⟨T, S, b⟩ [] =
      ([(str "x_cloud_trace_context", toGoogleTraceHeader T S b),
        (str "x_shopify_trace_context", toGoogleTraceHeader T S b)], none) := by
    have e1 : Replace googleCloudTraceHeader 45 95 = str "x_cloud_trace_context" := by decide
    have e2 : Replace shopifyTraceHeader 45 95 = str "x_shopify_trace_context" := by decide
    have e3 : ¬ str "x_cloud_trace_context" = str "x_shopify_trace_context" := by decide
    simp [textMapPropagator.Inject, EnvironmentCarrier.Set, e1, e2, mapSet, e3]
  rw [hinj] at hperm ⊢
  refine ⟨rfl, ?_, ?_⟩
  · intro e he
    simp only [List.mem_cons, List.mem_singleton, List.not_mem_nil, or_false] at he
    rcases he with he | he
    · subst he
      show 45 ∉ str "x_cloud_trace_context"
      decide
    · subst he
      show 45 ∉ str "x_shopify_trace_context"
      decide
  · have hfun : EnvironmentCarrier.ForeachKey order =
        TextMapCarrier.ForeachKey (order.map (fun e =>
          (if Replace e.1 95 45 = googleCloudTraceHeader ∨ Replace e.1 95 45 = shopifyTraceHeader
            then Replace e.1 95 45 else e.1, e.2))) := by
      funext handler st
      exact EnvironmentCarrier_ForeachKey_eq order handler st
    rw [hfun]
    have hmem : ∀ e, e ∈ order.map (fun e =>
          (if Replace e.1 95 45 = googleCloudTraceHeader ∨ Replace e.1 95 45 = shopifyTraceHeader
            then Replace e.1 95 45 else e.1, e.2)) ↔
        e = (googleCloudTraceHeader, toGoogleTraceHeader T S b) ∨
        e = (shopifyTraceHeader, toGoogleTraceHeader T S b) := by
      intro e
      rw [(hperm.map _).mem_iff]
      have e1 : Replace (str "x_cloud_trace_context") 95 45 = googleCloudTraceHeader := by decide
      have e2 : Replace (str "x_shopify_trace_context") 95 45 = shopifyTraceHeader := by decide
      simp [e1, e2]
    have hval : ∀ e ∈ order.map (fun e =>
          (if Replace e.1 95 45 = googleCloudTraceHeader ∨ Replace e.1 95 45 = shopifyTraceHeader
            then Replace e.1 95 45 else e.1, e.2)), e.2 = toGoogleTraceHeader T S b := by
      intro e he
      rcases (hmem e).mp he with h | h <;> rw [h]
    obtain ⟨e, he, _, hres⟩ := Extract_found uni _
      (fun e he _ => by rw [hval e he]; exact hok)
      ⟨_, (hmem _).mpr (Or.inl rfl), ToLower_google uni⟩
      ⟨_, (hmem _).mpr (Or.inr rfl), ToLower_shopify uni⟩
    rw [hres, hval e he, roundtrip_of_ok hS hok]
    rfl

/-- C7, at the span context `(abc, 42, sampled)` and the carrier visited marker first. -/
theorem C7_environment_roundtrip_witness :
    textMapPropagator.Inject EnvironmentCarrier.Set ⟨str "abc", 42, true⟩ [] =
      ([(str "x_cloud_trace_context", toGoogleTraceHeader (str "abc") 42 true),
        (str "x_shopify_trace_context", toGoogleTraceHeader (str "abc") 42 true)], none) ∧
    (∀ e ∈ (textMapPropagator.Inject EnvironmentCarrier.Set ⟨str "abc", 42, true⟩ []).1,
      45 ∉ e.1) ∧
    textMapPropagator.Extract asciiOnly (EnvironmentCarrier.ForeachKey
      [(str "x_shopify_trace_context", str "abc/42;o=1"),
       (str "x_cloud_trace_context", str "abc/42;o=1")]) = Except.ok ⟨str "abc", 42, true⟩ :=
  C7_environment_roundtrip asciiOnly (str "abc") 42 true (by decide) (by decide)
    [(str "x_shopify_trace_context", str "abc/42;o=1"),
     (str "x_cloud_trace_context", str "abc/42;o=1")]
    (by decide)

/-- C8: `grpcMetadataPropagator.Extract` returns `ErrSpanContextNotFound` exactly when
the key `x-cloud-trace-context` is absent or has no value, `ErrSpanContextCorrupted`
exactly when the key has a first value that the decoder rejects, and the context decoded
from the first value otherwise; setting the marker key changes nothing. -/
theorem C8_grpc_extract (carrier : MD) :
    (grpcMetadataPropagator.Extract carrier = Except.error PropError.ErrSpanContextNotFound ↔
      mapGet carrier googleCloudTraceHeader = none ∨
      mapGet carrier googleCloudTraceHeader = some []) ∧
    (grpcMetadataPropagator.Extract carrier = Except.error PropError.ErrSpanContextCorrupted ↔
      ∃ h0 rest, mapGet carrier googleCloudTraceHeader = some (h0 :: rest) ∧
        (fromGoogleTraceHeader h0).ok = false) ∧
    (∀ h0 rest, mapGet carrier googleCloudTraceHeader = some (h0 :: rest) →
      (fromGoogleTraceHeader h0).ok = true →
      grpcMetadataPropagator.Extract carrier = Except.ok (fromGoogleTraceHeader h0).context) ∧
    (∀ vals, grpcMetadataPropagator.Extract (mapSet carrier shopifyTraceHeader vals) =
      grpcMetadataPropagator.Extract carrier) := by
  refine ⟨?_, ?_, ?_, ?_⟩
  · unfold grpcMetadataPropagator.Extract
    cases hg : mapGet carrier googleCloudTraceHeader with
    | none => simp
    | some l =>
      cases l with
      | nil => simp
      | cons h0 rest =>
        cases hok : (fromGoogleTraceHeader h0).ok <;> simp [hok]
  · unfold grpcMetadataPropagator.Extract
    cases hg : mapGet carrier googleCloudTraceHeader with
    | none => simp
    | some l =>
      cases l with
      | nil => simp
      | cons h0 rest =>
        cases hok : (fromGoogleTraceHeader h0).ok <;> simp [hok]
  · intro h0 rest hg hok
    unfold grpcMetadataPropagator.Extract
    rw [hg]
    simp [hok, Decoded.context]
  · intro vals
    unfold grpcMetadataPropagator.Extract
    rw [mapGet_mapSet_ne _ _ google_ne_shopify]

/-- C8, at the carrier whose one key is `x-cloud-trace-context` with the values
`t/7;o=1` and `garbage`. -/
theorem C8_grpc_extract_witness :
    grpcMetadataPropagator.Extract [(googleCloudTraceHeader, [str "t/7;o=1", str "garbage"])] =
      Except.ok ⟨str "t", 7, true⟩ :=
  (C8_grpc_extract [(googleCloudTraceHeader, [str "t/7;o=1", str "garbage"])]).2.2.1
    (str "t/7;o=1") [str "garbage"] (by decide) (by decide)

/-- C9: for every counter and every non-zero increment, `nextSpanID` returns (two
iterations of its loop are enough): the identifier is not zero, it is
`counter + increment` modulo `2^64` when that is not zero and `counter + 2*increment`
modulo `2^64` otherwise, and every identifier of any number of later calls is not zero. -/
theorem C9_nextSpanID_nonzero (fuel : Nat) (t : tracer) (hfuel : 2 ≤ fuel)
    (hpos : 0 < t.spanIDIncrement) (hlt : t.spanIDIncrement < u64) :
    (∃ id, nextSpanID fuel t = some (id, ⟨id, t.spanIDIncrement⟩) ∧ id ≠ 0 ∧
      id = if (t.spanIDCounter + t.spanIDIncrement) % u64 ≠ 0
        then (t.spanIDCounter + t.spanIDIncrement) % u64
        else (t.spanIDCounter + 2 * t.spanIDIncrement) % u64) ∧
    (∀ n, ∃ ids t1, nextSpanIDs fuel n t = some (ids, t1) ∧ ids.length = n ∧
      ∀ id ∈ ids, id ≠ 0) := by
  have hinc : t.spanIDIncrement % u64 ≠ 0 := by
    rw [Nat.mod_eq_of_lt hlt]; omega
  constructor
  · rw [nextSpanID_eq t hfuel hinc]
    by_cases h1 : AddUint64 t.spanIDCounter t.spanIDIncrement = 0
    · refine ⟨AddUint64 (AddUint64 t.spanIDCounter t.spanIDIncrement) t.spanIDIncrement, ?_,
        nextSpanID_second_ne_zero hinc h1, ?_⟩
      · simp [h1]
      · have h1b : (t.spanIDCounter + t.spanIDIncrement) % u64 = 0 := h1
        simp only [h1b, ne_eq, not_true_eq_false, if_false]
        unfold AddUint64
        rw [Nat.mod_add_mod]
        congr 1
        omega
    · refine ⟨AddUint64 t.spanIDCounter t.spanIDIncrement, ?_, h1, ?_⟩
      · simp [h1]
      · have h1b : (t.spanIDCounter + t.spanIDIncrement) % u64 ≠ 0 := h1
        simp only [h1b, ne_eq, not_false_eq_true, if_true]
        rfl
  · intro n
    obtain ⟨c, inc⟩ := t
    simp only at hpos hlt hinc
    induction n generalizing c with
    | zero => exact ⟨[], _, rfl, rfl, by simp⟩
    | succ n ih =>
      rw [nextSpanIDs, nextSpanID_eq _ hfuel hinc]
      simp only
      by_cases h1 : AddUint64 c inc = 0
      · obtain ⟨ids, t1, hrun, hl, hnz⟩ := ih (AddUint64 (AddUint64 c inc) inc)
        refine ⟨AddUint64 (AddUint64 c inc) inc :: ids, t1, ?_, by simp [hl], ?_⟩
        · rw [if_neg (not_not.mpr h1)]
          simp only [hrun]
        · intro id hid
          rcases List.mem_cons.mp hid with h | h
          · rw [h]; exact nextSpanID_second_ne_zero hinc h1
          · exact hnz id h
      · obtain ⟨ids, t1, hrun, hl, hnz⟩ := ih (AddUint64 c inc)
        refine ⟨AddUint64 c inc :: ids, t1, ?_, by simp [hl], ?_⟩
        · rw [if_pos h1]
          simp only [hrun]
        · intro id hid
          rcases List.mem_cons.mp hid with h | h
          · rw [h]; exact h1
          · exact hnz id h

/-- C9, at the counter `2^64 - 1` and the increment 1, where the first addition gives
zero. -/
theorem C9_nextSpanID_nonzero_witness :
    (∃ id, nextSpanID 2 ⟨18446744073709551615, 1⟩ = some (id, ⟨id, 1⟩) ∧ id ≠ 0 ∧
      id = if (18446744073709551615 + 1) % u64 ≠ 0
        then (18446744073709551615 + 1) % u64
        else (18446744073709551615 + 2 * 1) % u64) ∧
    (∀ n, ∃ ids t1, nextSpanIDs 2 n ⟨18446744073709551615, 1⟩ = some (ids, t1) ∧
      ids.length = n ∧ ∀ id ∈ ids, id ≠ 0) :=
  C9_nextSpanID_nonzero 2 ⟨18446744073709551615, 1⟩ (by decide) (by decide) (by decide)

/-- C10: for every counter `c` and every odd increment, the progression
`c + k*increment` modulo `2^64`, `k = 1..2^64`, takes each 64-bit value exactly once;
and every run of at most `2^64 - 1` sequential `nextSpanID` calls returns pairwise
distinct identifiers. -/
theorem C10_progression_cycle (c inc : Nat) (hodd : inc % 2 = 1) :
    (∀ k, 1 ≤ k → progression c inc k = (c + k * inc) % u64) ∧
    (∀ v, v < u64 → ∃! k, (1 ≤ k ∧ k ≤ u64) ∧ progression c inc k = v) ∧
    (∀ fuel n, 2 ≤ fuel → n ≤ u64 - 1 →
      ∃ ids t1, nextSpanIDs fuel n ⟨c, inc⟩ = some (ids, t1) ∧ ids.length = n ∧
        ids.Pairwise (fun a b => a ≠ b)) := by
  refine ⟨progression_eq c inc, ?_, ?_⟩
  · intro v hv
    obtain ⟨k, h1, h2, h3⟩ := progression_surj c hodd hv
    refine ⟨k, ⟨⟨h1, h2⟩, h3⟩, ?_⟩
    rintro k2 ⟨⟨g1, g2⟩, g3⟩
    by_contra hne
    rcases Nat.lt_or_gt_of_ne hne with h | h
    · exact progression_ne hodd g1 h (by omega) (by rw [g3, h3])
    · exact progression_ne hodd h1 h (by omega) (by rw [g3, h3])
  · intro fuel n hfuel hn
    have hn2 : n < u64 := by unfold u64 at hn ⊢; omega
    obtain ⟨ks, t1, hrun, hl, hp, hgt, hcase⟩ := nextSpanIDs_run c hfuel hodd n 0 hn2
    have hle : ∀ k ∈ ks, k ≤ n + 1 := by
      intro k hk
      rcases hcase with ha | ⟨_, hb⟩
      · have := ha k hk; omega
      · have := hb k hk; omega
    refine ⟨ks.map (progression c inc), t1, hrun, by simp [hl], ?_⟩
    rw [List.pairwise_map]
    apply List.Pairwise.imp_of_mem _ hp
    intro a b ha hb hab
    exact progression_ne hodd (by have := hgt a ha; omega) hab
      (by have := hle b hb; have := hgt a ha; omega)

/-- C10, at the counter `2^64 - 2` and the increment 3. -/
theorem C10_progression_cycle_witness :
    (∀ k, 1 ≤ k → progression 18446744073709551614 3 k = (18446744073709551614 + k * 3) % u64) ∧
    (∀ v, v < u64 → ∃! k, (1 ≤ k ∧ k ≤ u64) ∧ progression 18446744073709551614 3 k = v) ∧
    (∀ fuel n, 2 ≤ fuel → n ≤ u64 - 1 →
      ∃ ids t1, nextSpanIDs fuel n ⟨18446744073709551614, 3⟩ = some (ids, t1) ∧
        ids.length = n ∧ ids.Pairwise (fun a b => a ≠ b)) :=
  C10_progression_cycle 18446744073709551614 3 (by decide)

/-- C11: every trace identifier that `nextTraceID` returns is the 16 hexadecimal digits
of one `nextSpanID` result followed by the 16 hexadecimal digits of the next one, 32
bytes each in `0-9a-f`; and `nextTraceID` does return when the increment is not zero
(two iterations of the loop of `nextSpanID` are enough). -/
theorem C11_nextTraceID (fuel : Nat) (t : tracer) :
    (∀ traceID t2, nextTraceID fuel t = some (traceID, t2) →
      ∃ id1 id2 t1, nextSpanID fuel t = some (id1, t1) ∧ nextSpanID fuel t1 = some (id2, t2) ∧
        traceID = fmtHex016 id1 ++ fmtHex016 id2 ∧ traceID.length = 32 ∧
        (∀ c ∈ traceID, isHexLower c) ∧
        (fmtHex016 id1).length = 16 ∧ hexVal (fmtHex016 id1) = id1 ∧
        (fmtHex016 id2).length = 16 ∧ hexVal (fmtHex016 id2) = id2) ∧
    (2 ≤ fuel → 0 < t.spanIDIncrement → t.spanIDIncrement < u64 →
      ∃ traceID t2, nextTraceID fuel t = some (traceID, t2)) := by
  constructor
  · intro traceID t2 h
    unfold nextTraceID at h
    cases h1 : nextSpanID fuel t with
    | none => simp [h1] at h
    | some p1 =>
      obtain ⟨id1, t1⟩ := p1
      simp only [h1] at h
      cases h2 : nextSpanID fuel t1 with
      | none => simp [h2] at h
      | some p2 =>
        obtain ⟨id2, t3⟩ := p2
        simp only [h2, Option.some.injEq, Prod.mk.injEq] at h
        obtain ⟨hid, ht⟩ := h
        subst ht
        obtain ⟨l1, x1, v1⟩ := fmtHex016_spec (nextSpanID_result h1).1
        obtain ⟨l2, x2, v2⟩ := fmtHex016_spec (nextSpanID_result h2).1
        refine ⟨id1, id2, t1, rfl, h2, hid.symm, ?_, ?_, l1, v1, l2, v2⟩
        · rw [← hid, List.length_append, l1, l2]
        · intro c hc
          rw [← hid] at hc
          rcases List.mem_append.mp hc with h | h
          · exact x1 c h
          · exact x2 c h
  · intro hfuel hpos hlt
    have hinc : t.spanIDIncrement % u64 ≠ 0 := by
      rw [Nat.mod_eq_of_lt hlt]; omega
    obtain ⟨id1, h1, _, _⟩ := nextSpanID_spec t hfuel hinc
    obtain ⟨id2, h2, _, _⟩ :=
      @nextSpanID_spec fuel ⟨id1, t.spanIDIncrement⟩ hfuel hinc
    simp only at h2
    refine ⟨fmtHex016 id1 ++ fmtHex016 id2, ⟨id2, t.spanIDIncrement⟩, ?_⟩
    unfold nextTraceID
    rw [h1]
    simp only
    rw [h2]

/-- C11, at the counter `2^64 - 2` and the increment 1, where the second call skips
zero. -/
theorem C11_nextTraceID_witness :
    ∃ traceID t2, nextTraceID 2 ⟨18446744073709551614, 1⟩ = some (traceID, t2) :=
  (C11_nextTraceID 2 ⟨18446744073709551614, 1⟩).2 (by decide) (by decide) (by decide)

/-- C12: for every reference list whose first child-of or follows-from reference `r`
points at the context `(T, S)`, `StartSpanWithOptions` returns a span of trace id `T`, of
reference child-of `S` or follows-from `S` after the type of `r`, and of an id that is
the non-zero result of `nextSpanID`; the references before and after `r` change nothing
(the result is that of the list `[r]`). -/
theorem C12_first_reference {V : Type} (fuel : Nat) (now : Time) (sprint : V → GoString)
    (t : tracer) (operationName : GoString) (startTime : Time) (tags : GoMap V)
    (pre post : List SpanReference) (r : SpanReference) (T : GoString) (S : Nat) (b : Bool)
    (hfuel : 2 ≤ fuel) (hpos : 0 < t.spanIDIncrement) (hlt : t.spanIDIncrement < u64)
    (hpre : ∀ x ∈ pre, ¬ isParentRef x) (hr : isParentRef r)
    (hctx : r.ReferencedContext = some ⟨T, S, b⟩) :
    ∃ s id, nextSpanID fuel t = some (id, ⟨id, t.spanIDIncrement⟩) ∧
      StartSpanWithOptions fuel now sprint t operationName ⟨pre ++ r :: post, startTime, tags⟩ =
        some (Started.span s ⟨id, t.spanIDIncrement⟩) ∧
      s.TraceId = T ∧
      s.Reference = some (if r.Typ = ChildOfRef then Span_Reference.ChildOf S
        else Span_Reference.FollowsFrom S) ∧
      s.Id = id ∧ id ≠ 0 ∧
      StartSpanWithOptions fuel now sprint t operationName ⟨pre ++ r :: post, startTime, tags⟩ =
        StartSpanWithOptions fuel now sprint t operationName ⟨[r], startTime, tags⟩ := by
  have hinc : t.spanIDIncrement % u64 ≠ 0 := by
    rw [Nat.mod_eq_of_lt hlt]; omega
  obtain ⟨id, h1, hne, _⟩ := nextSpanID_spec t hfuel hinc
  refine ⟨
    { Id := id, TraceId := T, Operation := operationName,
      Start := some (timeToTimestamp (if startTime.IsZero = true then now else startTime)),
      End := none,
      Tags := List.foldl (fun m kv => mapSet m kv.1 (sprint kv.2)) [] tags,
      Reference := some (if r.Typ = ChildOfRef then Span_Reference.ChildOf S
        else Span_Reference.FollowsFrom S),
      Links := [] }, id, h1, ?_, ?_, ?_, ?_, hne, ?_⟩
  · unfold StartSpanWithOptions
    simp only [h1, refLoop_first _ id pre post r ⟨T, S, b⟩ hpre hr hctx]
  · rfl
  · rfl
  · rfl
  · unfold StartSpanWithOptions
    simp only [h1, refLoop_first _ id pre post r ⟨T, S, b⟩ hpre hr hctx]
    have := refLoop_first
      { Id := 0, TraceId := [], Operation := operationName,
        Start := some (timeToTimestamp (if startTime.IsZero = true then now else startTime)),
        End := none,
        Tags := List.foldl (fun m kv => mapSet m kv.1 (sprint kv.2)) [] tags,
        Reference := none, Links := [] } id [] [] r ⟨T, S, b⟩ (by simp) hr hctx
    simp only [List.nil_append] at this
    simp only [this]

/-- C12, at the references other, follows-from `(abc, 7)`, child-of `(xyz, 9)`. -/
theorem C12_first_reference_witness :
    ∃ s id, nextSpanID 2 ⟨5, 3⟩ = some (id, ⟨id, 3⟩) ∧
      StartSpanWithOptions 2 ⟨0, 0⟩ (fun v : GoString => v) ⟨5, 3⟩ (str "op")
        ⟨[⟨2, none⟩] ++ ⟨FollowsFromRef, some ⟨str "abc", 7, true⟩⟩ ::
          [⟨ChildOfRef, some ⟨str "xyz", 9, true⟩⟩], ⟨0, 0⟩, []⟩ =
        some (Started.span s ⟨id, 3⟩) ∧
      s.TraceId = str "abc" ∧
      s.Reference = some (if FollowsFromRef = ChildOfRef then Span_Reference.ChildOf 7
        else Span_Reference.FollowsFrom 7) ∧
      s.Id = id ∧ id ≠ 0 ∧
      StartSpanWithOptions 2 ⟨0, 0⟩ (fun v : GoString => v) ⟨5, 3⟩ (str "op")
        ⟨[⟨2, none⟩] ++ ⟨FollowsFromRef, some ⟨str "abc", 7, true⟩⟩ ::
          [⟨ChildOfRef, some ⟨str "xyz", 9, true⟩⟩], ⟨0, 0⟩, []⟩ =
      StartSpanWithOptions 2 ⟨0, 0⟩ (fun v : GoString => v) ⟨5, 3⟩ (str "op")
        ⟨[⟨FollowsFromRef, some ⟨str "abc", 7, true⟩⟩], ⟨0, 0⟩, []⟩ :=
  C12_first_reference 2 ⟨0, 0⟩ (fun v : GoString => v) ⟨5, 3⟩ (str "op") ⟨0, 0⟩ []
    [⟨2, none⟩] [⟨ChildOfRef, some ⟨str "xyz", 9, true⟩⟩]
    ⟨FollowsFromRef, some ⟨str "abc", 7, true⟩⟩ (str "abc") 7 true
    (by decide) (by decide) (by decide) (by decide) (by decide) rfl

/-- C13: a span started from references none of which is child-of or follows-from is a
root: it has no reference, its id is the non-zero first result of the generator, and its
trace id is the 16 hexadecimal digits of the second result followed by those of the
third, 32 bytes each in `0-9a-f`. -/
theorem C13_root_span {V : Type} (fuel : Nat) (now : Time) (sprint : V → GoString)
    (t : tracer) (operationName : GoString) (opts : StartSpanOptions V)
    (hfuel : 2 ≤ fuel) (hpos : 0 < t.spanIDIncrement) (hlt : t.spanIDIncrement < u64)
    (hnone : ∀ x ∈ opts.References, ¬ isParentRef x) :
    ∃ s id0 id1 id2 t3, nextSpanIDs fuel 3 t = some ([id0, id1, id2], t3) ∧
      StartSpanWithOptions fuel now sprint t operationName opts = some (Started.span s t3) ∧
      s.Reference = none ∧ s.Id = id0 ∧ id0 ≠ 0 ∧
      s.TraceId = fmtHex016 id1 ++ fmtHex016 id2 ∧ s.TraceId.length = 32 ∧
      ∀ c ∈ s.TraceId, isHexLower c := by
  have hinc : t.spanIDIncrement % u64 ≠ 0 := by
    rw [Nat.mod_eq_of_lt hlt]; omega
  obtain ⟨id0, h0, hne, _⟩ := nextSpanID_spec t hfuel hinc
  obtain ⟨id1, h1, _, hb1⟩ :=
    @nextSpanID_spec fuel ⟨id0, t.spanIDIncrement⟩ hfuel hinc
  obtain ⟨id2, h2, _, hb2⟩ :=
    @nextSpanID_spec fuel ⟨id1, t.spanIDIncrement⟩ hfuel hinc
  simp only at h1 h2
  obtain ⟨l1, x1, _⟩ := fmtHex016_spec hb1
  obtain ⟨l2, x2, _⟩ := fmtHex016_spec hb2
  refine ⟨
    { Id := id0, TraceId := fmtHex016 id1 ++ fmtHex016 id2, Operation := operationName,
      Start := some (timeToTimestamp (if opts.StartTime.IsZero = true then now
        else opts.StartTime)),
      End := none,
      Tags := List.foldl (fun m kv => mapSet m kv.1 (sprint kv.2)) [] opts.Tags,
      Reference := none, Links := [] },
    id0, id1, id2, ⟨id2, t.spanIDIncrement⟩, ?_, ?_, ?_, ?_, hne, ?_, ?_, ?_⟩
  · simp only [nextSpanIDs, h0, h1, h2]
  · unfold StartSpanWithOptions
    simp only [h0, refLoop_none _ id0 opts.References hnone, nextTraceID, h1, h2]
  · rfl
  · rfl
  · rfl
  · show (fmtHex016 id1 ++ fmtHex016 id2).length = 32
    rw [List.length_append, l1, l2]
  · intro c hc
    rcases List.mem_append.mp hc with h | h
    · exact x1 c h
    · exact x2 c h

/-- C13, at the counter 5, the increment 3 and one reference of another type. -/
theorem C13_root_span_witness :
    ∃ s id0 id1 id2 t3, nextSpanIDs 2 3 ⟨5, 3⟩ = some ([id0, id1, id2], t3) ∧
      StartSpanWithOptions 2 ⟨0, 0⟩ (fun v : GoString => v) ⟨5, 3⟩ (str "op")
        ⟨[⟨2, none⟩], ⟨0, 0⟩, []⟩ = some (Started.span s t3) ∧
      s.Reference = none ∧ s.Id = id0 ∧ id0 ≠ 0 ∧
      s.TraceId = fmtHex016 id1 ++ fmtHex016 id2 ∧ s.TraceId.length = 32 ∧
      ∀ c ∈ s.TraceId, isHexLower c :=
  C13_root_span 2 ⟨0, 0⟩ (fun v : GoString => v) ⟨5, 3⟩ (str "op")
    ⟨[⟨2, none⟩], ⟨0, 0⟩, []⟩ (by decide) (by decide) (by decide) (by decide)

/-- C14 (as stated, refuted): with the ceiling 10 and a queue of two spans of footprint 7
followed by a span of footprint 22, `dequeueSpans` returns the first span and pushes the
second one back, so that the span whose own footprint exceeds the ceiling is in the queue
afterwards; and with the ceiling -1 the empty batch, of total footprint 0, is above the
ceiling. -/
theorem C14_counterexample :
    uploader.dequeueSpans sizeOfOperation
        ⟨10, 5, [spanOfSize 1 5, spanOfSize 2 5, spanOfSize 3 20], none, []⟩ =
      ([spanOfSize 1 5], ⟨10, 5, [spanOfSize 3 20, spanOfSize 2 5], none, []⟩) ∧
    (footprint sizeOfOperation (spanOfSize 3 20) : Int) > 10 ∧
    spanOfSize 3 20 ∈ (uploader.dequeueSpans sizeOfOperation
        ⟨10, 5, [spanOfSize 1 5, spanOfSize 2 5, spanOfSize 3 20], none, []⟩).2.spanChannel ∧
    (totalFootprint sizeOfOperation
      (uploader.dequeueSpans sizeOfOperation ⟨-1, 5, [], none, []⟩).1 : Int) > -1 := by
  decide

/-- C14 (amended): for every queue content and every byte ceiling, the batch returned by
`dequeueSpans` has total footprint at most the ceiling unless it is empty, and holds no
span whose own footprint exceeds the ceiling; `dequeueSpans` handles a prefix of the
queue, of which the batch keeps exactly the spans within the ceiling (the others are
dropped, not put back), and the queue afterwards is the part not handled, the first span
of which, if any, is within the ceiling and is moved to the tail (or dropped when the
queue is full). -/
theorem C14_batch_within_ceiling (size : Span → Nat) (u : uploader) :
    ((u.dequeueSpans size).1 = [] ∨
      (totalFootprint size (u.dequeueSpans size).1 : Int) ≤ u.byteLimit) ∧
    (∀ s ∈ (u.dequeueSpans size).1, (footprint size s : Int) ≤ u.byteLimit) ∧
    ∃ processed rest, u.spanChannel = processed ++ rest ∧
      (u.dequeueSpans size).1 =
        processed.filter (fun s => decide ((footprint size s : Int) ≤ u.byteLimit)) ∧
      ((rest = [] ∧ (u.dequeueSpans size).2.spanChannel = []) ∨
        (∃ s rest1, rest = s :: rest1 ∧ (footprint size s : Int) ≤ u.byteLimit ∧
          ((u.dequeueSpans size).2.spanChannel = rest1 ++ [s] ∨
            (u.dequeueSpans size).2.spanChannel = rest1))) := by
  unfold uploader.dequeueSpans
  obtain ⟨processed, rest, hq, hb, hr, ht⟩ :=
    dequeueLoop_spec size u u.spanChannel 0 [] (by simp [totalFootprint])
  simp only [List.nil_append] at hb
  refine ⟨ht, ?_, processed, rest, hq, hb, ?_⟩
  · intro s hs
    rw [hb] at hs
    simpa using (List.mem_filter.mp hs).2
  · rcases hr with ⟨h1, h2⟩ | ⟨s, rest1, h1, h2, h3⟩
    · left
      exact ⟨h1, by rw [h2]⟩
    · right
      refine ⟨s, rest1, h1, h2, ?_⟩
      rw [h3]
      by_cases hroom : rest1.length < u.bufferLimit
      · left
        rw [enqueue_room s (by simpa using hroom)]
      · right
        rw [enqueue_full s (by simpa using hroom), count_spanChannel]

/-- C15 (the code at the failing input): with the ceiling 10 and a queue of a span of
footprint 22 followed by a span of footprint 7, `dequeueSpans` drops the first span and
pushes the second one back: the batch is empty. -/
theorem C15_oversized_counts_against_batch :
    (footprint sizeOfOperation (spanOfSize 1 20) : Int) > 10 ∧
    (footprint sizeOfOperation (spanOfSize 2 5) : Int) ≤ 10 ∧
    uploader.dequeueSpans sizeOfOperation ⟨10, 5, [spanOfSize 1 20, spanOfSize 2 5], none, []⟩ =
      ([], ⟨10, 5, [spanOfSize 2 5], none, []⟩) := by
  decide

/-- C16 (as stated, refuted): with no stats client, `enqueue` on a full queue of an
open channel returns `ErrEnqueueBufferFull` and leaves the queue unchanged, and nothing
is added to the drop counter. -/
theorem C16_counterexample :
    uploader.enqueue false ⟨10, 1, [spanOfSize 1 5], none, []⟩ (spanOfSize 2 5) =
      some (⟨10, 1, [spanOfSize 1 5], none, []⟩, some UploadError.ErrEnqueueBufferFull) ∧
    (uploader.enqueue false ⟨10, 1, [spanOfSize 1 5], none, []⟩ (spanOfSize 2 5)).map
        (fun r => counterTotal r.1 (str "proxy_producer.dropped_span")) =
      some (counterTotal ⟨10, 1, [spanOfSize 1 5], none, []⟩
        (str "proxy_producer.dropped_span")) ∧
    (uploader.enqueue false ⟨10, 1, [spanOfSize 1 5], none, []⟩ (spanOfSize 2 5)).map
        (fun r => counterTotal r.1 (str "proxy_producer.dropped_span")) ≠
      some (counterTotal ⟨10, 1, [spanOfSize 1 5], none, []⟩
        (str "proxy_producer.dropped_span") + 1) := by
  decide

/-- C16 (amended): while `spanChannel` is open, `enqueue` returns, and keeps a queue
within capacity; on a queue holding fewer than `bufferLimit` spans it appends the span at
the tail and returns nil; on a queue holding `bufferLimit` spans it returns
`ErrEnqueueBufferFull`, leaves the queue unchanged and, when a stats client is
configured, makes one `Count` call of value 1 on the drop counter, which rises by
exactly 1 (with no stats client nothing is counted). -/
theorem C16_enqueue (closed : Bool) (u : uploader) (s : Span) (hopen : closed = false)
    (hcap : u.spanChannel.length ≤ u.bufferLimit) :
    ∃ u1 err, u.enqueue closed s = some (u1, err) ∧
      u1.spanChannel.length ≤ u.bufferLimit ∧
      (u.spanChannel.length < u.bufferLimit →
        u1 = { u with spanChannel := u.spanChannel ++ [s] } ∧ err = none) ∧
      (u.spanChannel.length = u.bufferLimit →
        err = some UploadError.ErrEnqueueBufferFull ∧
        u1.spanChannel = u.spanChannel ∧
        u1.tracerDog = u.tracerDog.map
          (fun calls => calls ++ [⟨str "proxy_producer.dropped_span", 1, u.statsTags⟩]) ∧
        (u.tracerDog ≠ none →
          counterTotal u1 (str "proxy_producer.dropped_span") =
            counterTotal u (str "proxy_producer.dropped_span") + 1) ∧
        (u.tracerDog = none → u1 = u)) := by
  subst hopen
  refine ⟨(u.enqueueOpen s).1, (u.enqueueOpen s).2, rfl, ?_, ?_, ?_⟩
  · by_cases h : u.spanChannel.length < u.bufferLimit
    · rw [enqueue_room s h]
      simp only [List.length_append, List.length_singleton]
      omega
    · rw [enqueue_full s h, count_spanChannel]
      exact hcap
  · intro h
    rw [enqueue_room s h]
    exact ⟨rfl, rfl⟩
  · intro h
    rw [enqueue_full s (by omega)]
    refine ⟨rfl, count_spanChannel _ _ _ _, count_tracerDog _ _ _ _, ?_, ?_⟩
    · intro hdog
      unfold uploader.count counterTotal
      cases hd : u.tracerDog with
      | none => exact absurd hd hdog
      | some calls => simp [List.filter_append]
    · intro hdog
      unfold uploader.count
      simp [hdog]

/-- C16 (amended), at an open channel with a full queue of one span and a stats
client. -/
theorem C16_enqueue_witness :
    ∃ u1 err,
      uploader.enqueue false ⟨10, 1, [spanOfSize 1 5], some [], []⟩ (spanOfSize 2 5) =
        some (u1, err) ∧
      u1.spanChannel.length ≤ 1 ∧
      ([spanOfSize 1 5].length < 1 →
        u1 = ⟨10, 1, [spanOfSize 1 5] ++ [spanOfSize 2 5], some [], []⟩ ∧ err = none) ∧
      ([spanOfSize 1 5].length = 1 →
        err = some UploadError.ErrEnqueueBufferFull ∧
        u1.spanChannel = [spanOfSize 1 5] ∧
        u1.tracerDog = (some [] : Option (List Stat)).map
          (fun calls => calls ++ [⟨str "proxy_producer.dropped_span", 1, []⟩]) ∧
        ((some [] : Option (List Stat)) ≠ none →
          counterTotal u1 (str "proxy_producer.dropped_span") =
            counterTotal ⟨10, 1, [spanOfSize 1 5], some [], []⟩
              (str "proxy_producer.dropped_span") + 1) ∧
        ((some [] : Option (List Stat)) = none →
          u1 = ⟨10, 1, [spanOfSize 1 5], some [], []⟩)) :=
  C16_enqueue false ⟨10, 1, [spanOfSize 1 5], some [], []⟩ (spanOfSize 2 5) rfl (by decide)

/-- C17: the queue that `reenqueueOrFail` leaves is the queue that calling `enqueue` on
every span of the batch, in batch order and whatever the earlier calls returned, leaves:
the spans of the batch that fit, at the tail; and after a transport failure the queue
that `upload` leaves is the queue that these independent attempts leave, from the queue
left by `dequeueSpans`. -/
theorem C17_reenqueue_refines (u : uploader) (batch : List Span) :
    (u.reenqueueOrFail batch).spanChannel = (enqueueAll u batch).spanChannel ∧
    (u.reenqueueOrFail batch).spanChannel =
      u.spanChannel ++ batch.take (u.bufferLimit - u.spanChannel.length) ∧
    (∀ (size : Span → Nat) (n : Nat),
      (u.upload size (some n) true PostResult.failed).1.spanChannel =
        (enqueueAll (u.dequeueSpans size).2 (u.dequeueSpans size).1).spanChannel ∧
      (u.upload size (some n) true PostResult.deadlineExceeded).1.spanChannel =
        (enqueueAll (u.dequeueSpans size).2 (u.dequeueSpans size).1).spanChannel) := by
  refine ⟨?_, ?_, ?_⟩
  · unfold uploader.reenqueueOrFail
    rw [reenqueueLoop_spanChannel, enqueueAll_spanChannel]
  · unfold uploader.reenqueueOrFail
    rw [reenqueueLoop_spanChannel]
  · intro size n
    constructor
    · rw [upload_transport_failure size n u _ (Or.inl rfl)]
      unfold uploader.reenqueueOrFail
      rw [reenqueueLoop_spanChannel, enqueueAll_spanChannel]
    · rw [upload_transport_failure size n u _ (Or.inr rfl)]
      unfold uploader.reenqueueOrFail
      rw [reenqueueLoop_spanChannel, enqueueAll_spanChannel]

/-- C18 (as stated, refuted): with no stats client, a batch of one span and the response
status 500, `upload` returns nil and leaves the queue as `dequeueSpans` left it, and no
failure counter is incremented. -/
theorem C18_counterexample :
    (uploader.upload sizeOfOperation (some 7) true (PostResult.response 500)
        ⟨10, 5, [spanOfSize 1 5], none, []⟩).2 = none ∧
    (uploader.dequeueSpans sizeOfOperation ⟨10, 5, [spanOfSize 1 5], none, []⟩).1 =
      [spanOfSize 1 5] ∧
    counterTotal (uploader.upload sizeOfOperation (some 7) true (PostResult.response 500)
        ⟨10, 5, [spanOfSize 1 5], none, []⟩).1 (str "proxy_producer.api_calls.failure") =
      counterTotal ⟨10, 5, [spanOfSize 1 5], none, []⟩
        (str "proxy_producer.api_calls.failure") := by
  decide

/-- C18 (amended): when the POST returns a response, whatever its status code, `upload`
returns nil and the queue afterwards is the queue left by `dequeueSpans`; for a status
other than 200, so for every non-2xx status, and a batch that is not empty, the `Count`
calls made after `dequeueSpans` are the payload size and one call of value 1 on the
failure counter, tagged with the reason, when a stats client is configured (with no stats
client nothing is counted). -/
theorem C18_response_not_resubmitted (size : Span → Nat) (n : Nat) (statusCode : Int)
    (u : uploader) :
    (u.upload size (some n) true (PostResult.response statusCode)).2 = none ∧
    (u.upload size (some n) true (PostResult.response statusCode)).1.spanChannel =
      (u.dequeueSpans size).2.spanChannel ∧
    (statusCode ≠ 200 → (u.dequeueSpans size).1 ≠ [] →
      (u.upload size (some n) true (PostResult.response statusCode)).1.tracerDog =
        (u.dequeueSpans size).2.tracerDog.map (fun calls => calls ++
          [⟨str "proxy_producer.payload_bytes", (n : Int), u.statsTags⟩,
           ⟨str "proxy_producer.api_calls.failure", 1,
             [str "reason:" ++ failureReason statusCode]⟩])) := by
  unfold uploader.upload
  cases hd : u.dequeueSpans size with
  | mk batch u1 =>
    simp only
    by_cases he : batch.length = 0
    · rw [if_pos he]
      refine ⟨rfl, rfl, ?_⟩
      intro _ hne
      exact absurd (List.length_eq_zero.mp he) hne
    · rw [if_neg he]
      simp only [Bool.not_true, Bool.false_eq_true, if_false]
      by_cases h200 : statusCode = 200
      · rw [if_pos h200]
        refine ⟨rfl, ?_, fun h => absurd h200 h⟩
        rw [countSuccess_spanChannel, count_spanChannel]
      · rw [if_neg h200]
        refine ⟨rfl, ?_, ?_⟩
        · rw [count_spanChannel, count_spanChannel]
        · intro _ _
          have hst : u1.statsTags = u.statsTags := by
            have h2 : (u.dequeueSpans size).2.statsTags = u.statsTags := by
              unfold uploader.dequeueSpans
              obtain ⟨processed, rest, _, _, hr, _⟩ :=
                dequeueLoop_spec size u u.spanChannel 0 [] (by simp [totalFootprint])
              rcases hr with ⟨_, h3⟩ | ⟨s, rest1, _, _, h3⟩
              · rw [h3]
              · rw [h3]
                unfold uploader.enqueueOpen uploader.count
                by_cases hroom : rest1.length < u.bufferLimit
                · simp [hroom]
                · cases hdog : u.tracerDog <;> simp [hroom, hdog]
            rw [hd] at h2
            exact h2
          rw [count_tracerDog, count_tracerDog, hst]
          cases u1.tracerDog <;> simp

/-- C18 (amended), at a batch of one span, a stats client and the response status 500. -/
theorem C18_response_not_resubmitted_witness :
    (uploader.upload sizeOfOperation (some 7) true (PostResult.response 500)
        ⟨10, 5, [spanOfSize 1 5], some [], []⟩).1.tracerDog =
      (uploader.dequeueSpans sizeOfOperation
        ⟨10, 5, [spanOfSize 1 5], some [], []⟩).2.tracerDog.map (fun calls => calls ++
          [⟨str "proxy_producer.payload_bytes", ((7 : Nat) : Int), []⟩,
           ⟨str "proxy_producer.api_calls.failure", 1,
             [str "reason:" ++ failureReason 500]⟩]) :=
  (C18_response_not_resubmitted sizeOfOperation 7 500
    ⟨10, 5, [spanOfSize 1 5], some [], []⟩).2.2 (by decide) (by decide)

/-- C19 (the code at the failing input): the empty trace id is hex-decodable (to no
bytes), and on the batch of one record with that trace id `toTraceSpans` panics at
`traceID[:16]` instead of returning. -/
theorem C19_empty_trace_id_panics :
    DecodeString (recordOf 1 (str "")).TraceId = some [] ∧
    sliceTo16 [] (exactCapacity (str "")) = none ∧
    toTraceSpans exactCapacity [some (recordOf 1 (str ""))] = none := by
  decide

/-- C20 (the code at the failing inputs): a record whose trace id is `abcd`, the hex
encoding of 2 bytes, is never counted invalid and skipped: whatever the spare capacity
of the decoded slice, `toTraceSpans` panics or emits a span for it, and it panics when
the capacity is the length; a record whose trace id is the hex encoding of 17 bytes is
emitted with the first 16 of them. -/
theorem C20_short_trace_id_not_skipped (spare : GoString → List Nat) :
    (toTraceSpans spare [some (recordOf 1 (str "abcd"))] = none ∨
      ∃ oc, toTraceSpans spare [some (recordOf 1 (str "abcd"))] = some ⟨[oc], 0, none⟩) ∧
    toTraceSpans exactCapacity [some (recordOf 1 (str "abcd"))] = none ∧
    (∃ oc, toTraceSpans spare
        [some (recordOf 1 (str "000102030405060708090a0b0c0d0e0f10"))] = some ⟨[oc], 0, none⟩ ∧
      oc.TraceId = [0, 1, 2, 3, 4, 5, 6, 7, 8, 9, 10, 11, 12, 13, 14, 15] ∧
      DecodeString (str "000102030405060708090a0b0c0d0e0f10") =
        some [0, 1, 2, 3, 4, 5, 6, 7, 8, 9, 10, 11, 12, 13, 14, 15, 16]) := by
  refine ⟨?_, by decide, ?_⟩
  · rcases toTraceSpans_single spare (recordOf 1 (str "abcd")) [171, 205] (by decide) with h | h
    · left; exact h
    · right
      obtain ⟨oc, h1, _⟩ := h
      exact ⟨oc, h1⟩
  · have hdec : DecodeString (recordOf 1 (str "000102030405060708090a0b0c0d0e0f10")).TraceId =
        some [0, 1, 2, 3, 4, 5, 6, 7, 8, 9, 10, 11, 12, 13, 14, 15, 16] := by decide
    unfold toTraceSpans
    simp only [toTraceSpansLoop, hdec]
    have hs : sliceTo16 [0, 1, 2, 3, 4, 5, 6, 7, 8, 9, 10, 11, 12, 13, 14, 15, 16]
        (spare (recordOf 1 (str "000102030405060708090a0b0c0d0e0f10")).TraceId) =
        some [0, 1, 2, 3, 4, 5, 6, 7, 8, 9, 10, 11, 12, 13, 14, 15] := by
      unfold sliceTo16
      rw [if_pos (by simp only [List.length_cons, List.length_nil]; omega)]
      rfl
    rw [hs]
    exact ⟨_, rfl, rfl, by decide⟩

/-- C21: on every batch whose valid records have the capacity that `traceID[:16]`
needs, `toTraceSpans` returns, and the emitted spans stand one for each valid record, in
input order, with the parent read off the reference of the record: a record with no
reference has no parent id; a record with a child-of reference `v` or a follows-from
reference `v` has the parent `v`, emitted as no `ParentSpanId` when `v` is 0 and as the 8
bytes of `v`, big-endian, otherwise.  In terms of the getters, of which at most one is not
zero, the parent is the child-of value when that is not zero and the follows-from value
otherwise; `Span.parentSpanID` computes the same value; and the bytes emitted for a
parent below 2^64 are the one list of 8 bytes that denotes it. -/
theorem C21_parent_resolution (spare : GoString → List Nat) (recs : List (Option Span))
    (hcap : ∀ s ∈ validRecords recs, hasCapacity spare s) :
    ∃ out, toTraceSpans spare recs = some out ∧
      List.Forall₂ (fun s oc =>
        (s.Reference = none → s.parentSpanID = 0 ∧ oc.ParentSpanId = none) ∧
        (∀ v, s.Reference = some (Span_Reference.ChildOf v) →
          s.parentSpanID = v ∧
          oc.ParentSpanId = (if v = 0 then none else some (bigEndian8 v))) ∧
        (∀ v, s.Reference = some (Span_Reference.FollowsFrom v) →
          s.parentSpanID = v ∧
          oc.ParentSpanId = (if v = 0 then none else some (bigEndian8 v))) ∧
        (s.GetChildOf = 0 ∨ s.GetFollowsFrom = 0) ∧
        oc.ParentSpanId =
          (if s.GetChildOf ≠ 0 then some (bigEndian8 s.GetChildOf)
           else if s.GetFollowsFrom ≠ 0 then some (bigEndian8 s.GetFollowsFrom) else none) ∧
        oc.ParentSpanId =
          (if s.parentSpanID = 0 then none else some (bigEndian8 s.parentSpanID)) ∧
        (∀ bytes, s.parentSpanID < u64 →
          (oc.ParentSpanId = some bytes ↔
            s.parentSpanID ≠ 0 ∧ bytes.length = 8 ∧ (∀ b ∈ bytes, b < 256) ∧
              bigEndianValue bytes = s.parentSpanID)))
        (validRecords recs) out.ocSpans := by
  refine ⟨_, (toTraceSpans_spec spare recs).1 hcap, ?_⟩
  apply List.Forall₂.imp _ (forall₂_map_self _ _)
  intro s oc hoc
  subst hoc
  obtain ⟨hnone, hchild, hfollows⟩ := getters_of_reference s
  obtain ⟨hp1, hp2⟩ := parentSpanID_of_getters s
  have hpar := emitted_parent spare s
  refine ⟨?_, ?_, ?_, ?_, ?_, hpar, fun bytes h64 => emitted_parent_bytes spare s bytes h64⟩
  · intro h
    obtain ⟨hc, hf⟩ := hnone h
    have hp : s.parentSpanID = 0 := by rw [hp2 hc, hf]
    rw [hpar, if_pos hp]
    exact ⟨hp, rfl⟩
  · intro v h
    obtain ⟨hc, hf⟩ := hchild v h
    have hp : s.parentSpanID = v := by
      by_cases hv : v = 0
      · rw [hp2 (by rw [hc, hv]), hf, hv]
      · rw [hp1 (by rw [hc]; exact hv), hc]
    rw [hpar, hp]
    exact ⟨rfl, rfl⟩
  · intro v h
    obtain ⟨hc, hf⟩ := hfollows v h
    have hp : s.parentSpanID = v := by rw [hp2 hc, hf]
    rw [hpar, hp]
    exact ⟨rfl, rfl⟩
  · cases hr : s.Reference with
    | none => exact Or.inl (hnone hr).1
    | some r =>
      cases r with
      | ChildOf v => exact Or.inr (hchild v hr).2
      | FollowsFrom v => exact Or.inl (hfollows v hr).1
  · rw [hpar]
    by_cases hc : s.GetChildOf = 0
    · rw [hp2 hc]
      by_cases hf : s.GetFollowsFrom = 0
      · simp [hc, hf]
      · simp [hc, hf]
    · rw [hp1 hc]
      simp [hc]

/-- C21, at the batch of the test of the repository: the record with the follows-from
reference 2 is emitted with the parent bytes of 2, the record with the child-of reference
3 with those of 3, the record with no reference with no parent id. -/
theorem C21_parent_resolution_witness :
    (∀ s ∈ validRecords testBatch, hasCapacity exactCapacity s) ∧
    (∃ out, toTraceSpans exactCapacity testBatch = some out ∧
      List.Forall₂ (fun s oc =>
        (s.Reference = none → s.parentSpanID = 0 ∧ oc.ParentSpanId = none) ∧
        (∀ v, s.Reference = some (Span_Reference.ChildOf v) →
          s.parentSpanID = v ∧
          oc.ParentSpanId = (if v = 0 then none else some (bigEndian8 v))) ∧
        (∀ v, s.Reference = some (Span_Reference.FollowsFrom v) →
          s.parentSpanID = v ∧
          oc.ParentSpanId = (if v = 0 then none else some (bigEndian8 v))) ∧
        (s.GetChildOf = 0 ∨ s.GetFollowsFrom = 0) ∧
        oc.ParentSpanId =
          (if s.GetChildOf ≠ 0 then some (bigEndian8 s.GetChildOf)
           else if s.GetFollowsFrom ≠ 0 then some (bigEndian8 s.GetFollowsFrom) else none) ∧
        oc.ParentSpanId =
          (if s.parentSpanID = 0 then none else some (bigEndian8 s.parentSpanID)) ∧
        (∀ bytes, s.parentSpanID < u64 →
          (oc.ParentSpanId = some bytes ↔
            s.parentSpanID ≠ 0 ∧ bytes.length = 8 ∧ (∀ b ∈ bytes, b < 256) ∧
              bigEndianValue bytes = s.parentSpanID)))
        (validRecords testBatch) out.ocSpans) ∧
    (validRecords testBatch).map (fun s => s.Reference) =
      [some (Span_Reference.FollowsFrom 2), some (Span_Reference.ChildOf 3), none] ∧
    (toTraceSpans exactCapacity testBatch).map
        (fun out => out.ocSpans.map (fun oc => oc.ParentSpanId)) =
      some [some [0, 0, 0, 0, 0, 0, 0, 2], some [0, 0, 0, 0, 0, 0, 0, 3], none] :=
  ⟨by decide, C21_parent_resolution exactCapacity testBatch (by decide), by decide,
    by decide⟩

/-- C22: for every tag map, `tagsToTraceAttributes` returns the tags whose key is neither
`span.kind` nor `error`, each under its key as a string attribute holding the tag's value;
it returns no attribute map exactly when every key is one of these two. -/
theorem C22_attributes (tags : GoMap GoString) (hmap : (tags.map Prod.fst).Nodup) :
    (tagsToTraceAttributes tags = none ↔ ∀ kv ∈ tags, isReservedTag kv.1) ∧
    (∀ attributes, tagsToTraceAttributes tags = some attributes →
      (attributes.map Prod.fst).Nodup ∧
      (∀ k, k ∈ attributes.map Prod.fst ↔ k ∈ tags.map Prod.fst ∧ ¬ isReservedTag k) ∧
      (∀ k, ¬ isReservedTag k →
        mapGet attributes k = (mapGet tags k).map tracepb.AttributeValue.StringValue) ∧
      attributes = (tags.filter keepsTag).map attributeOf) := by
  rw [tagsToTraceAttributes_eq tags hmap]
  have hkeys : ((tags.filter keepsTag).map attributeOf).map
      Prod.fst = (tags.filter keepsTag).map Prod.fst := by
    rw [List.map_map]
    rfl
  have hget : ∀ (l : GoMap GoString) (k : GoString), ¬ isReservedTag k →
      mapGet ((l.filter keepsTag).map attributeOf) k =
        (mapGet l k).map tracepb.AttributeValue.StringValue := by
    intro l k hk
    induction l with
    | nil => rfl
    | cons kv l ih =>
      obtain ⟨k1, v1⟩ := kv
      by_cases h1 : k1 = k
      · subst h1
        have : keepsTag (k1, v1) = true := by simpa [keepsTag] using hk
        rw [List.filter_cons_of_pos this]
        simp [mapGet, attributeOf]
      · by_cases hr : isReservedTag k1
        · have : ¬ (keepsTag (k1, v1) = true) := by simpa [keepsTag] using hr
          rw [List.filter_cons_of_neg this, ih]
          simp [mapGet, h1]
        · have : keepsTag (k1, v1) = true := by simpa [keepsTag] using hr
          rw [List.filter_cons_of_pos this]
          simp only [List.map_cons, mapGet, attributeOf, if_neg h1]
          exact ih
  constructor
  · by_cases hf : tags.filter keepsTag = []
    · rw [if_pos hf]
      simp only [true_iff]
      intro kv hkv
      by_contra hr
      have : kv ∈ tags.filter keepsTag :=
        List.mem_filter.mpr ⟨hkv, by simpa [keepsTag] using hr⟩
      rw [hf] at this
      simp at this
    · rw [if_neg hf]
      simp only [false_iff, reduceCtorEq]
      intro hall
      apply hf
      rw [List.filter_eq_nil_iff]
      intro kv hkv
      simpa [keepsTag] using hall kv hkv
  · intro attributes hsome
    by_cases hf : tags.filter keepsTag = []
    · rw [if_pos hf] at hsome
      exact absurd hsome (by simp)
    · rw [if_neg hf] at hsome
      have hattr := (Option.some.inj hsome).symm
      subst hattr
      refine ⟨?_, ?_, ?_, rfl⟩
      · rw [hkeys]
        exact (List.Nodup.sublist (List.Sublist.map _ (List.filter_sublist _)) hmap)
      · intro k
        rw [hkeys]
        simp only [List.mem_map, List.mem_filter, keepsTag, decide_eq_true_eq]
        constructor
        · rintro ⟨kv, ⟨h1, h2⟩, h3⟩
          subst h3
          exact ⟨⟨kv, h1, rfl⟩, h2⟩
        · rintro ⟨⟨kv, h1, h3⟩, h2⟩
          subst h3
          exact ⟨kv, ⟨h1, h2⟩, rfl⟩
      · intro k hk
        exact hget tags k hk

/-- C22, at the tags `span.kind: client`, `error: true`, `k: v`. -/
theorem C22_attributes_witness :
    tagsToTraceAttributes
        [(str "span.kind", str "client"), (str "error", str "true"), (str "k", str "v")] =
      some [(str "k", tracepb.AttributeValue.StringValue (str "v"))] ∧
    [(str "k", tracepb.AttributeValue.StringValue (str "v"))] =
      ([(str "span.kind", str "client"), (str "error", str "true"), (str "k", str "v")].filter
        keepsTag).map attributeOf :=
  ⟨by decide,
   ((C22_attributes
      [(str "span.kind", str "client"), (str "error", str "true"), (str "k", str "v")]
      (by decide)).2 [(str "k", tracepb.AttributeValue.StringValue (str "v"))]
      (by decide)).2.2.2⟩

/-- C23 (the code at the failing input): for a record whose link list holds one null
entry, `extractLinks` returns a links field that is not nil and holds an empty list, and
so does the span that `toTraceSpans` emits; `tagsToTraceAttributes`, the sibling, returns
nil when nothing is left after the reserved tags are taken out. -/
theorem C23_null_links_not_omitted :
    extractLinks { recordOf 1 (str "0123456789abcdef0123456789abcdef") with Links := [none] } =
      some [] ∧
    (toTraceSpans exactCapacity
        [some { recordOf 1 (str "0123456789abcdef0123456789abcdef") with Links := [none] }]).map
      (fun out => out.ocSpans.map (fun oc => oc.Links)) = some [some []] ∧
    tagsToTraceAttributes [(str "error", str "true")] = none := by
  decide

/-- C24: `extractStatus` gives the status of code 2 and message `UNKNOWN` exactly when
the tag `error` is present with the value `true`, and no status otherwise; records with
the same `error` tag get the same status; and every span that `toTraceSpans` emits has
the status that `extractStatus` gives for its record. -/
theorem C24_status (span : Span) :
    (extractStatus span = some ⟨2, str "UNKNOWN"⟩ ↔
      mapGet span.Tags (str "error") = some (str "true")) ∧
    (extractStatus span = none ↔ mapGet span.Tags (str "error") ≠ some (str "true")) ∧
    (∀ other : Span, mapGet other.Tags (str "error") = mapGet span.Tags (str "error") →
      extractStatus other = extractStatus span) ∧
    (∀ (spare : GoString → List Nat) (recs : List (Option Span)) (out : Translated),
      toTraceSpans spare recs = some out →
      List.Forall₂ (fun s oc => oc.Status = extractStatus s) (validRecords recs) out.ocSpans) := by
  have htrue : str "true" ≠ [] := by decide
  have hiff := tagOf_eq_iff span.Tags (str "error") htrue
  refine ⟨?_, ?_, ?_, ?_⟩
  · unfold extractStatus
    by_cases h : tagOf span.Tags (str "error") = str "true"
    · simp [h, hiff.mp h]
    · have h2 : ¬ mapGet span.Tags (str "error") = some (str "true") := fun e => h (hiff.mpr e)
      simp [h, h2]
  · unfold extractStatus
    by_cases h : tagOf span.Tags (str "error") = str "true"
    · simp [h, hiff.mp h]
    · have h2 : ¬ mapGet span.Tags (str "error") = some (str "true") := fun e => h (hiff.mpr e)
      simp [h, h2]
  · intro other he
    unfold extractStatus tagOf
    rw [he]
  · intro spare recs out h
    apply List.Forall₂.imp _ (toTraceSpans_forall₂ h)
    intro s oc hoc
    subst hoc
    rfl

/-- C25: `extractKind` gives CLIENT exactly when the tag `span.kind` is present with the
value `client`, SERVER exactly when it is present with the value `server`, and
UNSPECIFIED in every other case, so when the tag is absent or the tag map is empty;
records with the same `span.kind` tag get the same kind; and every span that
`toTraceSpans` emits has the kind that `extractKind` gives for its record. -/
theorem C25_kind (span : Span) :
    (extractKind span = tracepb.Span_SpanKind.CLIENT ↔
      mapGet span.Tags (str "span.kind") = some (str "client")) ∧
    (extractKind span = tracepb.Span_SpanKind.SERVER ↔
      mapGet span.Tags (str "span.kind") = some (str "server")) ∧
    (extractKind span = tracepb.Span_SpanKind.SPAN_KIND_UNSPECIFIED ↔
      mapGet span.Tags (str "span.kind") ≠ some (str "client") ∧
      mapGet span.Tags (str "span.kind") ≠ some (str "server")) ∧
    (mapGet span.Tags (str "span.kind") = none →
      extractKind span = tracepb.Span_SpanKind.SPAN_KIND_UNSPECIFIED) ∧
    (span.Tags = [] → extractKind span = tracepb.Span_SpanKind.SPAN_KIND_UNSPECIFIED) ∧
    (∀ other : Span, mapGet other.Tags (str "span.kind") = mapGet span.Tags (str "span.kind") →
      extractKind other = extractKind span) ∧
    (∀ (spare : GoString → List Nat) (recs : List (Option Span)) (out : Translated),
      toTraceSpans spare recs = some out →
      List.Forall₂ (fun s oc => oc.Kind = extractKind s) (validRecords recs) out.ocSpans) := by
  have hc : str "client" ≠ [] := by decide
  have hs : str "server" ≠ [] := by decide
  have hcs : str "client" ≠ str "server" := by decide
  have hic := tagOf_eq_iff span.Tags (str "span.kind") hc
  have his := tagOf_eq_iff span.Tags (str "span.kind") hs
  have hmain : (extractKind span = tracepb.Span_SpanKind.CLIENT ↔
        mapGet span.Tags (str "span.kind") = some (str "client")) ∧
      (extractKind span = tracepb.Span_SpanKind.SERVER ↔
        mapGet span.Tags (str "span.kind") = some (str "server")) ∧
      (extractKind span = tracepb.Span_SpanKind.SPAN_KIND_UNSPECIFIED ↔
        mapGet span.Tags (str "span.kind") ≠ some (str "client") ∧
        mapGet span.Tags (str "span.kind") ≠ some (str "server")) := by
    unfold extractKind
    by_cases h1 : tagOf span.Tags (str "span.kind") = str "client"
    · have e1 := hic.mp h1
      simp [h1, e1, hcs]
    · have n1 : ¬ mapGet span.Tags (str "span.kind") = some (str "client") :=
        fun e => h1 (hic.mpr e)
      by_cases h2 : tagOf span.Tags (str "span.kind") = str "server"
      · have e2 := his.mp h2
        simp [h1, h2, e2, hcs.symm]
      · have n2 : ¬ mapGet span.Tags (str "span.kind") = some (str "server") :=
          fun e => h2 (his.mpr e)
        simp [h1, h2, n1, n2]
  refine ⟨hmain.1, hmain.2.1, hmain.2.2, ?_, ?_, ?_, ?_⟩
  · intro hn
    apply hmain.2.2.mpr
    rw [hn]
    simp
  · intro he
    apply hmain.2.2.mpr
    rw [he]
    simp [mapGet]
  · intro other he
    unfold extractKind tagOf
    rw [he]
  · intro spare recs out h
    apply List.Forall₂.imp _ (toTraceSpans_forall₂ h)
    intro s oc hoc
    subst hoc
    rfl

/-- C26 (as stated, refuted): a valid record of id 0 is emitted without `SpanId`, not
with the 8 bytes of its id. -/
theorem C26_counterexample :
    (toTraceSpans exactCapacity
        [some (recordOf 0 (str "0123456789abcdef0123456789abcdef"))]).map
      (fun out => out.ocSpans.map (fun oc => oc.SpanId)) = some [none] ∧
    validRecords [some (recordOf 0 (str "0123456789abcdef0123456789abcdef"))] =
      [recordOf 0 (str "0123456789abcdef0123456789abcdef")] ∧
    (none : Option (List Nat)) ≠ some (bigEndian8 0) ∧
    bigEndian8 0 = [0, 0, 0, 0, 0, 0, 0, 0] := by
  decide

/-- C26 (amended): when the trace id of every valid record decodes to 16 bytes or more,
`toTraceSpans` returns, with a nil error, and its output is, in input order, one span
for each valid record and nothing else (the other records are counted), with the
record's operation as name, its start and end timestamps unchanged, the first 16 bytes
of its decoded trace id, and its id as the 8-byte big-endian `SpanId` when the id is not
zero (no `SpanId` when it is). -/
theorem C26_order_preserving_map (spare : GoString → List Nat) (recs : List (Option Span))
    (hlen : ∀ s ∈ validRecords recs, 16 ≤ ((DecodeString s.TraceId).getD []).length) :
    ∃ out, toTraceSpans spare recs = some out ∧ out.err = none ∧
      out.invalidSpans = invalidCount recs ∧
      out.ocSpans.length + out.invalidSpans = recs.length ∧
      validRecords recs = recs.filterMap validRecord ∧
      List.Forall₂ (fun s oc =>
        oc.Name = s.Operation ∧ oc.StartTime = s.Start ∧ oc.EndTime = s.End ∧
        oc.SpanId = (if s.Id = 0 then none else some (bigEndian8 s.Id)) ∧
        oc.TraceId = ((DecodeString s.TraceId).getD []).take 16)
        (validRecords recs) out.ocSpans := by
  have hcap : ∀ s ∈ validRecords recs, hasCapacity spare s :=
    fun s hs => hasCapacity_of_length spare (hlen s hs)
  have hout := (toTraceSpans_spec spare recs).1 hcap
  refine ⟨_, hout, rfl, rfl, ?_, rfl, ?_⟩
  · simp only [List.length_map]
    exact validRecords_length recs
  · have hf := toTraceSpans_forall₂ hout
    simp only at hf
    have hmem : List.Forall₂ (fun s oc => s ∈ validRecords recs ∧ oc = emitted spare s)
        (validRecords recs) ((validRecords recs).map (emitted spare)) := by
      generalize validRecords recs = l
      induction l with
      | nil => exact List.Forall₂.nil
      | cons a l ih =>
        refine List.Forall₂.cons ⟨List.mem_cons_self _ _, rfl⟩ ?_
        exact List.Forall₂.imp (fun x y hxy => ⟨List.mem_cons_of_mem _ hxy.1, hxy.2⟩) ih
    apply List.Forall₂.imp _ hmem
    intro s oc hoc
    obtain ⟨hs, hoc⟩ := hoc
    subst hoc
    refine ⟨rfl, rfl, rfl, rfl, ?_⟩
    show (((DecodeString s.TraceId).getD []) ++ spare s.TraceId).take 16 = _
    exact List.take_append_of_le_length (hlen s hs)

/-- C26 (amended), at a batch of a null record, a record of trace id `not hex` and a
record of a trace id of 32 hexadecimal digits. -/
theorem C26_order_preserving_map_witness :
    ∃ out, toTraceSpans exactCapacity
        [none, some (recordOf 0 (str "not hex")),
         some (recordOf 1 (str "0123456789abcdef0123456789abcdef"))] = some out ∧
      out.err = none ∧
      out.invalidSpans = invalidCount
        [none, some (recordOf 0 (str "not hex")),
         some (recordOf 1 (str "0123456789abcdef0123456789abcdef"))] ∧
      out.ocSpans.length + out.invalidSpans =
        [none, some (recordOf 0 (str "not hex")),
         some (recordOf 1 (str "0123456789abcdef0123456789abcdef"))].length ∧
      validRecords [none, some (recordOf 0 (str "not hex")),
         some (recordOf 1 (str "0123456789abcdef0123456789abcdef"))] =
        [none, some (recordOf 0 (str "not hex")),
         some (recordOf 1 (str "0123456789abcdef0123456789abcdef"))].filterMap validRecord ∧
      List.Forall₂ (fun s oc =>
        oc.Name = s.Operation ∧ oc.StartTime = s.Start ∧ oc.EndTime = s.End ∧
        oc.SpanId = (if s.Id = 0 then none else some (bigEndian8 s.Id)) ∧
        oc.TraceId = ((DecodeString s.TraceId).getD []).take 16)
        (validRecords [none, some (recordOf 0 (str "not hex")),
         some (recordOf 1 (str "0123456789abcdef0123456789abcdef"))]) out.ocSpans :=
  C26_order_preserving_map exactCapacity
    [none, some (recordOf 0 (str "not hex")),
     some (recordOf 1 (str "0123456789abcdef0123456789abcdef"))] (by decide)

/-- C27 (the code at the failing input): a POST to the root path whose body decodes to
a batch of one record with an unset trace id makes the handler panic in `toTraceSpans`:
there is no response of status 200 and the consumer is not called. -/
theorem C27_post_panics :
    readBody ⟨str "/", str "POST", some [1], []⟩ = some [1] ∧
    toTraceSpans exactCapacity [some (recordOf 1 [])] = none ∧
    ShopifyReceiver.ServeHTTP exactCapacity unmarshalUnsetTraceId
      ⟨str "/", str "POST", some [1], []⟩ = Served.panic := by
  decide

/-- C28 (the code at the failing input): on a receiver that was never started, and on
one whose start failed to listen, `StopTraceReception` panics in `sr.server.Close()`
instead of returning an error. -/
theorem C28_stop_before_start_panics :
    ShopifyReceiver.New (str ":8096") (some 1) = Except.ok ⟨str ":8096", 1, false, false, none⟩ ∧
    ShopifyReceiver.StopTraceReception none ⟨str ":8096", 1, false, false, none⟩ =
      Stopped.panic ⟨str ":8096", 1, false, true, none⟩ ∧
    ShopifyReceiver.StopTraceReception none
      (ShopifyReceiver.StartTraceReception (some ReceiverError.listenFailed)
        ⟨str ":8096", 1, false, false, none⟩).1 =
      Stopped.panic ⟨str ":8096", 1, true, true, none⟩ := by
  decide

/-- C29: for every trace id `T` without `/`, every 64-bit span id `S` and every flag `b`,
decoding the encoded header gives back `(T, S, b)` if and only if
`len(T) + (number of decimal digits of S) + 5 ≤ 200`; beyond that bound the decoder
rejects the header, and `Extract` on the carrier that `Inject` filled fails. -/
theorem C29_roundtrip_domain (T : GoString) (S : Nat) (b : Bool) (hT : 47 ∉ T)
    (hS : S < u64) :
    (fromGoogleTraceHeader (toGoogleTraceHeader T S b) = ⟨T, S, b, true⟩ ↔
      T.length + decimalDigits S + 5 ≤ 200) ∧
    (toGoogleTraceHeader T S b).length = T.length + decimalDigits S + 5 ∧
    (¬ T.length + decimalDigits S + 5 ≤ 200 →
      (fromGoogleTraceHeader (toGoogleTraceHeader T S b)).ok = false ∧
      ∀ uni : GoString → GoString,
        textMapPropagator.Extract uni (TextMapCarrier.ForeachKey
          (textMapPropagator.Inject TextMapCarrier.Set ⟨T, S, b⟩ []).1) =
          Except.error PropError.ErrSpanContextCorrupted) := by
  have hlen : (toGoogleTraceHeader T S b).length = T.length + decimalDigits S + 5 := by
    rw [toGoogleTraceHeader_length, fmtUint_length_eq]
  refine ⟨⟨?_, ?_⟩, hlen, ?_⟩
  · intro h
    have hok : (fromGoogleTraceHeader (toGoogleTraceHeader T S b)).ok = true := by rw [h]
    have := (fromGoogleTraceHeader_ok_split hok).1
    omega
  · intro h
    exact roundtrip_of_length hT hS (by omega)
  · intro h
    have hbad : (fromGoogleTraceHeader (toGoogleTraceHeader T S b)).ok = false :=
      fromGoogleTraceHeader_long (by omega)
    refine ⟨hbad, ?_⟩
    intro uni
    apply Extract_corrupted
    refine ⟨(googleCloudTraceHeader, toGoogleTraceHeader T S b), ?_, ToLower_google uni, hbad⟩
    have hne : ¬ googleCloudTraceHeader = shopifyTraceHeader := google_ne_shopify
    simp [textMapPropagator.Inject, TextMapCarrier.Set, mapSet, hne]

/-- C29, at a trace id of 32 bytes and the largest span id. -/
theorem C29_roundtrip_domain_witness :
    (toGoogleTraceHeader (str "0123456789abcdef0123456789abcdef") 18446744073709551615
      true).length =
      (str "0123456789abcdef0123456789abcdef").length +
        decimalDigits 18446744073709551615 + 5 :=
  (C29_roundtrip_domain (str "0123456789abcdef0123456789abcdef") 18446744073709551615 true
    (by decide) (by decide)).2.1

/-- C30: on a queue within capacity, `dequeueSpans` handles a prefix of the queue: the
batch is, in the queue's order, the spans of that prefix whose own footprint is within
the ceiling, the other spans of the prefix are dropped, and the queue afterwards is the
rest of the queue, with its first span, the one pushed back, moved to the tail; so the
queue before is a rearrangement of batch, dropped spans and queue afterwards. -/
theorem C30_conservation (size : Span → Nat) (u : uploader)
    (hcap : u.spanChannel.length ≤ u.bufferLimit) :
    ∃ processed rest dropped, u.spanChannel = processed ++ rest ∧
      (u.dequeueSpans size).1 = processed.filter (fitsCeiling size u) ∧
      dropped = processed.filter (fun s => !fitsCeiling size u s) ∧
      (∀ s ∈ dropped, (footprint size s : Int) > u.byteLimit) ∧
      (∀ s ∈ (u.dequeueSpans size).1, (footprint size s : Int) ≤ u.byteLimit) ∧
      ((rest = [] ∧ (u.dequeueSpans size).2.spanChannel = []) ∨
        (∃ s rest1, rest = s :: rest1 ∧ (footprint size s : Int) ≤ u.byteLimit ∧
          (u.dequeueSpans size).2.spanChannel = rest1 ++ [s])) ∧
      (u.dequeueSpans size).1.Sublist u.spanChannel ∧
      u.spanChannel.Perm
        ((u.dequeueSpans size).1 ++ dropped ++ (u.dequeueSpans size).2.spanChannel) := by
  obtain ⟨processed, rest, hq, hb, hr⟩ := dequeueSpans_exact size u hcap
  refine ⟨processed, rest, processed.filter (fun s => !fitsCeiling size u s), hq, hb, rfl,
    ?_, ?_, ?_, ?_, ?_⟩
  · intro s hs
    have := (List.mem_filter.mp hs).2
    simp only [fitsCeiling, Bool.not_eq_true', decide_eq_false_iff_not] at this
    omega
  · intro s hs
    rw [hb] at hs
    simpa [fitsCeiling] using (List.mem_filter.mp hs).2
  · rcases hr with h | ⟨s, rest1, h1, h2, h3⟩
    · exact Or.inl h
    · exact Or.inr ⟨s, rest1, h1, by simpa [fitsCeiling] using h2, h3⟩
  · rw [hb, hq]
    exact (List.filter_sublist _).trans (List.sublist_append_left _ _)
  · rw [hb]
    have hp : processed.Perm (processed.filter (fitsCeiling size u) ++
        processed.filter (fun s => !fitsCeiling size u s)) :=
      (List.filter_append_perm (fitsCeiling size u) processed).symm
    have hrest : rest.Perm (u.dequeueSpans size).2.spanChannel := by
      rcases hr with ⟨h1, h2⟩ | ⟨s, rest1, h1, _, h3⟩
      · rw [h1, h2]
      · rw [h1, h3]
        exact (List.perm_append_singleton s rest1).symm
    rw [hq]
    exact List.Perm.append hp hrest

/-- C30, at the ceiling 10 and a queue of spans of footprint 7, 22 and 7. -/
theorem C30_conservation_witness :
    ∃ processed rest dropped,
      (⟨10, 5, [spanOfSize 1 5, spanOfSize 2 20, spanOfSize 3 5], none, []⟩ :
        uploader).spanChannel = processed ++ rest ∧
      (uploader.dequeueSpans sizeOfOperation
        ⟨10, 5, [spanOfSize 1 5, spanOfSize 2 20, spanOfSize 3 5], none, []⟩).1 =
        processed.filter (fitsCeiling sizeOfOperation
          ⟨10, 5, [spanOfSize 1 5, spanOfSize 2 20, spanOfSize 3 5], none, []⟩) ∧
      dropped = processed.filter (fun s => !fitsCeiling sizeOfOperation
        ⟨10, 5, [spanOfSize 1 5, spanOfSize 2 20, spanOfSize 3 5], none, []⟩ s) ∧
      (∀ s ∈ dropped, (footprint sizeOfOperation s : Int) >
        (⟨10, 5, [spanOfSize 1 5, spanOfSize 2 20, spanOfSize 3 5], none, []⟩ :
          uploader).byteLimit) ∧
      (∀ s ∈ (uploader.dequeueSpans sizeOfOperation
          ⟨10, 5, [spanOfSize 1 5, spanOfSize 2 20, spanOfSize 3 5], none, []⟩).1,
        (footprint sizeOfOperation s : Int) ≤
          (⟨10, 5, [spanOfSize 1 5, spanOfSize 2 20, spanOfSize 3 5], none, []⟩ :
            uploader).byteLimit) ∧
      ((rest = [] ∧ (uploader.dequeueSpans sizeOfOperation
          ⟨10, 5, [spanOfSize 1 5, spanOfSize 2 20, spanOfSize 3 5], none, []⟩).2.spanChannel =
          []) ∨
        (∃ s rest1, rest = s :: rest1 ∧ (footprint sizeOfOperation s : Int) ≤
            (⟨10, 5, [spanOfSize 1 5, spanOfSize 2 20, spanOfSize 3 5], none, []⟩ :
              uploader).byteLimit ∧
          (uploader.dequeueSpans sizeOfOperation
            ⟨10, 5, [spanOfSize 1 5, spanOfSize 2 20, spanOfSize 3 5], none,
              []⟩).2.spanChannel = rest1 ++ [s])) ∧
      (uploader.dequeueSpans sizeOfOperation
        ⟨10, 5, [spanOfSize 1 5, spanOfSize 2 20, spanOfSize 3 5], none, []⟩).1.Sublist
        (⟨10, 5, [spanOfSize 1 5, spanOfSize 2 20, spanOfSize 3 5], none, []⟩ :
          uploader).spanChannel ∧
      (⟨10, 5, [spanOfSize 1 5, spanOfSize 2 20, spanOfSize 3 5], none, []⟩ :
        uploader).spanChannel.Perm
        ((uploader.dequeueSpans sizeOfOperation
            ⟨10, 5, [spanOfSize 1 5, spanOfSize 2 20, spanOfSize 3 5], none, []⟩).1 ++
          dropped ++
          (uploader.dequeueSpans sizeOfOperation
            ⟨10, 5, [spanOfSize 1 5, spanOfSize 2 20, spanOfSize 3 5], none,
              []⟩).2.spanChannel) :=
  C30_conservation sizeOfOperation
    ⟨10, 5, [spanOfSize 1 5, spanOfSize 2 20, spanOfSize 3 5], none, []⟩ (by decide)

/-- C31: with a stats client configured, for every batch and every queue state, the
total that `reenqueueOrFail` and the `enqueue` calls it makes add to the dropped-span
counter is the number of spans of the batch minus the number of spans put back on the
queue, the latter being the growth of the queue. -/
theorem C31_drop_accounting (u : uploader) (batch : List Span) (hdog : u.tracerDog ≠ none) :
    counterTotal (u.reenqueueOrFail batch) (str "proxy_producer.dropped_span") =
      counterTotal u (str "proxy_producer.dropped_span") +
        ((batch.length : Int) -
          ((batch.take (u.bufferLimit - u.spanChannel.length)).length : Int)) ∧
    (u.reenqueueOrFail batch).spanChannel =
      u.spanChannel ++ batch.take (u.bufferLimit - u.spanChannel.length) ∧
    ((u.reenqueueOrFail batch).spanChannel.length : Int) - (u.spanChannel.length : Int) =
      ((batch.take (u.bufferLimit - u.spanChannel.length)).length : Int) := by
  unfold uploader.reenqueueOrFail
  refine ⟨reenqueueLoop_dropped batch u hdog, reenqueueLoop_spanChannel batch u, ?_⟩
  rw [reenqueueLoop_spanChannel, List.length_append]
  push_cast
  omega

/-- C31, at a queue of one span with room for one more and a batch of three spans: one
span is put back and 2 is added to the counter. -/
theorem C31_drop_accounting_witness :
    counterTotal (uploader.reenqueueOrFail ⟨10, 2, [spanOfSize 1 5], some [], []⟩
        [spanOfSize 2 5, spanOfSize 3 5, spanOfSize 4 5]) (str "proxy_producer.dropped_span") =
      counterTotal ⟨10, 2, [spanOfSize 1 5], some [], []⟩ (str "proxy_producer.dropped_span") +
        ((([spanOfSize 2 5, spanOfSize 3 5, spanOfSize 4 5] : List Span).length : Int) -
          ((([spanOfSize 2 5, spanOfSize 3 5, spanOfSize 4 5] : List Span).take
            ((⟨10, 2, [spanOfSize 1 5], some [], []⟩ : uploader).bufferLimit -
              (⟨10, 2, [spanOfSize 1 5], some [], []⟩ :
                uploader).spanChannel.length)).length : Int)) :=
  (C31_drop_accounting ⟨10, 2, [spanOfSize 1 5], some [], []⟩
    [spanOfSize 2 5, spanOfSize 3 5, spanOfSize 4 5] (by decide)).1

end Tracing
